import Mathlib

/-!
# Mesh producers (`CSphere`, `CHyperboloid`, `CGenImplicitSurf`)

A shallow embedding of `src/sphere/sphere.cpp` and
`src/hyperboloid/Hyperboloid.cpp`, and a model of the marching-cubes
polygonizer declared in `src/GenImplicitSurf/GenImplicitSurf.h`.

* Numbers.  The C++ code computes in `float`.  The embedding is generic in an
  ordered field `K` with a floor function, so that it runs on `ℚ` and can be
  read in exact real arithmetic on `ℝ`.  The functions of `<cmath>` the code
  calls, and the constant `tc::M_PI`, are the fields of `CMath K`.
* Rounding.  Each producer is embedded twice.  `CSphere.UpdateEntity` and
  `CHyperboloid.UpdateEntity` compute without rounding.
  `CSphere.UpdateEntityFloat` and `CHyperboloid.UpdateEntityFloat` take the
  float operations that decide the control flow (loop bounds, loop updates,
  conversions of an `int` to `float`) from a `FloatArith K`: `binary32` is
  IEEE 754 single precision with round-to-nearest-even, without overflow and
  without NaN, and `exactArith` gives back the build without rounding.
* Division.  The quotients `(float)i / n` and `(float)i / density` of the
  sphere are `0 / 0` for a zero count; `CSphere.UpdateEntityChecked` gives
  such a position no value.
* Mesh sink.  `AddVertex` and `AddFace` belong to the base class `CMesh`; a
  build is modelled as the list of calls it makes on the sink, in order.
* Counters.  An `int` that starts at `0` and is only incremented is a `Nat`;
  an `int` read from an input is an `Int`.
* Inputs.  `X.GetValue(default)` is the bound value of input `X`; the build is
  the one of a dirty entity (`IsDirty()` holds).
-/

set_option linter.unusedSectionVars false
set_option linter.unusedVariables false

namespace Nome.Scene

/-- Position handed to `AddVertex`: the braced triple `{ x, y, z }`. -/
structure Vector3 (K : Type) where
  x : K
  y : K
  z : K

/-- One call of the producer on the mesh sink. -/
inductive SinkCall (K : Type) where
  | AddVertex (name : String) (pos : Vector3 K)
  | AddFace (name : String) (face : List String)

/-- The `<cmath>` functions and the constant `tc::M_PI` used by the producers. -/
structure CMath (K : Type) where
  M_PI : K
  cosf : K → K
  sinf : K → K
  sinh : K → K
  cosh : K → K
  sqrt : K → K

/-! ## What a build leaves in the sink -/

/-- Name and position of the vertices added by a build, in order. -/
def vertices {K : Type} : List (SinkCall K) → List (String × Vector3 K)
  | [] => []
  | SinkCall.AddVertex name pos :: rest => (name, pos) :: vertices rest
  | SinkCall.AddFace _ _ :: rest => vertices rest

/-- Name and vertex-name list of the faces added by a build, in order. -/
def faces {K : Type} : List (SinkCall K) → List (String × List String)
  | [] => []
  | SinkCall.AddVertex _ _ :: rest => faces rest
  | SinkCall.AddFace name face :: rest => (name, face) :: faces rest

/-- Names passed to `AddVertex`, in order. -/
def vertexNames {K : Type} (calls : List (SinkCall K)) : List String :=
  (vertices calls).map Prod.fst

/-- Referential closure of a build: at every `AddFace` call, each vertex name
of the face was passed to `AddVertex` by an earlier call. -/
def RefClosed {K : Type} (calls : List (SinkCall K)) : Prop :=
  ∀ (before : List (SinkCall K)) (name : String) (face : List String)
    (after : List (SinkCall K)),
    calls = before ++ SinkCall.AddFace name face :: after →
      ∀ v ∈ face, v ∈ vertexNames before

/-- Value of a list of decimal digit characters, most significant first,
starting from `acc`: the inverse of `std::to_string` on a non-negative `int`. -/
def digitsValue (l : List Char) (acc : Nat) : Nat :=
  l.foldl (fun a c => 10 * a + (c.toNat - 48)) acc

section Embedding

variable {K : Type} [LinearOrderedField K] [FloorRing K]

/-- The C cast `(int)x` of a float: truncation toward zero. -/
def castInt (x : K) : Int :=
  if 0 ≤ x then ⌊x⌋ else ⌈x⌉

/-- Indices visited by `for (int j = 0; j < bound; j++)` when `bound` is a float. -/
def floatBoundRange (bound : K) : List Nat :=
  List.range ⌈bound⌉.toNat

/-- Indices visited by `for (int i = 0; i < bound; i++)` when `bound` is an int. -/
def intBoundRange (bound : Int) : List Nat :=
  List.range bound.toNat

/-! ## Sphere -/

/-- Vertex name `"v" + std::to_string(i) + "_" + std::to_string(j)`. -/
def CSphere.vName (i j : Nat) : String :=
  "v" ++ toString i ++ "_" ++ toString j

/-- Face name `"f1_" + std::to_string(i) + "_" + std::to_string(j)`. -/
def CSphere.fName (i j : Nat) : String :=
  "f1_" ++ toString i ++ "_" ++ toString j

/-- Position computed by one iteration of `CSphere::addCircle`:
`theta = (float)i / n * 2.f * M_PI`, `x = radius * cosf(zTheta) * cosf(theta)`,
`y = radius * cosf(zTheta) * sinf(theta)`, `z = radius * sinf(zTheta)`. -/
def CSphere.circlePoint (M : CMath K) (n : Int) (radius zTheta : K) (i : Nat) : Vector3 K :=
  let theta := (i : K) / (n : K) * 2 * M.M_PI
  let x := radius * M.cosf zTheta * M.cosf theta
  let y := radius * M.cosf zTheta * M.sinf theta
  let z := radius * M.sinf zTheta
  ⟨x, y, z⟩

/-- Body of the loop of `CSphere::addCircle` over the remaining indices `i`,
with the running value of `currPoints`; the `break` ends the loop. -/
def CSphere.addCircleLoop (M : CMath K) (n : Int) (radius zTheta : K)
    (vertexSetName : Nat) (maxPoints : Int) : List Nat → Int → List (SinkCall K)
  | [], _ => []
  | i :: rest, currPoints =>
    if currPoints ≥ maxPoints + 1 then []
    else
      SinkCall.AddVertex (CSphere.vName vertexSetName i)
          (CSphere.circlePoint M n radius zTheta i) ::
        CSphere.addCircleLoop M n radius zTheta vertexSetName maxPoints rest (currPoints + 1)

/-- Number of vertices of one ring: the loop bound `n + 1` cut by the `break`
at `maxPoints + 1`. -/
def CSphere.ringSize (n maxPoints : Int) : Nat :=
  min (maxPoints + 1).toNat (n + 1).toNat

/-- Embedding of `CSphere::addCircle`: `for (int i = 0; i < (n + 1); i++)`. -/
def CSphere.addCircle (M : CMath K) (n : Int) (radius zTheta : K)
    (vertexSetName : Nat) (maxPoints : Int) : List (SinkCall K) :=
  CSphere.addCircleLoop M n radius zTheta vertexSetName maxPoints (intBoundRange (n + 1)) 0

/-- The vector `upperFace` of one iteration: the two guarded `push_back`s
share the condition `guard`. -/
def CSphere.upperFace (guard : Bool) (i j : Nat) : List String :=
  (if guard then [CSphere.vName i (j + 1)] else []) ++
    [CSphere.vName i j, CSphere.vName (i + 1) j] ++
    (if guard then [CSphere.vName (i + 1) (j + 1)] else [])

/-- The vertex part of `CSphere::UpdateEntity`: one `addCircle` per ring
`for (int i = 0; i < density + 1; i++)`. -/
def CSphere.addVertices (M : CMath K) (n : Int) (radius : K) (density : Int)
    (maxDegrees maxPoints : K) : List (SinkCall K) :=
  (intBoundRange (density + 1)).flatMap fun i =>
    let zTheta := ((i : K) / (density : K) * maxDegrees * M.M_PI) - M.M_PI / 2
    CSphere.addCircle M n radius zTheta i (castInt maxPoints)

/-- The face part of `CSphere::UpdateEntity`: the branch `crossDegrees == 360.0f`
and the `else` branch, each
`for (int i = 0; i < density; i++) for (int j = 0; j < maxPoints; j++)`. -/
def CSphere.addFaces (density : Int) (crossDegrees maxPoints : K) : List (SinkCall K) :=
  if crossDegrees = 360 then
    (intBoundRange density).flatMap fun i =>
      (floatBoundRange maxPoints).map fun j =>
        SinkCall.AddFace (CSphere.fName i j)
          (CSphere.upperFace (decide (((j : K) + 1) < maxPoints + 1)) i j)
  else
    (intBoundRange density).flatMap fun i =>
      (floatBoundRange maxPoints).map fun j =>
        SinkCall.AddFace (CSphere.fName i j)
          (CSphere.upperFace (decide (((j : K) + 1) < maxPoints)) i j)

/-- Embedding of `CSphere::UpdateEntity` on a dirty entity. -/
def CSphere.UpdateEntity (M : CMath K) (Segments Radius Density Degrees CrossDegrees : K) :
    List (SinkCall K) :=
  let n : Int := castInt Segments
  let radius := Radius
  let density : Int := castInt Density
  let degrees := if Degrees > 360 then 360 else Degrees
  let crossDegrees := if CrossDegrees > 360 then 360 else CrossDegrees
  let maxDegrees := degrees / 360
  let maxCrossDegrees := crossDegrees / 360
  let maxPoints : K := maxCrossDegrees * (n : K)
  CSphere.addVertices M n radius density maxDegrees maxPoints ++
    CSphere.addFaces density crossDegrees maxPoints

/-! ## Hyperboloid -/

/-- Vertex name `"v_" + std::to_string(uCounter) + "_" + std::to_string(vCounter)`
followed by the sheet's suffix (`"_pos"`, `"_neg"`, or nothing for one sheet). -/
def CHyperboloid.vName (uCounter vCounter : Nat) (suffix : String) : String :=
  "v_" ++ toString uCounter ++ "_" ++ toString vCounter ++ suffix

/-- Face name `"f1_" + std::to_string(faceCounter++)`. -/
def CHyperboloid.fName (faceCounter : Nat) : String :=
  "f1_" ++ toString faceCounter

/-- Point of the positive sheet: `{ x, y, z }` with `x = a * sinh(u) * cosf(v)`,
`y = a * sinh(u) * sinf(v)`, `z = c * cosh(u)`. -/
def CHyperboloid.posPoint (M : CMath K) (a c u v : K) : Vector3 K :=
  ⟨a * M.sinh u * M.cosf v, a * M.sinh u * M.sinf v, c * M.cosh u⟩

/-- Point of the negative sheet: the same `x`, `y`, `z`, added as `{ -x, -y, -z }`. -/
def CHyperboloid.negPoint (M : CMath K) (a c u v : K) : Vector3 K :=
  ⟨-(a * M.sinh u * M.cosf v), -(a * M.sinh u * M.sinf v), -(c * M.cosh u)⟩

/-- Point of the one-sheeted surface: `x = a * sqrt(1 + pow(u, 2)) * cosf(v)`,
`y = a * sqrt(1 + pow(u, 2)) * sinf(v)`, `z = c * u`. -/
def CHyperboloid.onePoint (M : CMath K) (a c u v : K) : Vector3 K :=
  ⟨a * M.sqrt (1 + u ^ 2) * M.cosf v, a * M.sqrt (1 + u ^ 2) * M.sinf v, c * u⟩

/-- The inner loop
`for (v = ...; v < 2*M_PI + (vIncrement/5); v += vIncrement) { AddVertex(...); vCounter++; }`
run from the state `(v, vCounter)` for at most `fuel` iterations.  The result
is the calls made and the final `vCounter`; `none` when the fuel runs out
before the guard fails. -/
def CHyperboloid.vLoop (M : CMath K) (vIncrement : K) (uCounter : Nat) (suffix : String)
    (point : K → Vector3 K) : Nat → K → Nat → Option (List (SinkCall K) × Nat)
  | 0, v, vCounter =>
    if v < 2 * M.M_PI + vIncrement / 5 then none else some ([], vCounter)
  | fuel + 1, v, vCounter =>
    if v < 2 * M.M_PI + vIncrement / 5 then
      match CHyperboloid.vLoop M vIncrement uCounter suffix point fuel (v + vIncrement)
          (vCounter + 1) with
      | none => none
      | some (calls, vEnd) =>
        some (SinkCall.AddVertex (CHyperboloid.vName uCounter vCounter suffix) (point v) :: calls,
          vEnd)
    else some ([], vCounter)

/-- The outer loop `for (float u = ...; guard(u); u = next(u)) { vCounter = 0; <v loop>; uCounter++; }`
run from the state `(u, uCounter, vCounter)` for at most `fuel` iterations,
each inner loop having `vFuel`.  The result is the calls made and the final
`uCounter` and `vCounter`. -/
def CHyperboloid.uLoop (M : CMath K) (vIncrement : K) (suffix : String) (guard : K → Bool)
    (next : K → K) (point : K → K → Vector3 K) (vFuel : Nat) :
    Nat → K → Nat → Nat → Option (List (SinkCall K) × Nat × Nat)
  | 0, u, uCounter, vCounter =>
    if guard u then none else some ([], uCounter, vCounter)
  | fuel + 1, u, uCounter, vCounter =>
    if guard u then
      match CHyperboloid.vLoop M vIncrement uCounter suffix (point u) vFuel 0 0 with
      | none => none
      | some (ring, vEnd) =>
        match CHyperboloid.uLoop M vIncrement suffix guard next point vFuel fuel (next u)
            (uCounter + 1) vEnd with
        | none => none
        | some (calls, uEnd, vEnd2) => some (ring ++ calls, uEnd, vEnd2)
    else some ([], uCounter, vCounter)

/-- The vector `face` of one iteration of a face loop. -/
def CHyperboloid.face (suffix : String) (u v : Nat) : List String :=
  [CHyperboloid.vName u v suffix, CHyperboloid.vName (u + 1) v suffix,
    CHyperboloid.vName (u + 1) (v + 1) suffix, CHyperboloid.vName u (v + 1) suffix]

/-- Inner face loop over the remaining `v`, threading `faceCounter`. -/
def CHyperboloid.faceRow (K : Type) (suffix : String) (u : Nat) :
    List Nat → Nat → List (SinkCall K) × Nat
  | [], faceCounter => ([], faceCounter)
  | v :: vs, faceCounter =>
    let rest := CHyperboloid.faceRow K suffix u vs (faceCounter + 1)
    (SinkCall.AddFace (CHyperboloid.fName faceCounter) (CHyperboloid.face suffix u v) :: rest.1,
      rest.2)

/-- Outer face loop over the remaining `u`, threading `faceCounter`. -/
def CHyperboloid.faceRows (K : Type) (suffix : String) (vs : List Nat) :
    List Nat → Nat → List (SinkCall K) × Nat
  | [], faceCounter => ([], faceCounter)
  | u :: us, faceCounter =>
    let row := CHyperboloid.faceRow K suffix u vs faceCounter
    let rest := CHyperboloid.faceRows K suffix vs us row.2
    (row.1 ++ rest.1, rest.2)

/-- One sheet's face loops
`for (int u = 0; u + 1 < uCounter; u++) for (int v = 0; v < vCounter - 1; v++)`. -/
def CHyperboloid.faceLoop (K : Type) (suffix : String) (uCounter vCounter faceCounter : Nat) :
    List (SinkCall K) × Nat :=
  CHyperboloid.faceRows K suffix (intBoundRange ((vCounter : Int) - 1))
    (intBoundRange ((uCounter : Int) - 1)) faceCounter

/-- The vertex part of `CHyperboloid::UpdateEntity` for the validated `sheet`:
the calls made and the values of `uCounter` and `vCounter` it leaves. -/
def CHyperboloid.addVertices (M : CMath K) (fuel : Nat) (a c uMax uIncrement vIncrement : K)
    (sheet : Int) : Option (List (SinkCall K) × Nat × Nat) :=
  if sheet > 0 then
    match CHyperboloid.uLoop M vIncrement "_pos"
        (fun u => decide (u < uMax + uIncrement / 5)) (fun u => u + uIncrement)
        (CHyperboloid.posPoint M a c) fuel fuel 0 0 0 with
    | none => none
    | some (pos, uCounter, vCounter) =>
      if sheet = 2 then
        match CHyperboloid.uLoop M vIncrement "_neg"
            (fun u => decide (u > -1 * (uMax + uIncrement / 5))) (fun u => u - uIncrement)
            (CHyperboloid.negPoint M a c) fuel fuel 0 0 vCounter with
        | none => none
        | some (neg, uCounter2, vCounter2) => some (pos ++ neg, uCounter2, vCounter2)
      else some (pos, uCounter, vCounter)
  else
    CHyperboloid.uLoop M vIncrement ""
      (fun u => decide (u < uMax + uIncrement / 5)) (fun u => u + uIncrement)
      (CHyperboloid.onePoint M a c) fuel fuel (-1 * (uMax + uIncrement / 5)) 0 0

/-- The face part of `CHyperboloid::UpdateEntity`, with `faceCounter` starting at `0`. -/
def CHyperboloid.addFaces (K : Type) (sheet : Int) (uCounter vCounter : Nat) :
    List (SinkCall K) :=
  if sheet > 0 then
    let pos := CHyperboloid.faceLoop K "_pos" uCounter vCounter 0
    if sheet = 2 then
      pos.1 ++ (CHyperboloid.faceLoop K "_neg" uCounter vCounter pos.2).1
    else pos.1
  else (CHyperboloid.faceLoop K "" uCounter vCounter 0).1

/-- The value of `sheet` after `int sheet = (int)Sheet.GetValue(0);` and
`if (sheet < 0 || sheet > 2) sheet = 0;`. -/
def CHyperboloid.validSheet (Sheet : K) : Int :=
  let sheet : Int := castInt Sheet
  if sheet < 0 ∨ sheet > 2 then 0 else sheet

/-- Embedding of `CHyperboloid::UpdateEntity` on a dirty entity.  Every float
loop may run `fuel` iterations; the result is `none` when one of them needs
more. -/
def CHyperboloid.UpdateEntity (M : CMath K) (fuel : Nat)
    (A C UMax UIncrement VIncrement Sheet : K) : Option (List (SinkCall K)) :=
  let a := A
  let c := C
  let uMax := UMax
  let uIncrement := uMax / UIncrement
  let vIncrement := M.M_PI / VIncrement
  let sheet : Int := CHyperboloid.validSheet Sheet
  match CHyperboloid.addVertices M fuel a c uMax uIncrement vIncrement sheet with
  | none => none
  | some (vertices, uCounter, vCounter) =>
    some (vertices ++ CHyperboloid.addFaces K sheet uCounter vCounter)

/-- Closed form of the calls of one nest of vertex loops: `rings` rings of
`perRing` vertices each, ring `k` computed at the parameter `uOf k` and its
vertex `m` at `v = m * vIncrement`.  The loops are proved to make these calls. -/
def CHyperboloid.grid (vIncrement : K) (suffix : String) (point : K → K → Vector3 K)
    (uOf : Nat → K) (rings perRing : Nat) : List (SinkCall K) :=
  (List.range rings).flatMap fun k =>
    (List.range perRing).map fun m =>
      SinkCall.AddVertex (CHyperboloid.vName k m suffix) (point (uOf k) ((m : K) * vIncrement))

/-- Number of rings a `u` loop makes in exact arithmetic: none when `uMax` is
zero (the guard fails at once), `n` otherwise. -/
def CHyperboloid.ringCount (uMax : K) (n : Nat) : Nat :=
  if uMax = 0 then 0 else n

/-- The faces of one sheet as the specification words them: one quad for each
`(u, v)` with `0 ≤ u < U - 1` and `0 ≤ v < V - 1`, listing the names of
`(u, v)`, `(u + 1, v)`, `(u + 1, v + 1)`, `(u, v + 1)` in that order with the
sheet's suffix, the faces numbered consecutively from `faceCounter`.  The face
loops are proved to add these faces. -/
def CHyperboloid.quads (suffix : String) (U V faceCounter : Nat) :
    List (String × List String) :=
  (List.range (U - 1)).flatMap fun u =>
    (List.range (V - 1)).map fun v =>
      (CHyperboloid.fName (faceCounter + u * (V - 1) + v),
        [CHyperboloid.vName u v suffix, CHyperboloid.vName (u + 1) v suffix,
          CHyperboloid.vName (u + 1) (v + 1) suffix, CHyperboloid.vName u (v + 1) suffix])

/-- The suffixes of the sheets a build makes, in order, by validated `sheet`. -/
def CHyperboloid.sheetSuffixes (sheet : Int) : List String :=
  if sheet > 0 then (if sheet = 2 then ["_pos", "_neg"] else ["_pos"]) else [""]

end Embedding

/-- A `CMath ℚ` for running the embedding: the trigonometric fields are
placeholders, so only names and counts of a run on `ℚ` are meaningful. -/
def ratMath : CMath ℚ := ⟨22 / 7, fun _ => 0, fun _ => 0, fun _ => 0, fun _ => 0, fun _ => 0⟩

/-! ## Implicit surface (marching cubes)

Only `src/GenImplicitSurf/GenImplicitSurf.h` is present: it declares the types
`Xyz`, `Triangle`, `Gridcell` and the member functions `functionXyz`,
`runMarchingCubes`, `addVerticesAndFaces` and `UpdateEntity`.  The bodies and
the case tables are modelled from the specification (§4.2, §6, §7). -/

/-- Point of the polygonizer: `typedef struct { double x, y, z; } Xyz;`. -/
structure Xyz (K : Type) where
  x : K
  y : K
  z : K

/-- Triangle as three indices into the vertex array:
`typedef struct { int p[3]; } Triangle;`. -/
structure Triangle where
  p : List Nat

/-- One voxel, its 8 corners and the 8 field samples there:
`typedef struct { Xyz p[8]; double val[8]; } Gridcell;`. -/
structure Gridcell (K : Type) where
  p : List (Xyz K)
  val : List K

/-- Error kinds that abort a build of the implicit surface before any call on
the sink (spec §7). -/
inductive BuildError where
  | InvalidBounds
  | InvalidResolution

section ImplicitSurface

variable {K : Type} [LinearOrderedField K] [FloorRing K]

/-- Modelled from the spec: the canonical corner order of a cell (§6), missing
from `src/` with the body of `runMarchingCubes`; index `0..7` to offset. -/
def CGenImplicitSurf.cornerOffsets : List (Nat × Nat × Nat) :=
  [(0, 0, 0), (1, 0, 0), (1, 1, 0), (0, 1, 0), (0, 0, 1), (1, 0, 1), (1, 1, 1), (0, 1, 1)]

/-- Modelled from the spec: the canonical edge order `0..11` (§6), missing from
`src/`; edge index to the pair of corners it connects. -/
def CGenImplicitSurf.edgeCorners : List (Nat × Nat) :=
  [(0, 1), (1, 2), (2, 3), (3, 0), (4, 5), (5, 6), (6, 7), (7, 4), (0, 4), (1, 5), (2, 6),
    (3, 7)]

/-- Modelled from the spec: bits `b, b + 1, ...` of the case index (§4.2 step
2.2), missing from `src/`; bit `b` is set iff corner `b` is inside, and a
corner is inside when `f(p) < τ` with `τ = 0`. -/
def CGenImplicitSurf.caseIndexFrom (b : Nat) : List K → Nat
  | [] => 0
  | f :: rest => (if f < 0 then 2 ^ b else 0) + CGenImplicitSurf.caseIndexFrom (b + 1) rest

/-- Modelled from the spec: the case index `c ∈ [0, 255]` of a cell (§4.2 step
2.2), missing from `src/`. -/
def CGenImplicitSurf.caseIndex (val : List K) : Nat :=
  CGenImplicitSurf.caseIndexFrom 0 val

/-- Modelled from the spec: bits `e, e + 1, ...` of an entry of the edge table,
missing from `src/`; an edge carries an intersection where `f` changes sign
(§3), so bit `e` is set iff the two corners of edge `e` are on different sides
in case `c`. -/
def CGenImplicitSurf.edgeMaskFrom (c : Nat) (e : Nat) : List (Nat × Nat) → Nat
  | [] => 0
  | (a, b) :: rest =>
    (if c.testBit a = c.testBit b then 0 else 2 ^ e) +
      CGenImplicitSurf.edgeMaskFrom c (e + 1) rest

/-- Modelled from the spec: the 256-entry edge table `EDGE_TABLE` (§4.2, §9),
missing from `src/`; the 12-bit mask of the edges intersected in case `c`.
Its entries are those of the published table (`0x0`, `0x109`, `0x203`,
`0x30a`, ..., `0x0`). -/
def CGenImplicitSurf.EDGE_TABLE (c : Nat) : Nat :=
  CGenImplicitSurf.edgeMaskFrom c 0 CGenImplicitSurf.edgeCorners

/-- Modelled from the spec: edge interpolation (§4.2 step 2.4), missing from
`src/`; `t = (τ - f₀) / (f₁ - f₀)`, and `t = 0.5` when `|f₁ - f₀| < ε` with
`ε = 1e-12`; the point is `p₀ + t·(p₁ - p₀)`. -/
def CGenImplicitSurf.interpolate (p0 p1 : Xyz K) (f0 f1 : K) : Xyz K :=
  let t : K := if |f1 - f0| < 1 / 10 ^ 12 then 1 / 2 else (0 - f0) / (f1 - f0)
  ⟨p0.x + t * (p1.x - p0.x), p0.y + t * (p1.y - p0.y), p0.z + t * (p1.z - p0.z)⟩

/-- Modelled from the spec: the array `edgePoint[e]` of a cell from edge `e` on
(§4.2 step 2.4), missing from `src/`; computed for the set bits of `edgeMask`,
the origin elsewhere. -/
def CGenImplicitSurf.edgePointsFrom (cell : Gridcell K) (edgeMask : Nat) (e : Nat) :
    List (Nat × Nat) → List (Xyz K)
  | [] => []
  | (a, b) :: rest =>
    (if edgeMask.testBit e then
      CGenImplicitSurf.interpolate (cell.p.getD a ⟨0, 0, 0⟩) (cell.p.getD b ⟨0, 0, 0⟩)
        (cell.val.getD a 0) (cell.val.getD b 0)
    else ⟨0, 0, 0⟩) :: CGenImplicitSurf.edgePointsFrom cell edgeMask (e + 1) rest

/-- Modelled from the spec: the entries of a `TRI_TABLE` row in groups of three
(§4.2 step 2.5), missing from `src/`. -/
def CGenImplicitSurf.triples : List Nat → List (Nat × Nat × Nat)
  | a :: b :: c :: rest => (a, b, c) :: CGenImplicitSurf.triples rest
  | _ => []

/-- Modelled from the spec: the triangles of one cell (§4.2 steps 2.2 to 2.5),
missing from `src/`.  A cell whose `edgeMask` is `0` is skipped.  The triangle
table `TRI_TABLE`, a sequence of edge indices terminated by `-1` for every
case, is not printed in the specification and is a parameter. -/
def CGenImplicitSurf.polygonise (TRI_TABLE : Nat → List Int) (cell : Gridcell K) :
    List (Xyz K × Xyz K × Xyz K) :=
  let c := CGenImplicitSurf.caseIndex cell.val
  let edgeMask := CGenImplicitSurf.EDGE_TABLE c
  if edgeMask = 0 then []
  else
    let edgePoint := CGenImplicitSurf.edgePointsFrom cell edgeMask 0 CGenImplicitSurf.edgeCorners
    (CGenImplicitSurf.triples
        (((TRI_TABLE c).takeWhile fun e => decide (e ≠ -1)).map Int.toNat)).map
      fun g => (edgePoint.getD g.1 ⟨0, 0, 0⟩, edgePoint.getD g.2.1 ⟨0, 0, 0⟩,
        edgePoint.getD g.2.2 ⟨0, 0, 0⟩)

/-- Modelled from the spec: the cell `(i, j, k)` of the grid (§4.2 steps 1 and
2.1), missing from `src/`; corner `b` is the sample point
`(xMin + (i + ox)·hx, yMin + (j + oy)·hy, zMin + (k + oz)·hz)` for the `b`-th
offset `(ox, oy, oz)`, with the value of the field `functionXyz` there. -/
def CGenImplicitSurf.gridcell (functionXyz : K → K → K → K) (xMin yMin zMin hx hy hz : K)
    (i j k : Nat) : Gridcell K :=
  let p : List (Xyz K) := CGenImplicitSurf.cornerOffsets.map fun o =>
    ⟨xMin + ((i + o.1 : Nat) : K) * hx, yMin + ((j + o.2.1 : Nat) : K) * hy,
      zMin + ((k + o.2.2 : Nat) : K) * hz⟩
  ⟨p, p.map fun q => functionXyz q.x q.y q.z⟩

/-- Modelled from the spec: the calls that add vertices `n, n + 1, ...` (§4.2
step 3), missing from `src/`; the names are not fixed by the specification
and `vertexName` is a parameter. -/
def CGenImplicitSurf.addVerticesFrom (vertexName : Nat → String) (n : Nat) :
    List (Xyz K) → List (SinkCall K)
  | [] => []
  | q :: rest =>
    SinkCall.AddVertex (vertexName n) ⟨q.x, q.y, q.z⟩ ::
      CGenImplicitSurf.addVerticesFrom vertexName (n + 1) rest

/-- Modelled from the spec: the calls that add faces `n, n + 1, ...` (§4.2 step
3), missing from `src/`; one face per triangle over its three vertex names. -/
def CGenImplicitSurf.addFacesFrom (K : Type) (vertexName faceName : Nat → String) (n : Nat) :
    List Triangle → List (SinkCall K)
  | [] => []
  | T :: rest =>
    SinkCall.AddFace (faceName n) (T.p.map vertexName) ::
      CGenImplicitSurf.addFacesFrom K vertexName faceName (n + 1) rest

/-- Modelled from the spec: `addVerticesAndFaces(vertex, Triangles, nv, nt)`
(§4.2 step 3), whose body is missing from `src/`; the first `nv` vertices and
the first `nt` triangles go to the sink. -/
def CGenImplicitSurf.addVerticesAndFaces (vertexName faceName : Nat → String)
    (vertex : List (Xyz K)) (Triangles : List Triangle) (nv nt : Nat) : List (SinkCall K) :=
  CGenImplicitSurf.addVerticesFrom vertexName 0 (vertex.take nv) ++
    CGenImplicitSurf.addFacesFrom K vertexName faceName 0 (Triangles.take nt)

/-- Modelled from the spec: `runMarchingCubes(gridSize, xMin, yMin, zMin, xMax,
yMax, zMax)` (§4.2), whose body is missing from `src/`; the cells are visited
with `k` outermost and `i` innermost, each triangle gets three fresh vertices
and one face. -/
def CGenImplicitSurf.runMarchingCubes (functionXyz : K → K → K → K)
    (TRI_TABLE : Nat → List Int) (vertexName faceName : Nat → String) (gridSize : Int)
    (xMin yMin zMin xMax yMax zMax : K) : List (SinkCall K) :=
  let hx := (xMax - xMin) / (gridSize : K)
  let hy := (yMax - yMin) / (gridSize : K)
  let hz := (zMax - zMin) / (gridSize : K)
  let tris := (intBoundRange gridSize).flatMap fun k =>
    (intBoundRange gridSize).flatMap fun j =>
      (intBoundRange gridSize).flatMap fun i =>
        CGenImplicitSurf.polygonise TRI_TABLE
          (CGenImplicitSurf.gridcell functionXyz xMin yMin zMin hx hy hz i j k)
  let vertex := tris.flatMap fun T => [T.1, T.2.1, T.2.2]
  let Triangles := (List.range tris.length).map fun n =>
    (⟨[3 * n, 3 * n + 1, 3 * n + 2]⟩ : Triangle)
  CGenImplicitSurf.addVerticesAndFaces vertexName faceName vertex Triangles vertex.length
    Triangles.length

/-- Modelled from the spec: `CGenImplicitSurf::UpdateEntity` on a dirty entity
(§4.2, §7), whose body is missing from `src/`; invalid bounds or an invalid
resolution abort the build before any call on the sink. -/
def CGenImplicitSurf.UpdateEntity (functionXyz : K → K → K → K) (TRI_TABLE : Nat → List Int)
    (vertexName faceName : Nat → String)
    (x_start x_end y_start y_end z_start z_end num_segs : K) :
    Except BuildError (List (SinkCall K)) :=
  if ¬ (x_start < x_end ∧ y_start < y_end ∧ z_start < z_end) then
    Except.error BuildError.InvalidBounds
  else if castInt num_segs < 1 then Except.error BuildError.InvalidResolution
  else
    Except.ok (CGenImplicitSurf.runMarchingCubes functionXyz TRI_TABLE vertexName faceName
      (castInt num_segs) x_start y_start z_start x_end y_end z_end)

end ImplicitSurface

/-- The faces of a build that list exactly four vertex names. -/
def fourVertexFaces {K : Type} (calls : List (SinkCall K)) : List (String × List String) :=
  (faces calls).filter fun f => decide (f.2.length = 4)

/-! ## Float arithmetic

The producers compute in `float`.  `FloatArith` collects the rounded operations;
`binary32` is IEEE 754 single precision with round-to-nearest-even, without
overflow to infinity and without NaN, and `exactArith` is arithmetic without
rounding. -/

section FloatDefs

variable {K : Type} [LinearOrderedField K] [FloorRing K]

/-- The arithmetic of the C++ type `float` as the producers use it: the four
operations on two floats and the conversion `(float)i` of an `int`.
Comparisons and negation of floats are exact and need no field. -/
structure FloatArith (K : Type) where
  add : K → K → K
  sub : K → K → K
  mul : K → K → K
  div : K → K → K
  ofInt : Int → K

/-- The integer nearest to `y`, a tie going to the even neighbour. -/
def roundHalfEven (y : K) : Int :=
  if y - (⌊y⌋ : K) < 1 / 2 then ⌊y⌋
  else if 1 / 2 < y - (⌊y⌋ : K) then ⌊y⌋ + 1
  else if ⌊y⌋ % 2 = 0 then ⌊y⌋ else ⌊y⌋ + 1

/-- Exponent of the unit in the last place of binary32 at `x`: 24 significant
bits for `2^-126 ≤ |x|`, the fixed spacing `2^-149` of the subnormals below. -/
def ulpExponent (x : K) : Int :=
  max (Int.log 2 |x|) (-126) - 23

/-- The binary32 value nearest to `x`, ties to even (the IEEE 754 default
rounding), for `|x|` within the finite range of `float`. -/
def round32 (x : K) : K :=
  (roundHalfEven (x / (2 : K) ^ ulpExponent x) : K) * (2 : K) ^ ulpExponent x

/-- Float arithmetic without rounding: the exact operations of `K`. -/
def exactArith : FloatArith K :=
  ⟨fun a b => a + b, fun a b => a - b, fun a b => a * b, fun a b => a / b, fun i => (i : K)⟩

/-- IEEE 754 binary32 arithmetic: each operation is the exact result rounded
by `round32`. -/
def binary32 : FloatArith K :=
  ⟨fun a b => round32 (a + b), fun a b => round32 (a - b), fun a b => round32 (a * b),
    fun a b => round32 (a / b), fun i => round32 (i : K)⟩

end FloatDefs

/-! ## Sphere in float arithmetic -/

section SphereFloatDefs

variable {K : Type} [LinearOrderedField K] [FloorRing K]

/-- Position computed by one iteration of `CSphere::addCircle`, every float
operation taken from `F`: `theta = (float)i / n * 2.f * (float)tc::M_PI`,
`x = radius * cosf(zTheta) * cosf(theta)`, `y = radius * cosf(zTheta) * sinf(theta)`,
`z = radius * sinf(zTheta)`. -/
def CSphere.circlePointFloat (F : FloatArith K) (M : CMath K) (n : Int) (radius zTheta : K)
    (i : Nat) : Vector3 K :=
  let theta := F.mul (F.mul (F.div (F.ofInt i) (F.ofInt n)) 2) M.M_PI
  let x := F.mul (F.mul radius (M.cosf zTheta)) (M.cosf theta)
  let y := F.mul (F.mul radius (M.cosf zTheta)) (M.sinf theta)
  let z := F.mul radius (M.sinf zTheta)
  ⟨x, y, z⟩

/-- Body of the loop of `CSphere::addCircle` over the remaining indices `i`,
with the running value of `currPoints`; the `break` ends the loop. -/
def CSphere.addCircleLoopFloat (F : FloatArith K) (M : CMath K) (n : Int) (radius zTheta : K)
    (vertexSetName : Nat) (maxPoints : Int) : List Nat → Int → List (SinkCall K)
  | [], _ => []
  | i :: rest, currPoints =>
    if currPoints ≥ maxPoints + 1 then []
    else
      SinkCall.AddVertex (CSphere.vName vertexSetName i)
          (CSphere.circlePointFloat F M n radius zTheta i) ::
        CSphere.addCircleLoopFloat F M n radius zTheta vertexSetName maxPoints rest
          (currPoints + 1)

/-- Embedding of `CSphere::addCircle` in the float arithmetic `F`:
`for (int i = 0; i < (n + 1); i++)`. -/
def CSphere.addCircleFloat (F : FloatArith K) (M : CMath K) (n : Int) (radius zTheta : K)
    (vertexSetName : Nat) (maxPoints : Int) : List (SinkCall K) :=
  CSphere.addCircleLoopFloat F M n radius zTheta vertexSetName maxPoints
    (intBoundRange (n + 1)) 0

/-- The vertex part of `CSphere::UpdateEntity` in the float arithmetic `F`:
`zTheta = ((float)i / density * maxDegrees * (float)tc::M_PI) - (float)tc::M_PI/2`
and `addCircle(n, radius, zTheta, i, (int)maxPoints)` for each ring. -/
def CSphere.addVerticesFloat (F : FloatArith K) (M : CMath K) (n : Int) (radius : K)
    (density : Int) (maxDegrees maxPoints : K) : List (SinkCall K) :=
  (intBoundRange (density + 1)).flatMap fun i =>
    let zTheta :=
      F.sub (F.mul (F.mul (F.div (F.ofInt i) (F.ofInt density)) maxDegrees) M.M_PI)
        (F.div M.M_PI 2)
    CSphere.addCircleFloat F M n radius zTheta i (castInt maxPoints)

/-- Indices visited by `for (int j = ...; j < bound; j++)` from the state `j`
when `bound` is a float: the comparison converts `j` to float.  The loop runs
for at most `fuel` iterations. -/
def CSphere.floatLoop (F : FloatArith K) (bound : K) : Nat → Nat → List Nat
  | 0, _ => []
  | fuel + 1, j =>
    if F.ofInt j < bound then j :: CSphere.floatLoop F bound fuel (j + 1) else []

/-- The face part of `CSphere::UpdateEntity` in the float arithmetic `F`.  The
guards `j + 1 < maxPoints + 1` and `j + 1 < maxPoints` convert the int `j + 1`
(and the int `1`) to float; `j` runs over the `2^31` non-negative values of
an `int`. -/
def CSphere.addFacesFloat (F : FloatArith K) (density : Int) (crossDegrees maxPoints : K) :
    List (SinkCall K) :=
  if crossDegrees = 360 then
    (intBoundRange density).flatMap fun i =>
      (CSphere.floatLoop F maxPoints (2 ^ 31) 0).map fun j =>
        SinkCall.AddFace (CSphere.fName i j)
          (CSphere.upperFace
            (decide (F.ofInt ((j : Int) + 1) < F.add maxPoints (F.ofInt 1))) i j)
  else
    (intBoundRange density).flatMap fun i =>
      (CSphere.floatLoop F maxPoints (2 ^ 31) 0).map fun j =>
        SinkCall.AddFace (CSphere.fName i j)
          (CSphere.upperFace (decide (F.ofInt ((j : Int) + 1) < maxPoints)) i j)

/-- The float `maxPoints` of `CSphere::UpdateEntity`:
`maxCrossDegrees = crossDegrees/360.0f`, `maxPoints = maxCrossDegrees * n`. -/
def CSphere.maxPointsFloat (F : FloatArith K) (crossDegrees : K) (n : Int) : K :=
  F.mul (F.div crossDegrees 360) (F.ofInt n)

/-- Embedding of `CSphere::UpdateEntity` on a dirty entity in the float
arithmetic `F`. -/
def CSphere.UpdateEntityFloat (F : FloatArith K) (M : CMath K)
    (Segments Radius Density Degrees CrossDegrees : K) : List (SinkCall K) :=
  let n : Int := castInt Segments
  let radius := Radius
  let density : Int := castInt Density
  let degrees := if Degrees > 360 then 360 else Degrees
  let crossDegrees := if CrossDegrees > 360 then 360 else CrossDegrees
  let maxDegrees := F.div degrees 360
  let maxPoints : K := CSphere.maxPointsFloat F crossDegrees n
  CSphere.addVerticesFloat F M n radius density maxDegrees maxPoints ++
    CSphere.addFacesFloat F density crossDegrees maxPoints

end SphereFloatDefs

/-! ## Sphere with the division checked -/

section CheckedDefs

variable {K : Type} [LinearOrderedField K] [FloorRing K]

/-- Position computed by one iteration of `CSphere::addCircle` with the
division of `theta = (float)i / n * 2.f * (float)tc::M_PI` checked: the quotient
`(float)i / n` has no value when `n = 0` (the float division gives NaN at
`i = 0`), and then neither have `x` and `y`. -/
def CSphere.circlePointChecked (M : CMath K) (n : Int) (radius zTheta : K) (i : Nat) :
    Option (Vector3 K) :=
  if n = 0 then none
  else
    let theta := (i : K) / (n : K) * 2 * M.M_PI
    let x := radius * M.cosf zTheta * M.cosf theta
    let y := radius * M.cosf zTheta * M.sinf theta
    let z := radius * M.sinf zTheta
    some ⟨x, y, z⟩

/-- Body of the loop of `CSphere::addCircle` with the division checked: the
name and the position, if it has a value, of each vertex added. -/
def CSphere.addCircleLoopChecked (M : CMath K) (n : Int) (radius zTheta : K)
    (vertexSetName : Nat) (maxPoints : Int) :
    List Nat → Int → List (String × Option (Vector3 K))
  | [], _ => []
  | i :: rest, currPoints =>
    if currPoints ≥ maxPoints + 1 then []
    else
      (CSphere.vName vertexSetName i, CSphere.circlePointChecked M n radius zTheta i) ::
        CSphere.addCircleLoopChecked M n radius zTheta vertexSetName maxPoints rest
          (currPoints + 1)

/-- Embedding of `CSphere::addCircle` with the division checked:
`for (int i = 0; i < (n + 1); i++)`. -/
def CSphere.addCircleChecked (M : CMath K) (n : Int) (radius zTheta : K)
    (vertexSetName : Nat) (maxPoints : Int) : List (String × Option (Vector3 K)) :=
  CSphere.addCircleLoopChecked M n radius zTheta vertexSetName maxPoints
    (intBoundRange (n + 1)) 0

/-- The vertex loop of `CSphere::UpdateEntity` with both divisions checked: the
ring angle `zTheta = (float)i / density * maxDegrees * (float)tc::M_PI - ...`
has no value when `density = 0` (the float division gives NaN at `i = 0`),
and then no coordinate of the ring has one. -/
def CSphere.addVerticesChecked (M : CMath K) (n : Int) (radius : K) (density : Int)
    (maxDegrees maxPoints : K) : List (String × Option (Vector3 K)) :=
  (intBoundRange (density + 1)).flatMap fun i =>
    if density = 0 then
      (CSphere.addCircleChecked M n radius 0 i (castInt maxPoints)).map fun q => (q.1, none)
    else
      let zTheta := ((i : K) / (density : K) * maxDegrees * M.M_PI) - M.M_PI / 2
      CSphere.addCircleChecked M n radius zTheta i (castInt maxPoints)

/-- The vertices of `CSphere::UpdateEntity` on a dirty entity with both
divisions checked: the name and the position, if it has a value, of each
vertex added. -/
def CSphere.UpdateEntityChecked (M : CMath K)
    (Segments Radius Density Degrees CrossDegrees : K) : List (String × Option (Vector3 K)) :=
  let n : Int := castInt Segments
  let radius := Radius
  let density : Int := castInt Density
  let degrees := if Degrees > 360 then 360 else Degrees
  let crossDegrees := if CrossDegrees > 360 then 360 else CrossDegrees
  let maxDegrees := degrees / 360
  let maxCrossDegrees := crossDegrees / 360
  let maxPoints : K := maxCrossDegrees * (n : K)
  CSphere.addVerticesChecked M n radius density maxDegrees maxPoints

end CheckedDefs

/-! ## Hyperboloid in float arithmetic -/

section HyperboloidFloatDefs

variable {K : Type} [LinearOrderedField K] [FloorRing K]

/-- The inner loop
`for (v = ...; v < 2*(float)tc::M_PI + (vIncrement/5); v += vIncrement)` in the
float arithmetic `F`, run from the state `(v, vCounter)` for at most `fuel`
iterations; `none` when the fuel runs out before the guard fails. -/
def CHyperboloid.vLoopFloat (F : FloatArith K) (M : CMath K) (vIncrement : K) (uCounter : Nat)
    (suffix : String) (point : K → Vector3 K) :
    Nat → K → Nat → Option (List (SinkCall K) × Nat)
  | 0, v, vCounter =>
    if v < F.add (F.mul 2 M.M_PI) (F.div vIncrement 5) then none else some ([], vCounter)
  | fuel + 1, v, vCounter =>
    if v < F.add (F.mul 2 M.M_PI) (F.div vIncrement 5) then
      match CHyperboloid.vLoopFloat F M vIncrement uCounter suffix point fuel
          (F.add v vIncrement) (vCounter + 1) with
      | none => none
      | some (calls, vEnd) =>
        some (SinkCall.AddVertex (CHyperboloid.vName uCounter vCounter suffix) (point v) :: calls,
          vEnd)
    else some ([], vCounter)

/-- The outer loop `for (float u = ...; guard(u); u = next(u))` over `v` loops
in the float arithmetic `F`, run for at most `fuel` iterations. -/
def CHyperboloid.uLoopFloat (F : FloatArith K) (M : CMath K) (vIncrement : K) (suffix : String)
    (guard : K → Bool) (next : K → K) (point : K → K → Vector3 K) (vFuel : Nat) :
    Nat → K → Nat → Nat → Option (List (SinkCall K) × Nat × Nat)
  | 0, u, uCounter, vCounter =>
    if guard u then none else some ([], uCounter, vCounter)
  | fuel + 1, u, uCounter, vCounter =>
    if guard u then
      match CHyperboloid.vLoopFloat F M vIncrement uCounter suffix (point u) vFuel 0 0 with
      | none => none
      | some (ring, vEnd) =>
        match CHyperboloid.uLoopFloat F M vIncrement suffix guard next point vFuel fuel (next u)
            (uCounter + 1) vEnd with
        | none => none
        | some (calls, uEnd, vEnd2) => some (ring ++ calls, uEnd, vEnd2)
    else some ([], uCounter, vCounter)

/-- The vertex part of `CHyperboloid::UpdateEntity` with the loop control
(bounds and updates of `u` and `v`) in the float arithmetic `F`.  The position
of a vertex is that of `CHyperboloid.posPoint`, `negPoint`, `onePoint` at the
float parameters: the rounding inside the position formulas does not act on
the control flow. -/
def CHyperboloid.addVerticesFloat (F : FloatArith K) (M : CMath K) (fuel : Nat)
    (a c uMax uIncrement vIncrement : K) (sheet : Int) :
    Option (List (SinkCall K) × Nat × Nat) :=
  if sheet > 0 then
    match CHyperboloid.uLoopFloat F M vIncrement "_pos"
        (fun u => decide (u < F.add uMax (F.div uIncrement 5))) (fun u => F.add u uIncrement)
        (CHyperboloid.posPoint M a c) fuel fuel 0 0 0 with
    | none => none
    | some (pos, uCounter, vCounter) =>
      if sheet = 2 then
        match CHyperboloid.uLoopFloat F M vIncrement "_neg"
            (fun u => decide (u > F.mul (-1) (F.add uMax (F.div uIncrement 5))))
            (fun u => F.sub u uIncrement)
            (CHyperboloid.negPoint M a c) fuel fuel 0 0 vCounter with
        | none => none
        | some (neg, uCounter2, vCounter2) => some (pos ++ neg, uCounter2, vCounter2)
      else some (pos, uCounter, vCounter)
  else
    CHyperboloid.uLoopFloat F M vIncrement ""
      (fun u => decide (u < F.add uMax (F.div uIncrement 5))) (fun u => F.add u uIncrement)
      (CHyperboloid.onePoint M a c) fuel fuel (F.mul (-1) (F.add uMax (F.div uIncrement 5))) 0 0

/-- Embedding of `CHyperboloid::UpdateEntity` on a dirty entity with the loop
control in the float arithmetic `F`: `uIncrement = uMax / UIncrement`,
`vIncrement = (float)tc::M_PI / VIncrement`. -/
def CHyperboloid.UpdateEntityFloat (F : FloatArith K) (M : CMath K) (fuel : Nat)
    (A C UMax UIncrement VIncrement Sheet : K) : Option (List (SinkCall K)) :=
  let a := A
  let c := C
  let uMax := UMax
  let uIncrement := F.div uMax UIncrement
  let vIncrement := F.div M.M_PI VIncrement
  let sheet : Int := CHyperboloid.validSheet Sheet
  match CHyperboloid.addVerticesFloat F M fuel a c uMax uIncrement vIncrement sheet with
  | none => none
  | some (vertices, uCounter, vCounter) =>
    some (vertices ++ CHyperboloid.addFaces K sheet uCounter vCounter)

end HyperboloidFloatDefs

section LoopBoundDefs

variable {K : Type} [LinearOrderedField K] [FloorRing K]

/-- The bound `uMax + (uIncrement/5)` of the `u` loops of
`CHyperboloid::UpdateEntity`, in the float arithmetic `F`. -/
def CHyperboloid.uBound (F : FloatArith K) (uMax uIncrement : K) : K :=
  F.add uMax (F.div uIncrement 5)

/-- The bound `2*(float)tc::M_PI + (vIncrement/5)` of the `v` loops of
`CHyperboloid::UpdateEntity`, in the float arithmetic `F`. -/
def CHyperboloid.vBound (F : FloatArith K) (M : CMath K) (vIncrement : K) : K :=
  F.add (F.mul 2 M.M_PI) (F.div vIncrement 5)

end LoopBoundDefs

/-! ## Values taken by the loop variables -/

section LoopValueDefs

variable {K : Type} [LinearOrderedField K] [FloorRing K]

/-- Values the loop variable of `for (float x = ...; guard(x); x = next(x))`
takes in the body, from the state `x`, when the loop ends within `fuel`
iterations; `none` when the fuel runs out before the guard fails. -/
def loopSamples (guard : K → Bool) (next : K → K) : Nat → K → Option (List K)
  | 0, x => if guard x then none else some []
  | fuel + 1, x =>
    if guard x then (loopSamples guard next fuel (next x)).map fun xs => x :: xs
    else some []

/-- Calls of one ring whose `v` loop takes the values `vs`, the counter
starting at `vCounter`. -/
def CHyperboloid.ringOf (uCounter : Nat) (suffix : String) (point : K → Vector3 K) :
    Nat → List K → List (SinkCall K)
  | _, [] => []
  | vCounter, v :: vs =>
    SinkCall.AddVertex (CHyperboloid.vName uCounter vCounter suffix) (point v) ::
      CHyperboloid.ringOf uCounter suffix point (vCounter + 1) vs

/-- Calls of a nest of vertex loops whose `u` loop takes the values `us` and
whose `v` loops take the values `vs`, the ring counter starting at `uCounter`. -/
def CHyperboloid.gridOf (suffix : String) (point : K → K → Vector3 K) (vs : List K) :
    Nat → List K → List (SinkCall K)
  | _, [] => []
  | uCounter, u :: us =>
    CHyperboloid.ringOf uCounter suffix (point u) 0 vs ++
      CHyperboloid.gridOf suffix point vs (uCounter + 1) us

/-- The float arithmetic is symmetric under negation: `(-x) - y` is the
negative of `x + y`, and `-1.0f` times a computed sum is its negative. -/
def FloatArith.Mirrored (F : FloatArith K) : Prop :=
  (∀ x y : K, F.sub (-x) y = -(F.add x y)) ∧
    (∀ x y : K, F.mul (-1) (F.add x y) = -(F.add x y))

end LoopValueDefs

/-! ## Builds as lists of calls -/

section Calls

variable {K : Type}

theorem vertices_append (a b : List (SinkCall K)) :
    vertices (a ++ b) = vertices a ++ vertices b := by
  induction a with
  | nil => rfl
  | cons c t ih => cases c <;> simp [vertices, ih]

theorem faces_append (a b : List (SinkCall K)) :
    faces (a ++ b) = faces a ++ faces b := by
  induction a with
  | nil => rfl
  | cons c t ih => cases c <;> simp [faces, ih]

theorem vertexNames_append (a b : List (SinkCall K)) :
    vertexNames (a ++ b) = vertexNames a ++ vertexNames b := by
  simp [vertexNames, vertices_append]

theorem vertices_flatMap {α : Type} (l : List α) (f : α → List (SinkCall K)) :
    vertices (l.flatMap f) = l.flatMap fun a => vertices (f a) := by
  induction l with
  | nil => rfl
  | cons a t ih => simp [vertices_append, ih]

theorem faces_flatMap {α : Type} (l : List α) (f : α → List (SinkCall K)) :
    faces (l.flatMap f) = l.flatMap fun a => faces (f a) := by
  induction l with
  | nil => rfl
  | cons a t ih => simp [faces_append, ih]

theorem vertices_map_AddVertex {α : Type} (l : List α) (f : α → String) (g : α → Vector3 K) :
    vertices (l.map fun a => SinkCall.AddVertex (f a) (g a)) = l.map fun a => (f a, g a) := by
  induction l with
  | nil => rfl
  | cons a t ih => simp [vertices, ih]

theorem faces_map_AddVertex {α : Type} (l : List α) (f : α → String) (g : α → Vector3 K) :
    faces (l.map fun a => SinkCall.AddVertex (f a) (g a)) = [] := by
  induction l with
  | nil => rfl
  | cons a t ih => simp [faces, ih]

theorem vertices_map_AddFace {α : Type} (l : List α) (f : α → String) (g : α → List String) :
    vertices (l.map fun a => (SinkCall.AddFace (f a) (g a) : SinkCall K)) = [] := by
  induction l with
  | nil => rfl
  | cons a t ih => simp [vertices, ih]

theorem faces_map_AddFace {α : Type} (l : List α) (f : α → String) (g : α → List String) :
    faces (l.map fun a => (SinkCall.AddFace (f a) (g a) : SinkCall K)) =
      l.map fun a => (f a, g a) := by
  induction l with
  | nil => rfl
  | cons a t ih => simp [faces, ih]

theorem mem_vertices_iff (calls : List (SinkCall K)) (name : String) (pos : Vector3 K) :
    (name, pos) ∈ vertices calls ↔ SinkCall.AddVertex name pos ∈ calls := by
  induction calls with
  | nil => simp [vertices]
  | cons c t ih => cases c <;> simp [vertices, ih]

theorem mem_faces_iff (calls : List (SinkCall K)) (name : String) (face : List String) :
    (name, face) ∈ faces calls ↔ SinkCall.AddFace name face ∈ calls := by
  induction calls with
  | nil => simp [faces]
  | cons c t ih => cases c <;> simp [faces, ih]

/-- A build that adds all its vertices first and then faces over those
vertices is referentially closed. -/
theorem refClosed_append (vs fs : List (SinkCall K))
    (hvs : faces vs = [])
    (hfs : ∀ name face, (name, face) ∈ faces fs → ∀ v ∈ face, v ∈ vertexNames vs) :
    RefClosed (vs ++ fs) := by
  intro before name face after h v hv
  rcases List.append_eq_append_iff.1 h with ⟨a, ha, hf⟩ | ⟨c, hc, hf⟩
  · rw [ha, vertexNames_append]
    refine List.mem_append_left _ (hfs name face ?_ v hv)
    rw [mem_faces_iff, hf]
    simp
  · cases c with
    | nil =>
      simp only [List.append_nil] at hc
      simp only [List.nil_append] at hf
      rw [← hc]
      refine hfs name face ?_ v hv
      rw [mem_faces_iff, ← hf]
      simp
    | cons x c =>
      exfalso
      simp only [List.cons_append, List.cons.injEq] at hf
      have hmem : (name, face) ∈ faces vs := by
        rw [mem_faces_iff, hc, ← hf.1]
        simp
      rw [hvs] at hmem
      simp at hmem

end Calls

/-! ## Names: `std::to_string` and the name schemes are injective -/

section Names

theorem digitChar_value {k : Nat} (h : k < 10) : (Nat.digitChar k).toNat - 48 = k := by
  interval_cases k <;> rfl

theorem digitChar_ne_underscore {k : Nat} (h : k < 10) : Nat.digitChar k ≠ '_' := by
  interval_cases k <;> decide

theorem digitsValue_toDigitsCore (fuel : Nat) : ∀ (n : Nat) (ds : List Char), n < fuel →
    digitsValue (Nat.toDigitsCore 10 fuel n ds) 0 = digitsValue ds n := by
  induction fuel with
  | zero => intro n ds h; omega
  | succ fuel ih =>
    intro n ds h
    unfold Nat.toDigitsCore
    simp only []
    have hd := digitChar_value (Nat.mod_lt n (by norm_num : 10 > 0))
    split_ifs with h0
    · simp only [digitsValue, List.foldl_cons, hd]
      congr 1
      omega
    · rw [ih (n / 10) _ (by omega)]
      simp only [digitsValue, List.foldl_cons, hd]
      congr 1
      omega

theorem toDigitsCore_ne_underscore (fuel : Nat) : ∀ (n : Nat) (ds : List Char),
    (∀ c ∈ ds, c ≠ '_') → ∀ c ∈ Nat.toDigitsCore 10 fuel n ds, c ≠ '_' := by
  induction fuel with
  | zero => intro n ds h; simpa [Nat.toDigitsCore] using h
  | succ fuel ih =>
    intro n ds h
    unfold Nat.toDigitsCore
    simp only []
    have hd := digitChar_ne_underscore (Nat.mod_lt n (by norm_num : 10 > 0))
    split_ifs with h0
    · intro c hc
      rcases List.mem_cons.1 hc with rfl | hc
      · exact hd
      · exact h c hc
    · apply ih
      intro c hc
      rcases List.mem_cons.1 hc with rfl | hc
      · exact hd
      · exact h c hc

theorem toString_data (n : Nat) : (toString n).data = Nat.toDigits 10 n :=
  rfl

theorem toString_nat_injective {m n : Nat} (h : toString m = toString n) : m = n := by
  have h1 : Nat.toDigits 10 m = Nat.toDigits 10 n := by
    rw [← toString_data, ← toString_data, h]
  have h2 := congrArg (fun l => digitsValue l 0) h1
  simp only [Nat.toDigits] at h2
  rw [digitsValue_toDigitsCore _ _ _ (Nat.lt_succ_self m),
    digitsValue_toDigitsCore _ _ _ (Nat.lt_succ_self n)] at h2
  simpa [digitsValue] using h2

theorem toString_nat_ne_underscore (n : Nat) : ∀ c ∈ (toString n).data, c ≠ '_' := by
  rw [toString_data]
  exact toDigitsCore_ne_underscore _ _ _ (by simp)

/-- Two texts that agree after being cut at their first `x` agree piecewise. -/
theorem split_at_first {x : Char} : ∀ (a a' b b' : List Char), (∀ c ∈ a, c ≠ x) →
    (∀ c ∈ a', c ≠ x) → a ++ x :: b = a' ++ x :: b' → a = a' ∧ b = b'
  | [], [], b, b', _, _, h => by simpa using h
  | [], c :: a', b, b', _, h', h => by
    simp only [List.nil_append, List.cons_append, List.cons.injEq] at h
    exact absurd h.1.symm (h' c (by simp))
  | c :: a, [], b, b', h', _, h => by
    simp only [List.nil_append, List.cons_append, List.cons.injEq] at h
    exact absurd h.1 (h' c (by simp))
  | c :: a, c' :: a', b, b', ha, ha', h => by
    simp only [List.cons_append, List.cons.injEq] at h
    obtain ⟨h1, h2⟩ := split_at_first a a' b b' (fun d hd => ha d (by simp [hd]))
      (fun d hd => ha' d (by simp [hd])) h.2
    exact ⟨by rw [h.1, h1], h2⟩

theorem CSphere.sphere_vName_inj {i j i' j' : Nat} (h : CSphere.vName i j = CSphere.vName i' j') :
    i = i' ∧ j = j' := by
  have h1 := congrArg String.data h
  simp only [CSphere.vName, String.data_append] at h1
  simp only [List.append_assoc, List.singleton_append, List.cons_append, List.nil_append,
    List.cons.injEq, true_and] at h1
  obtain ⟨h2, h3⟩ := split_at_first _ _ _ _ (toString_nat_ne_underscore i)
    (toString_nat_ne_underscore i') h1
  exact ⟨toString_nat_injective (String.ext h2), toString_nat_injective (String.ext h3)⟩

theorem CSphere.sphere_fName_inj {i j i' j' : Nat} (h : CSphere.fName i j = CSphere.fName i' j') :
    i = i' ∧ j = j' := by
  have h1 := congrArg String.data h
  simp only [CSphere.fName, String.data_append] at h1
  simp only [List.append_assoc, List.singleton_append, List.cons_append, List.nil_append,
    List.cons.injEq, true_and] at h1
  obtain ⟨h2, h3⟩ := split_at_first _ _ _ _ (toString_nat_ne_underscore i)
    (toString_nat_ne_underscore i') h1
  exact ⟨toString_nat_injective (String.ext h2), toString_nat_injective (String.ext h3)⟩

/-- Vertex names of the hyperboloid determine both counters and the suffix,
when each suffix starts with an underscore (`"_pos"`, `"_neg"`). -/
theorem CHyperboloid.hyperboloid_vName_inj {u v u' v' : Nat} {s s' : String}
    (hs : ∃ t, s.data = '_' :: t) (hs' : ∃ t, s'.data = '_' :: t)
    (h : CHyperboloid.vName u v s = CHyperboloid.vName u' v' s') :
    u = u' ∧ v = v' ∧ s = s' := by
  obtain ⟨t, ht⟩ := hs
  obtain ⟨t', ht'⟩ := hs'
  have h1 := congrArg String.data h
  simp only [CHyperboloid.vName, String.data_append, ht, ht'] at h1
  simp only [List.append_assoc, List.singleton_append, List.cons_append, List.nil_append,
    List.cons.injEq, true_and] at h1
  obtain ⟨h2, h3⟩ := split_at_first _ _ _ _ (toString_nat_ne_underscore u)
    (toString_nat_ne_underscore u') h1
  obtain ⟨h4, h5⟩ := split_at_first _ _ _ _ (toString_nat_ne_underscore v)
    (toString_nat_ne_underscore v') h3
  refine ⟨toString_nat_injective (String.ext h2), toString_nat_injective (String.ext h4),
    String.ext ?_⟩
  rw [ht, ht', h5]

/-- Vertex names of the hyperboloid with one and the same suffix determine both counters. -/
theorem CHyperboloid.hyperboloid_vName_inj_same {u v u' v' : Nat} {s : String}
    (h : CHyperboloid.vName u v s = CHyperboloid.vName u' v' s) : u = u' ∧ v = v' := by
  have h1 := congrArg String.data h
  simp only [CHyperboloid.vName, String.data_append] at h1
  simp only [List.append_assoc, List.singleton_append, List.cons_append, List.nil_append,
    List.cons.injEq, true_and] at h1
  obtain ⟨h2, h3⟩ := split_at_first _ _ _ _ (toString_nat_ne_underscore u)
    (toString_nat_ne_underscore u') h1
  exact ⟨toString_nat_injective (String.ext h2),
    toString_nat_injective (String.ext (List.append_cancel_right h3))⟩

/-- A grid of names built from an injective scheme has no repetition. -/
theorem nodup_grid {α : Type} (f : Nat → Nat → α)
    (hf : ∀ i j i' j', f i j = f i' j' → i = i' ∧ j = j') (rows : List Nat)
    (cols : Nat → List Nat) (hrows : rows.Nodup) (hcols : ∀ i, (cols i).Nodup) :
    (rows.flatMap fun i => (cols i).map (f i)).Nodup := by
  rw [List.nodup_flatMap]
  constructor
  · intro i _
    exact (hcols i).map_on fun a _ b _ hab => (hf i a i b hab).2
  · refine hrows.imp ?_
    intro a b hab x hxa hxb
    obtain ⟨ja, _, rfl⟩ := List.mem_map.1 hxa
    obtain ⟨jb, _, hb⟩ := List.mem_map.1 hxb
    exact hab (hf b jb a ja hb).1.symm

end Names

/-! ## Casts and loop ranges -/

section Ranges

variable {K : Type} [LinearOrderedField K] [FloorRing K]

theorem castInt_of_nonneg {x : K} (h : 0 ≤ x) : castInt x = ⌊x⌋ :=
  if_pos h

theorem castInt_natCast (m : Nat) : castInt (m : K) = (m : Int) := by
  rw [castInt_of_nonneg (Nat.cast_nonneg m), Int.floor_natCast]

theorem one_le_castInt {x : K} (h : 1 ≤ x) : 1 ≤ castInt x := by
  rw [castInt_of_nonneg (le_trans zero_le_one h), Int.le_floor]
  simpa using h

theorem mem_intBoundRange (bound : Int) (i : Nat) :
    i ∈ intBoundRange bound ↔ (i : Int) < bound := by
  unfold intBoundRange
  rw [List.mem_range, Int.lt_toNat]

end Ranges

/-! ## Sphere: the shape of a build -/

section SphereShape

variable {K : Type} [LinearOrderedField K] [FloorRing K]

theorem CSphere.addCircleLoop_eq (M : CMath K) (n : Int) (radius zTheta : K)
    (vertexSetName : Nat) (maxPoints : Int) (l : List Nat) (currPoints : Int) :
    CSphere.addCircleLoop M n radius zTheta vertexSetName maxPoints l currPoints =
      (l.take (maxPoints + 1 - currPoints).toNat).map fun i =>
        SinkCall.AddVertex (CSphere.vName vertexSetName i)
          (CSphere.circlePoint M n radius zTheta i) := by
  induction l generalizing currPoints with
  | nil => simp [CSphere.addCircleLoop]
  | cons i rest ih =>
    unfold CSphere.addCircleLoop
    by_cases h : currPoints ≥ maxPoints + 1
    · have h0 : (maxPoints + 1 - currPoints).toNat = 0 := by omega
      simp [h, h0]
    · have h1 : (maxPoints + 1 - currPoints).toNat =
          (maxPoints + 1 - (currPoints + 1)).toNat + 1 := by omega
      rw [if_neg h, h1, List.take_succ_cons, List.map_cons, ih]

theorem CSphere.addCircle_eq (M : CMath K) (n : Int) (radius zTheta : K)
    (vertexSetName : Nat) (maxPoints : Int) :
    CSphere.addCircle M n radius zTheta vertexSetName maxPoints =
      (List.range (CSphere.ringSize n maxPoints)).map fun i =>
        SinkCall.AddVertex (CSphere.vName vertexSetName i)
          (CSphere.circlePoint M n radius zTheta i) := by
  unfold CSphere.addCircle intBoundRange CSphere.ringSize
  rw [CSphere.addCircleLoop_eq, sub_zero, List.take_range]

theorem CSphere.vertices_addVertices (M : CMath K) (n : Int) (radius : K) (density : Int)
    (maxDegrees maxPoints : K) :
    vertices (CSphere.addVertices M n radius density maxDegrees maxPoints) =
      (List.range (density + 1).toNat).flatMap fun i =>
        (List.range (CSphere.ringSize n (castInt maxPoints))).map fun j =>
          (CSphere.vName i j,
            CSphere.circlePoint M n radius
              (((i : K) / (density : K) * maxDegrees * M.M_PI) - M.M_PI / 2) j) := by
  unfold CSphere.addVertices intBoundRange
  rw [vertices_flatMap]
  simp only [CSphere.addCircle_eq, vertices_map_AddVertex]

theorem CSphere.faces_addVertices (M : CMath K) (n : Int) (radius : K) (density : Int)
    (maxDegrees maxPoints : K) :
    faces (CSphere.addVertices M n radius density maxDegrees maxPoints) = [] := by
  unfold CSphere.addVertices
  rw [faces_flatMap]
  simp only [CSphere.addCircle_eq, faces_map_AddVertex]
  simp

theorem CSphere.vertexNames_addVertices (M : CMath K) (n : Int) (radius : K) (density : Int)
    (maxDegrees maxPoints : K) :
    vertexNames (CSphere.addVertices M n radius density maxDegrees maxPoints) =
      (List.range (density + 1).toNat).flatMap fun i =>
        (List.range (CSphere.ringSize n (castInt maxPoints))).map fun j =>
          CSphere.vName i j := by
  unfold vertexNames
  rw [CSphere.vertices_addVertices, List.map_flatMap]
  simp only [List.map_map]
  rfl

theorem CSphere.faces_addFaces (density : Int) (crossDegrees maxPoints : K) :
    faces (CSphere.addFaces density crossDegrees maxPoints) =
      (List.range density.toNat).flatMap fun i =>
        (floatBoundRange maxPoints).map fun j =>
          (CSphere.fName i j,
            CSphere.upperFace
              (if crossDegrees = 360 then decide (((j : K) + 1) < maxPoints + 1)
                else decide (((j : K) + 1) < maxPoints)) i j) := by
  unfold CSphere.addFaces intBoundRange
  split_ifs with h
  · rw [faces_flatMap]
    simp only [faces_map_AddFace]
  · rw [faces_flatMap]
    simp only [faces_map_AddFace]

theorem CSphere.sphere_vertices_addFaces (density : Int) (crossDegrees maxPoints : K) :
    vertices (CSphere.addFaces density crossDegrees maxPoints) = [] := by
  unfold CSphere.addFaces
  split_ifs with h
  · rw [vertices_flatMap]
    simp only [vertices_map_AddFace]
    simp
  · rw [vertices_flatMap]
    simp only [vertices_map_AddFace]
    simp

end SphereShape

/-! ## Sphere: referential closure -/

section SphereClosure

variable {K : Type} [LinearOrderedField K] [FloorRing K]

theorem length_grid {α β γ : Type} (rows : List β) (cols : List γ) (f : β → γ → α) :
    (rows.flatMap fun i => cols.map (f i)).length = rows.length * cols.length := by
  induction rows with
  | nil => simp
  | cons a t ih => simp [ih, Nat.succ_mul, Nat.add_comm]

theorem CSphere.vertexNames_UpdateEntity (M : CMath K)
    (Segments Radius Density Degrees CrossDegrees : K) :
    vertexNames (CSphere.UpdateEntity M Segments Radius Density Degrees CrossDegrees) =
      (List.range (castInt Density + 1).toNat).flatMap fun i =>
        (List.range (CSphere.ringSize (castInt Segments)
          (castInt ((if CrossDegrees > 360 then 360 else CrossDegrees) / 360 *
            (castInt Segments : K))))).map fun j => CSphere.vName i j := by
  unfold CSphere.UpdateEntity
  simp only []
  rw [vertexNames_append, CSphere.vertexNames_addVertices]
  simp [vertexNames, CSphere.sphere_vertices_addFaces]

theorem CSphere.faces_UpdateEntity (M : CMath K)
    (Segments Radius Density Degrees CrossDegrees : K) :
    faces (CSphere.UpdateEntity M Segments Radius Density Degrees CrossDegrees) =
      (List.range (castInt Density).toNat).flatMap fun i =>
        (floatBoundRange ((if CrossDegrees > 360 then 360 else CrossDegrees) / 360 *
            (castInt Segments : K))).map fun j =>
          (CSphere.fName i j,
            CSphere.upperFace
              (if (if CrossDegrees > 360 then 360 else CrossDegrees) = 360 then
                decide (((j : K) + 1) <
                  (if CrossDegrees > 360 then 360 else CrossDegrees) / 360 *
                    (castInt Segments : K) + 1)
              else
                decide (((j : K) + 1) <
                  (if CrossDegrees > 360 then 360 else CrossDegrees) / 360 *
                    (castInt Segments : K))) i j) := by
  unfold CSphere.UpdateEntity
  simp only []
  rw [faces_append, CSphere.faces_addVertices, CSphere.faces_addFaces]
  simp

theorem CSphere.nodup_vertexNames (M : CMath K)
    (Segments Radius Density Degrees CrossDegrees : K) :
    (vertexNames (CSphere.UpdateEntity M Segments Radius Density Degrees CrossDegrees)).Nodup := by
  rw [CSphere.vertexNames_UpdateEntity]
  exact nodup_grid CSphere.vName (fun _ _ _ _ h => CSphere.sphere_vName_inj h) _ _
    (List.nodup_range _) (fun _ => List.nodup_range _)

end SphereClosure

section SphereClaims

variable {K : Type} [LinearOrderedField K] [FloorRing K]

/-- Sphere face count of the closed case in exact arithmetic: for whole-number
`Segments = n` and `Density = d`, with `CrossDegrees = 360`, the build makes
exactly `d * n` calls of `AddFace`. -/
theorem CSphere.closed_faces_exact (M : CMath K) (n d : Nat) (Radius Degrees : K) :
    (faces (CSphere.UpdateEntity M (n : K) Radius (d : K) Degrees 360)).length = d * n := by
  rw [CSphere.faces_UpdateEntity, length_grid]
  have h360 : ¬ ((360 : K) > 360) := lt_irrefl _
  rw [if_neg h360, div_self (by norm_num : (360 : K) ≠ 0), one_mul, castInt_natCast,
    castInt_natCast]
  simp [floatBoundRange]

/-- Sphere vertex grid in exact arithmetic: for whole-number `Segments = n` and
`Density = d` and `CrossDegrees = phi` in `(0, 360]`, the names passed to
`AddVertex` are, in order, `v<i>_<j>` for `0 ≤ i ≤ d` and `0 ≤ j ≤ maxPoints`
with `maxPoints = ⌊(phi / 360) * n⌋`; no name occurs twice, and there are
`(d + 1) * (maxPoints + 1)` of them. -/
theorem CSphere.vertex_names_exact (M : CMath K) (n d : Nat) (Radius Degrees phi : K)
    (h0 : 0 < phi) (h360 : phi ≤ 360) :
    vertexNames (CSphere.UpdateEntity M (n : K) Radius (d : K) Degrees phi) =
        ((List.range (d + 1)).flatMap fun i =>
          (List.range (⌊phi / 360 * (n : K)⌋₊ + 1)).map fun j => CSphere.vName i j) ∧
      (vertexNames (CSphere.UpdateEntity M (n : K) Radius (d : K) Degrees phi)).Nodup ∧
      (vertexNames (CSphere.UpdateEntity M (n : K) Radius (d : K) Degrees phi)).length =
        (d + 1) * (⌊phi / 360 * (n : K)⌋₊ + 1) := by
  have hgrid : vertexNames (CSphere.UpdateEntity M (n : K) Radius (d : K) Degrees phi) =
      ((List.range (d + 1)).flatMap fun i =>
        (List.range (⌊phi / 360 * (n : K)⌋₊ + 1)).map fun j => CSphere.vName i j) := by
    rw [CSphere.vertexNames_UpdateEntity, if_neg (not_lt.2 h360), castInt_natCast,
      castInt_natCast]
    have hr0 : 0 ≤ phi / 360 := div_nonneg h0.le (by norm_num)
    have hr1 : phi / 360 ≤ 1 := by
      rw [div_le_one (by norm_num : (0 : K) < 360)]
      exact h360
    have hm0 : 0 ≤ phi / 360 * (n : K) := mul_nonneg hr0 (Nat.cast_nonneg n)
    have hmn : phi / 360 * (n : K) ≤ (n : K) := by
      simpa using mul_le_mul_of_nonneg_right hr1 (Nat.cast_nonneg n)
    have hfl : ⌊phi / 360 * (n : K)⌋₊ ≤ n := by
      have := Nat.floor_le_floor hmn
      rwa [Nat.floor_natCast] at this
    have hring : CSphere.ringSize (n : Int) (castInt (phi / 360 * ((n : Int) : K))) =
        ⌊phi / 360 * (n : K)⌋₊ + 1 := by
      unfold CSphere.ringSize
      rw [Int.cast_natCast, castInt_of_nonneg hm0]
      have h1 : ⌊phi / 360 * (n : K)⌋ = ((⌊phi / 360 * (n : K)⌋₊ : Nat) : Int) :=
        (Int.natCast_floor_eq_floor hm0).symm
      rw [h1]
      omega
    rw [hring]
    have hd : ((d : Int) + 1).toNat = d + 1 := by omega
    rw [hd]
  refine ⟨hgrid, CSphere.nodup_vertexNames _ _ _ _ _ _, ?_⟩
  rw [hgrid, length_grid]
  simp

end SphereClaims

/-! ## Hyperboloid: the float loops in exact arithmetic -/

section HyperboloidLoops

variable {K : Type} [LinearOrderedField K] [FloorRing K]

/-- The `v` loop makes `k` iterations when its guard holds at the first `k`
sample values and fails at the next one, and `k` does not exceed the fuel. -/
theorem CHyperboloid.vLoop_eq (M : CMath K) (vIncrement : K) (uCounter : Nat) (suffix : String)
    (point : K → Vector3 K) (k : Nat) : ∀ (fuel : Nat) (v : K) (vCounter : Nat), k ≤ fuel →
    (∀ m : Nat, m < k → v + (m : K) * vIncrement < 2 * M.M_PI + vIncrement / 5) →
    ¬ (v + (k : K) * vIncrement < 2 * M.M_PI + vIncrement / 5) →
    CHyperboloid.vLoop M vIncrement uCounter suffix point fuel v vCounter =
      some ((List.range k).map (fun m =>
          SinkCall.AddVertex (CHyperboloid.vName uCounter (vCounter + m) suffix)
            (point (v + (m : K) * vIncrement))), vCounter + k) := by
  induction k with
  | zero =>
    intro fuel v vCounter _ _ hk
    simp only [Nat.cast_zero, zero_mul, add_zero] at hk
    cases fuel <;> simp [CHyperboloid.vLoop, hk]
  | succ k ih =>
    intro fuel v vCounter hf hlt hk
    cases fuel with
    | zero => omega
    | succ fuel =>
      have h0 : v < 2 * M.M_PI + vIncrement / 5 := by
        simpa using hlt 0 (by omega)
      have hlt2 : ∀ m : Nat, m < k →
          v + vIncrement + (m : K) * vIncrement < 2 * M.M_PI + vIncrement / 5 := by
        intro m hm
        have h := hlt (m + 1) (by omega)
        push_cast at h
        have e : v + vIncrement + (m : K) * vIncrement = v + ((m : K) + 1) * vIncrement := by
          ring
        rw [e]
        exact h
      have hk2 : ¬ (v + vIncrement + (k : K) * vIncrement < 2 * M.M_PI + vIncrement / 5) := by
        have e : v + vIncrement + (k : K) * vIncrement = v + ((k : K) + 1) * vIncrement := by
          ring
        rw [e]
        push_cast at hk
        exact hk
      unfold CHyperboloid.vLoop
      rw [if_pos h0, ih fuel (v + vIncrement) (vCounter + 1) (by omega) hlt2 hk2]
      simp only [List.range_succ_eq_map, List.map_cons, List.map_map, Nat.cast_zero, zero_mul,
        add_zero, Option.some.injEq, Prod.mk.injEq, List.cons.injEq, true_and]
      refine ⟨?_, by omega⟩
      apply List.map_congr_left
      intro m _
      simp only [Function.comp, Nat.cast_succ]
      have e1 : vCounter + 1 + m = vCounter + (m + 1) := by omega
      have e2 : v + vIncrement + (m : K) * vIncrement = v + ((m : K) + 1) * vIncrement := by
        ring
      rw [e1, e2]

/-- The `u` loop makes `k` iterations when its guard holds at the first `k`
iterates of the update and fails at the next one, every ring being the
result `ring` of a `v` loop that ends with `vCounter = kv`. -/
theorem CHyperboloid.uLoop_eq (M : CMath K) (vIncrement : K) (suffix : String)
    (guard : K → Bool) (next : K → K) (point : K → K → Vector3 K) (vFuel kv : Nat)
    (ring : Nat → K → List (SinkCall K))
    (hring : ∀ uc u, CHyperboloid.vLoop M vIncrement uc suffix (point u) vFuel 0 0 =
      some (ring uc u, kv))
    (k : Nat) : ∀ (fuel : Nat) (u : K) (uCounter vCounter : Nat), k ≤ fuel →
    (∀ m : Nat, m < k → guard (next^[m] u) = true) → guard (next^[k] u) = false →
    CHyperboloid.uLoop M vIncrement suffix guard next point vFuel fuel u uCounter vCounter =
      some ((List.range k).flatMap (fun m => ring (uCounter + m) (next^[m] u)),
        uCounter + k, if k = 0 then vCounter else kv) := by
  induction k with
  | zero =>
    intro fuel u uCounter vCounter _ _ hk
    simp only [Function.iterate_zero, id_eq] at hk
    cases fuel <;> simp [CHyperboloid.uLoop, hk]
  | succ k ih =>
    intro fuel u uCounter vCounter hf hlt hk
    cases fuel with
    | zero => omega
    | succ fuel =>
      have h0 : guard u = true := by
        simpa using hlt 0 (by omega)
      have hlt2 : ∀ m : Nat, m < k → guard (next^[m] (next u)) = true := by
        intro m hm
        have h := hlt (m + 1) (by omega)
        rwa [Function.iterate_succ_apply] at h
      have hk2 : guard (next^[k] (next u)) = false := by
        rwa [Function.iterate_succ_apply] at hk
      unfold CHyperboloid.uLoop
      rw [if_pos h0, hring]
      simp only []
      rw [ih fuel (next u) (uCounter + 1) kv (by omega) hlt2 hk2]
      simp only [List.range_succ_eq_map, List.flatMap_cons, List.flatMap_map,
        Function.iterate_zero, id_eq, add_zero, Option.some.injEq, Prod.mk.injEq]
      refine ⟨?_, by omega, by simp⟩
      congr 1
      apply List.flatMap_congr
      intro m _
      simp only [Function.comp, Function.iterate_succ_apply]
      have e1 : uCounter + 1 + m = uCounter + (m + 1) := by omega
      rw [e1]

theorem iterate_add_const (c : K) (m : Nat) (u : K) :
    (fun x : K => x + c)^[m] u = u + (m : K) * c := by
  induction m generalizing u with
  | zero => simp
  | succ m ih =>
    rw [Function.iterate_succ_apply, ih]
    push_cast
    ring

theorem iterate_sub_const (c : K) (m : Nat) (u : K) :
    (fun x : K => x - c)^[m] u = u - (m : K) * c := by
  induction m generalizing u with
  | zero => simp
  | succ m ih =>
    rw [Function.iterate_succ_apply, ih]
    push_cast
    ring

/-- A guard `m * w < c * w + e` with a slack `0 < e < w` admits exactly the
indices `m ≤ c`. -/
theorem lt_slack_iff {w e : K} (hw : 0 < w) (he0 : 0 < e) (he : e < w) (c m : Nat) :
    (m : K) * w < (c : K) * w + e ↔ m ≤ c := by
  constructor
  · intro h
    by_contra hc
    have h1 : ((c : K) + 1) ≤ (m : K) := by exact_mod_cast (by omega : c + 1 ≤ m)
    have h2 : ((c : K) + 1) * w ≤ (m : K) * w := mul_le_mul_of_nonneg_right h1 hw.le
    linarith
  · intro h
    have h1 : (m : K) ≤ (c : K) := by exact_mod_cast h
    have h2 : (m : K) * w ≤ (c : K) * w := mul_le_mul_of_nonneg_right h1 hw.le
    linarith

/-- The guard of the `v` loop, `v < 2*M_PI + vIncrement/5` at `v = m * vIncrement`
with `vIncrement = M_PI / t`, admits exactly `m ≤ 2 * t`. -/
theorem CHyperboloid.vGuard_iff {pi : K} (hpi : 0 < pi) {t : Nat} (ht : 0 < t) (m : Nat) :
    0 + (m : K) * (pi / (t : K)) < 2 * pi + pi / (t : K) / 5 ↔ m ≤ 2 * t := by
  have ht' : (0 : K) < (t : K) := by exact_mod_cast ht
  have hw : 0 < pi / (t : K) := div_pos hpi ht'
  have e : 2 * pi = ((2 * t : Nat) : K) * (pi / (t : K)) := by
    push_cast
    field_simp
    ring
  rw [zero_add, e]
  exact lt_slack_iff hw (by linarith) (by linarith) (2 * t) m

/-- The guard of the positive `u` loop, `u < uMax + uIncrement/5` at
`u = m * uIncrement` with `uIncrement = uMax / s`, admits exactly `m ≤ s`. -/
theorem CHyperboloid.uGuard_iff {uMax : K} (hU : 0 < uMax) {s : Nat} (hs : 0 < s) (m : Nat) :
    (m : K) * (uMax / (s : K)) < uMax + uMax / (s : K) / 5 ↔ m ≤ s := by
  have hs' : (0 : K) < (s : K) := by exact_mod_cast hs
  have hw : 0 < uMax / (s : K) := div_pos hU hs'
  have e : uMax + uMax / (s : K) / 5 = (s : K) * (uMax / (s : K)) + uMax / (s : K) / 5 := by
    field_simp
  rw [e]
  exact lt_slack_iff hw (by linarith) (by linarith) s m

/-- The guard of the one-sheet `u` loop at its `m`-th sample, which starts from
`-1.0f*(uMax + uIncrement/5)`, admits exactly `m ≤ 2 * s`. -/
theorem CHyperboloid.oneGuard_iff {uMax : K} (hU : 0 < uMax) {s : Nat} (hs : 0 < s) (m : Nat) :
    -1 * (uMax + uMax / (s : K) / 5) + (m : K) * (uMax / (s : K)) <
      uMax + uMax / (s : K) / 5 ↔ m ≤ 2 * s := by
  have hs' : (0 : K) < (s : K) := by exact_mod_cast hs
  have hw : 0 < uMax / (s : K) := div_pos hU hs'
  have e : uMax = (s : K) * (uMax / (s : K)) := by
    field_simp
  have h := lt_slack_iff hw (by linarith : 0 < 2 * (uMax / (s : K) / 5))
    (by linarith : 2 * (uMax / (s : K) / 5) < uMax / (s : K)) (2 * s) m
  rw [← h]
  push_cast
  constructor
  · intro h1
    linarith
  · intro h1
    linarith

/-- The `v` loop started at `v = 0`, `vCounter = 0` with `vIncrement = M_PI / t`
adds the `2 * t + 1` vertices of one ring. -/
theorem CHyperboloid.vLoop_ring (M : CMath K) (hpi : 0 < M.M_PI) {t : Nat} (ht : 0 < t)
    (uCounter : Nat) (suffix : String) (point : K → Vector3 K) (fuel : Nat)
    (hfuel : 2 * t + 1 ≤ fuel) :
    CHyperboloid.vLoop M (M.M_PI / (t : K)) uCounter suffix point fuel 0 0 =
      some ((List.range (2 * t + 1)).map (fun m =>
          SinkCall.AddVertex (CHyperboloid.vName uCounter m suffix)
            (point ((m : K) * (M.M_PI / (t : K))))), 2 * t + 1) := by
  have h := CHyperboloid.vLoop_eq M (M.M_PI / (t : K)) uCounter suffix point (2 * t + 1) fuel 0 0
    hfuel
    (fun m hm => (CHyperboloid.vGuard_iff hpi ht m).2 (by omega))
    (fun hlt => by
      have := (CHyperboloid.vGuard_iff hpi ht (2 * t + 1)).1 hlt
      omega)
  simpa using h

/-- A `u` loop whose `m`-th iterate is `uOf m` and whose guard admits exactly
the first `rings` of them makes the calls of `CHyperboloid.grid`. -/
theorem CHyperboloid.uLoop_grid (M : CMath K) (hpi : 0 < M.M_PI) {t : Nat} (ht : 0 < t)
    (suffix : String) (guard : K → Bool) (next : K → K) (point : K → K → Vector3 K)
    (uOf : Nat → K) (u0 : K) (rings fuel vCounter : Nat)
    (hiter : ∀ m, next^[m] u0 = uOf m)
    (hin : ∀ m : Nat, m < rings → guard (uOf m) = true) (hout : guard (uOf rings) = false)
    (hfu : rings ≤ fuel) (hfv : 2 * t + 1 ≤ fuel) :
    CHyperboloid.uLoop M (M.M_PI / (t : K)) suffix guard next point fuel fuel u0 0 vCounter =
      some (CHyperboloid.grid (M.M_PI / (t : K)) suffix point uOf rings (2 * t + 1),
        rings, if rings = 0 then vCounter else 2 * t + 1) := by
  have h := CHyperboloid.uLoop_eq M (M.M_PI / (t : K)) suffix guard next point fuel
    (2 * t + 1)
    (fun uc u => (List.range (2 * t + 1)).map (fun m =>
          SinkCall.AddVertex (CHyperboloid.vName uc m suffix)
            (point u ((m : K) * (M.M_PI / (t : K))))))
    (fun uc u => CHyperboloid.vLoop_ring M hpi ht uc suffix (point u) fuel hfv)
    rings fuel u0 0 vCounter hfu
    (fun m hm => by rw [hiter]; exact hin m hm)
    (by rw [hiter]; exact hout)
  rw [h]
  simp only [hiter, zero_add, CHyperboloid.grid]

theorem CHyperboloid.uGuard_count {uMax : K} (hU : 0 ≤ uMax) {s : Nat} (hs : 0 < s) :
    (∀ m : Nat, m < CHyperboloid.ringCount uMax (s + 1) →
        (m : K) * (uMax / (s : K)) < uMax + uMax / (s : K) / 5) ∧
      ¬ ((CHyperboloid.ringCount uMax (s + 1) : K) * (uMax / (s : K)) <
        uMax + uMax / (s : K) / 5) := by
  unfold CHyperboloid.ringCount
  split_ifs with h0
  · subst h0
    simp
  · have hpos : 0 < uMax := lt_of_le_of_ne hU (Ne.symm h0)
    refine ⟨fun m hm => (CHyperboloid.uGuard_iff hpos hs m).2 (by omega), fun hlt => ?_⟩
    have := (CHyperboloid.uGuard_iff hpos hs (s + 1)).1 hlt
    omega

theorem CHyperboloid.oneGuard_count {uMax : K} (hU : 0 ≤ uMax) {s : Nat} (hs : 0 < s) :
    (∀ m : Nat, m < CHyperboloid.ringCount uMax (2 * s + 1) →
        -1 * (uMax + uMax / (s : K) / 5) + (m : K) * (uMax / (s : K)) <
          uMax + uMax / (s : K) / 5) ∧
      ¬ (-1 * (uMax + uMax / (s : K) / 5) +
          (CHyperboloid.ringCount uMax (2 * s + 1) : K) * (uMax / (s : K)) <
        uMax + uMax / (s : K) / 5) := by
  unfold CHyperboloid.ringCount
  split_ifs with h0
  · subst h0
    simp
  · have hpos : 0 < uMax := lt_of_le_of_ne hU (Ne.symm h0)
    refine ⟨fun m hm => (CHyperboloid.oneGuard_iff hpos hs m).2 (by omega), fun hlt => ?_⟩
    have := (CHyperboloid.oneGuard_iff hpos hs (2 * s + 1)).1 hlt
    omega

theorem CHyperboloid.ringCount_le (uMax : K) (n : Nat) : CHyperboloid.ringCount uMax n ≤ n := by
  unfold CHyperboloid.ringCount
  split_ifs <;> omega

/-- The positive-sheet vertex loops in exact arithmetic. -/
theorem CHyperboloid.posLoop_eq (M : CMath K) (hpi : 0 < M.M_PI) (a c uMax : K) (hU : 0 ≤ uMax)
    {s t : Nat} (hs : 0 < s) (ht : 0 < t) (fuel vCounter : Nat)
    (hfu : s + 1 ≤ fuel) (hfv : 2 * t + 1 ≤ fuel) :
    CHyperboloid.uLoop M (M.M_PI / (t : K)) "_pos"
        (fun u => decide (u < uMax + uMax / (s : K) / 5)) (fun u => u + uMax / (s : K))
        (CHyperboloid.posPoint M a c) fuel fuel 0 0 vCounter =
      some (CHyperboloid.grid (M.M_PI / (t : K)) "_pos" (CHyperboloid.posPoint M a c)
          (fun k => (k : K) * (uMax / (s : K))) (CHyperboloid.ringCount uMax (s + 1))
          (2 * t + 1),
        CHyperboloid.ringCount uMax (s + 1),
        if CHyperboloid.ringCount uMax (s + 1) = 0 then vCounter else 2 * t + 1) := by
  obtain ⟨hin, hout⟩ := CHyperboloid.uGuard_count hU hs
  exact CHyperboloid.uLoop_grid M hpi ht "_pos" _ _ _ _ 0 _ fuel vCounter
    (fun m => by rw [iterate_add_const, zero_add])
    (fun m hm => decide_eq_true (hin m hm)) (decide_eq_false hout)
    (le_trans (CHyperboloid.ringCount_le _ _) hfu) hfv

/-- The negative-sheet vertex loops in exact arithmetic. -/
theorem CHyperboloid.negLoop_eq (M : CMath K) (hpi : 0 < M.M_PI) (a c uMax : K) (hU : 0 ≤ uMax)
    {s t : Nat} (hs : 0 < s) (ht : 0 < t) (fuel vCounter : Nat)
    (hfu : s + 1 ≤ fuel) (hfv : 2 * t + 1 ≤ fuel) :
    CHyperboloid.uLoop M (M.M_PI / (t : K)) "_neg"
        (fun u => decide (u > -1 * (uMax + uMax / (s : K) / 5))) (fun u => u - uMax / (s : K))
        (CHyperboloid.negPoint M a c) fuel fuel 0 0 vCounter =
      some (CHyperboloid.grid (M.M_PI / (t : K)) "_neg" (CHyperboloid.negPoint M a c)
          (fun k => -((k : K) * (uMax / (s : K)))) (CHyperboloid.ringCount uMax (s + 1))
          (2 * t + 1),
        CHyperboloid.ringCount uMax (s + 1),
        if CHyperboloid.ringCount uMax (s + 1) = 0 then vCounter else 2 * t + 1) := by
  obtain ⟨hin, hout⟩ := CHyperboloid.uGuard_count hU hs
  exact CHyperboloid.uLoop_grid M hpi ht "_neg" _ _ _ _ 0 _ fuel vCounter
    (fun m => by rw [iterate_sub_const, zero_sub])
    (fun m hm => decide_eq_true (by have := hin m hm; show _ > _; linarith))
    (decide_eq_false (fun h => hout (by have h' : _ > _ := h; linarith)))
    (le_trans (CHyperboloid.ringCount_le _ _) hfu) hfv

/-- The one-sheet vertex loops in exact arithmetic. -/
theorem CHyperboloid.oneLoop_eq (M : CMath K) (hpi : 0 < M.M_PI) (a c uMax : K) (hU : 0 ≤ uMax)
    {s t : Nat} (hs : 0 < s) (ht : 0 < t) (fuel vCounter : Nat)
    (hfu : 2 * s + 1 ≤ fuel) (hfv : 2 * t + 1 ≤ fuel) :
    CHyperboloid.uLoop M (M.M_PI / (t : K)) ""
        (fun u => decide (u < uMax + uMax / (s : K) / 5)) (fun u => u + uMax / (s : K))
        (CHyperboloid.onePoint M a c) fuel fuel (-1 * (uMax + uMax / (s : K) / 5)) 0 vCounter =
      some (CHyperboloid.grid (M.M_PI / (t : K)) "" (CHyperboloid.onePoint M a c)
          (fun k => -1 * (uMax + uMax / (s : K) / 5) + (k : K) * (uMax / (s : K)))
          (CHyperboloid.ringCount uMax (2 * s + 1)) (2 * t + 1),
        CHyperboloid.ringCount uMax (2 * s + 1),
        if CHyperboloid.ringCount uMax (2 * s + 1) = 0 then vCounter else 2 * t + 1) := by
  obtain ⟨hin, hout⟩ := CHyperboloid.oneGuard_count hU hs
  exact CHyperboloid.uLoop_grid M hpi ht "" _ _ _ _ _ _ fuel vCounter
    (fun m => by rw [iterate_add_const])
    (fun m hm => decide_eq_true (hin m hm)) (decide_eq_false hout)
    (le_trans (CHyperboloid.ringCount_le _ _) hfu) hfv

/-- Closed form of the vertex calls of a build, by validated `sheet`. -/
theorem CHyperboloid.addVertices_eq (M : CMath K) (hpi : 0 < M.M_PI) (a c uMax : K)
    (hU : 0 ≤ uMax) {s t : Nat} (hs : 0 < s) (ht : 0 < t) (sheet : Int) (fuel : Nat)
    (hfu : 2 * s + 1 ≤ fuel) (hfv : 2 * t + 1 ≤ fuel) :
    CHyperboloid.addVertices M fuel a c uMax (uMax / (s : K)) (M.M_PI / (t : K)) sheet =
      some (
        (if sheet > 0 then
          CHyperboloid.grid (M.M_PI / (t : K)) "_pos" (CHyperboloid.posPoint M a c)
              (fun k => (k : K) * (uMax / (s : K))) (CHyperboloid.ringCount uMax (s + 1))
              (2 * t + 1) ++
            (if sheet = 2 then
              CHyperboloid.grid (M.M_PI / (t : K)) "_neg" (CHyperboloid.negPoint M a c)
                (fun k => -((k : K) * (uMax / (s : K)))) (CHyperboloid.ringCount uMax (s + 1))
                (2 * t + 1)
            else [])
        else
          CHyperboloid.grid (M.M_PI / (t : K)) "" (CHyperboloid.onePoint M a c)
            (fun k => -1 * (uMax + uMax / (s : K) / 5) + (k : K) * (uMax / (s : K)))
            (CHyperboloid.ringCount uMax (2 * s + 1)) (2 * t + 1)),
        (if sheet > 0 then CHyperboloid.ringCount uMax (s + 1)
          else CHyperboloid.ringCount uMax (2 * s + 1)),
        CHyperboloid.ringCount uMax (2 * t + 1)) := by
  have hv1 : (if CHyperboloid.ringCount uMax (s + 1) = 0 then 0 else 2 * t + 1) =
      CHyperboloid.ringCount uMax (2 * t + 1) := by
    unfold CHyperboloid.ringCount
    by_cases h : uMax = 0 <;> simp [h]
  have hv2 : (if CHyperboloid.ringCount uMax (2 * s + 1) = 0 then 0 else 2 * t + 1) =
      CHyperboloid.ringCount uMax (2 * t + 1) := by
    unfold CHyperboloid.ringCount
    by_cases h : uMax = 0 <;> simp [h]
  have hv3 : (if CHyperboloid.ringCount uMax (s + 1) = 0 then
      CHyperboloid.ringCount uMax (2 * t + 1) else 2 * t + 1) =
      CHyperboloid.ringCount uMax (2 * t + 1) := by
    unfold CHyperboloid.ringCount
    by_cases h : uMax = 0 <;> simp [h]
  unfold CHyperboloid.addVertices
  by_cases h1 : sheet > 0
  · rw [if_pos h1, if_pos h1, if_pos h1,
      CHyperboloid.posLoop_eq M hpi a c uMax hU hs ht fuel 0 (by omega) hfv]
    simp only []
    by_cases h2 : sheet = 2
    · rw [if_pos h2, if_pos h2,
        CHyperboloid.negLoop_eq M hpi a c uMax hU hs ht fuel _ (by omega) hfv]
      simp only [hv1, hv3]
    · rw [if_neg h2, if_neg h2, hv1]
      simp
  · rw [if_neg h1, if_neg h1, if_neg h1,
      CHyperboloid.oneLoop_eq M hpi a c uMax hU hs ht fuel 0 hfu hfv, hv2]

end HyperboloidLoops

/-! ## Hyperboloid: the face loops -/

section HyperboloidFaces

variable {K : Type}

theorem CHyperboloid.faceRow_eq (suffix : String) (u : Nat) (n : Nat) :
    ∀ (start faceCounter : Nat),
    CHyperboloid.faceRow K suffix u (List.range' start n) faceCounter =
      ((List.range n).map (fun v =>
          SinkCall.AddFace (CHyperboloid.fName (faceCounter + v))
            (CHyperboloid.face suffix u (start + v))), faceCounter + n) := by
  induction n with
  | zero => intro start faceCounter; rfl
  | succ n ih =>
    intro start faceCounter
    rw [List.range'_succ]
    unfold CHyperboloid.faceRow
    simp only []
    rw [ih (start + 1) (faceCounter + 1)]
    simp only [List.range_succ_eq_map, List.map_cons, List.map_map, add_zero, Prod.mk.injEq,
      List.cons.injEq, true_and]
    refine ⟨?_, by omega⟩
    apply List.map_congr_left
    intro v _
    simp only [Function.comp]
    have e1 : faceCounter + 1 + v = faceCounter + (v + 1) := by omega
    have e2 : start + 1 + v = start + (v + 1) := by omega
    rw [e1, e2]

theorem CHyperboloid.faceRows_eq (suffix : String) (cols : Nat) (n : Nat) :
    ∀ (start faceCounter : Nat),
    CHyperboloid.faceRows K suffix (List.range cols) (List.range' start n) faceCounter =
      ((List.range n).flatMap (fun u => (List.range cols).map (fun v =>
          SinkCall.AddFace (CHyperboloid.fName (faceCounter + u * cols + v))
            (CHyperboloid.face suffix (start + u) v))), faceCounter + n * cols) := by
  induction n with
  | zero => intro start faceCounter; simp [CHyperboloid.faceRows]
  | succ n ih =>
    intro start faceCounter
    rw [List.range'_succ]
    unfold CHyperboloid.faceRows
    rw [List.range_eq_range', CHyperboloid.faceRow_eq, ← List.range_eq_range']
    simp only []
    rw [ih (start + 1) (faceCounter + cols)]
    simp only [List.range_succ_eq_map, List.flatMap_cons, List.flatMap_map, add_zero,
      zero_mul, zero_add, Prod.mk.injEq]
    refine ⟨?_, by rw [Nat.succ_mul]; omega⟩
    congr 1
    apply List.flatMap_congr
    intro u _
    apply List.map_congr_left
    intro v _
    have e1 : faceCounter + cols + u * cols + v = faceCounter + (u + 1) * cols + v := by
      rw [Nat.succ_mul]
      omega
    have e2 : start + 1 + u = start + (u + 1) := by omega
    rw [e1, e2]

/-- Closed form of one sheet's face loops: the quads of the rows `u + 1 < uCounter`
and columns `v < vCounter - 1`, numbered consecutively from `faceCounter`. -/
theorem CHyperboloid.faceLoop_eq (suffix : String) (uCounter vCounter faceCounter : Nat) :
    CHyperboloid.faceLoop K suffix uCounter vCounter faceCounter =
      ((List.range (uCounter - 1)).flatMap (fun u => (List.range (vCounter - 1)).map (fun v =>
          SinkCall.AddFace (CHyperboloid.fName (faceCounter + u * (vCounter - 1) + v))
            (CHyperboloid.face suffix u v))),
        faceCounter + (uCounter - 1) * (vCounter - 1)) := by
  unfold CHyperboloid.faceLoop intBoundRange
  have hu : ((uCounter : Int) - 1).toNat = uCounter - 1 := by omega
  have hv : ((vCounter : Int) - 1).toNat = vCounter - 1 := by omega
  have h := @CHyperboloid.faceRows_eq K suffix (vCounter - 1) (uCounter - 1) 0 faceCounter
  rw [← List.range_eq_range'] at h
  rw [hu, hv, h]
  simp

theorem CHyperboloid.faces_faceLoop (suffix : String) (uCounter vCounter faceCounter : Nat) :
    faces (CHyperboloid.faceLoop K suffix uCounter vCounter faceCounter).1 =
      (List.range (uCounter - 1)).flatMap (fun u => (List.range (vCounter - 1)).map (fun v =>
          (CHyperboloid.fName (faceCounter + u * (vCounter - 1) + v),
            CHyperboloid.face suffix u v))) := by
  rw [CHyperboloid.faceLoop_eq, faces_flatMap]
  simp only [faces_map_AddFace]

theorem CHyperboloid.vertices_faceLoop (suffix : String) (uCounter vCounter faceCounter : Nat) :
    vertices (CHyperboloid.faceLoop K suffix uCounter vCounter faceCounter).1 = [] := by
  rw [CHyperboloid.faceLoop_eq, vertices_flatMap]
  simp only [vertices_map_AddFace]
  simp

theorem CHyperboloid.hyperboloid_vertices_addFaces (sheet : Int) (uCounter vCounter : Nat) :
    vertices (CHyperboloid.addFaces K sheet uCounter vCounter) = [] := by
  unfold CHyperboloid.addFaces
  split_ifs <;> simp [vertices_append, CHyperboloid.vertices_faceLoop]

end HyperboloidFaces

/-! ## Hyperboloid: referential closure -/

section HyperboloidClosure

variable {K : Type} [LinearOrderedField K] [FloorRing K]

theorem CHyperboloid.vertices_grid (vIncrement : K) (suffix : String)
    (point : K → K → Vector3 K) (uOf : Nat → K) (rings perRing : Nat) :
    vertices (CHyperboloid.grid vIncrement suffix point uOf rings perRing) =
      (List.range rings).flatMap fun k =>
        (List.range perRing).map fun m =>
          (CHyperboloid.vName k m suffix, point (uOf k) ((m : K) * vIncrement)) := by
  unfold CHyperboloid.grid
  rw [vertices_flatMap]
  simp only [vertices_map_AddVertex]

theorem CHyperboloid.faces_grid (vIncrement : K) (suffix : String)
    (point : K → K → Vector3 K) (uOf : Nat → K) (rings perRing : Nat) :
    faces (CHyperboloid.grid vIncrement suffix point uOf rings perRing) = [] := by
  unfold CHyperboloid.grid
  rw [faces_flatMap]
  simp only [faces_map_AddVertex]
  simp

theorem CHyperboloid.vertexNames_grid (vIncrement : K) (suffix : String)
    (point : K → K → Vector3 K) (uOf : Nat → K) (rings perRing : Nat) :
    vertexNames (CHyperboloid.grid vIncrement suffix point uOf rings perRing) =
      (List.range rings).flatMap fun k =>
        (List.range perRing).map fun m => CHyperboloid.vName k m suffix := by
  unfold vertexNames
  rw [CHyperboloid.vertices_grid, List.map_flatMap]
  simp only [List.map_map]
  rfl

/-- The quads of one sheet's face loops refer only to vertices of a grid with
at least `uCounter` rings of at least `vCounter` vertices. -/
theorem CHyperboloid.face_refs_in_grid (vIncrement : K) (suffix : String)
    (point : K → K → Vector3 K) (uOf : Nat → K) (rings perRing : Nat)
    (uCounter vCounter faceCounter : Nat) (hu : uCounter ≤ rings) (hv : vCounter ≤ perRing)
    (name : String) (face : List String)
    (hmem : (name, face) ∈ faces (CHyperboloid.faceLoop K suffix uCounter vCounter faceCounter).1)
    (x : String) (hx : x ∈ face) :
    x ∈ vertexNames (CHyperboloid.grid vIncrement suffix point uOf rings perRing) := by
  rw [CHyperboloid.faces_faceLoop, List.mem_flatMap] at hmem
  obtain ⟨u, hur, hmem⟩ := hmem
  obtain ⟨v, hvr, hEq⟩ := List.mem_map.1 hmem
  rw [List.mem_range] at hur hvr
  have hface := (Prod.mk.inj hEq).2
  rw [← hface] at hx
  rw [CHyperboloid.vertexNames_grid, List.mem_flatMap]
  have key : ∀ k m, k < rings → m < perRing →
      ∃ a, a ∈ List.range rings ∧
        CHyperboloid.vName k m suffix ∈
          (List.range perRing).map fun m => CHyperboloid.vName a m suffix :=
    fun k m hk hm => ⟨k, List.mem_range.2 hk, List.mem_map.2 ⟨m, List.mem_range.2 hm, rfl⟩⟩
  simp only [CHyperboloid.face, List.mem_cons, List.mem_singleton, List.not_mem_nil,
    or_false] at hx
  rcases hx with h | h | h | h <;> rw [h] <;> apply key <;> omega

theorem CHyperboloid.UpdateEntity_eq (M : CMath K) (hpi : 0 < M.M_PI) (A C UMax Sheet : K)
    (hU : 0 ≤ UMax) {s t : Nat} (hs : 0 < s) (ht : 0 < t) (fuel : Nat)
    (hfu : 2 * s + 1 ≤ fuel) (hfv : 2 * t + 1 ≤ fuel) :
    CHyperboloid.UpdateEntity M fuel A C UMax (s : K) (t : K) Sheet =
      some (
        (if CHyperboloid.validSheet Sheet > 0 then
          CHyperboloid.grid (M.M_PI / (t : K)) "_pos" (CHyperboloid.posPoint M A C)
              (fun k => (k : K) * (UMax / (s : K))) (CHyperboloid.ringCount UMax (s + 1))
              (2 * t + 1) ++
            (if CHyperboloid.validSheet Sheet = 2 then
              CHyperboloid.grid (M.M_PI / (t : K)) "_neg" (CHyperboloid.negPoint M A C)
                (fun k => -((k : K) * (UMax / (s : K)))) (CHyperboloid.ringCount UMax (s + 1))
                (2 * t + 1)
            else [])
        else
          CHyperboloid.grid (M.M_PI / (t : K)) "" (CHyperboloid.onePoint M A C)
            (fun k => -1 * (UMax + UMax / (s : K) / 5) + (k : K) * (UMax / (s : K)))
            (CHyperboloid.ringCount UMax (2 * s + 1)) (2 * t + 1)) ++
        CHyperboloid.addFaces K (CHyperboloid.validSheet Sheet)
          (if CHyperboloid.validSheet Sheet > 0 then CHyperboloid.ringCount UMax (s + 1)
            else CHyperboloid.ringCount UMax (2 * s + 1))
          (CHyperboloid.ringCount UMax (2 * t + 1))) := by
  unfold CHyperboloid.UpdateEntity
  simp only []
  rw [CHyperboloid.addVertices_eq M hpi A C UMax hU hs ht _ fuel hfu hfv]

theorem CHyperboloid.ringCount_pos {uMax : K} (hU : 0 < uMax) (n : Nat) :
    CHyperboloid.ringCount uMax n = n := by
  unfold CHyperboloid.ringCount
  rw [if_neg (ne_of_gt hU)]

/-- The vertices of a build in exact arithmetic, by validated sheet mode. -/
theorem CHyperboloid.vertices_of_build (M : CMath K) (hpi : 0 < M.M_PI) (A C UMax Sheet : K)
    (hU : 0 ≤ UMax) {s t : Nat} (hs : 0 < s) (ht : 0 < t) (fuel : Nat)
    (hfu : 2 * s + 1 ≤ fuel) (hfv : 2 * t + 1 ≤ fuel) :
    ∃ calls, CHyperboloid.UpdateEntity M fuel A C UMax (s : K) (t : K) Sheet = some calls ∧
      vertices calls =
        (if CHyperboloid.validSheet Sheet > 0 then
          vertices (CHyperboloid.grid (M.M_PI / (t : K)) "_pos" (CHyperboloid.posPoint M A C)
              (fun k => (k : K) * (UMax / (s : K))) (CHyperboloid.ringCount UMax (s + 1))
              (2 * t + 1)) ++
            (if CHyperboloid.validSheet Sheet = 2 then
              vertices (CHyperboloid.grid (M.M_PI / (t : K)) "_neg"
                (CHyperboloid.negPoint M A C)
                (fun k => -((k : K) * (UMax / (s : K)))) (CHyperboloid.ringCount UMax (s + 1))
                (2 * t + 1))
            else [])
        else
          vertices (CHyperboloid.grid (M.M_PI / (t : K)) "" (CHyperboloid.onePoint M A C)
            (fun k => -1 * (UMax + UMax / (s : K) / 5) + (k : K) * (UMax / (s : K)))
            (CHyperboloid.ringCount UMax (2 * s + 1)) (2 * t + 1))) := by
  refine ⟨_, CHyperboloid.UpdateEntity_eq M hpi A C UMax Sheet hU hs ht fuel hfu hfv, ?_⟩
  rw [vertices_append, CHyperboloid.hyperboloid_vertices_addFaces, List.append_nil]
  split_ifs <;> simp [vertices_append, vertices]

end HyperboloidClosure

/-! ## Hyperboloid: what every returning build satisfies -/

section HyperboloidSound

variable {K : Type} [LinearOrderedField K] [FloorRing K]

theorem vertices_cons_AddVertex (name : String) (pos : Vector3 K) (rest : List (SinkCall K)) :
    vertices (SinkCall.AddVertex name pos :: rest) = (name, pos) :: vertices rest :=
  rfl

theorem faces_cons_AddVertex (name : String) (pos : Vector3 K) (rest : List (SinkCall K)) :
    faces (SinkCall.AddVertex name pos :: rest) = faces rest :=
  rfl

/-- Whenever the `v` loop returns, it has added vertices only, named with the
consecutive counter values from `vCounter` up to the final one, each at a
point of the ring. -/
theorem CHyperboloid.vLoop_sound (M : CMath K) (vIncrement : K) (uCounter : Nat)
    (suffix : String) (point : K → Vector3 K) (fuel : Nat) :
    ∀ (v : K) (vCounter : Nat) (calls : List (SinkCall K)) (vEnd : Nat),
    CHyperboloid.vLoop M vIncrement uCounter suffix point fuel v vCounter = some (calls, vEnd) →
      vCounter ≤ vEnd ∧ faces calls = [] ∧
        vertexNames calls =
          (List.range' vCounter (vEnd - vCounter)).map
            (fun m => CHyperboloid.vName uCounter m suffix) ∧
        ∀ p ∈ vertices calls, ∃ w, p.2 = point w := by
  induction fuel with
  | zero =>
    intro v vCounter calls vEnd h
    unfold CHyperboloid.vLoop at h
    split_ifs at h
    simp only [Option.some.injEq, Prod.mk.injEq] at h
    obtain ⟨rfl, rfl⟩ := h
    simp [faces, vertexNames, vertices]
  | succ fuel ih =>
    intro v vCounter calls vEnd h
    unfold CHyperboloid.vLoop at h
    split_ifs at h with hg
    · cases hrec : CHyperboloid.vLoop M vIncrement uCounter suffix point fuel (v + vIncrement)
          (vCounter + 1) with
      | none => rw [hrec] at h; simp at h
      | some r =>
        obtain ⟨rest, vEnd2⟩ := r
        rw [hrec] at h
        simp only [Option.some.injEq, Prod.mk.injEq] at h
        obtain ⟨rfl, rfl⟩ := h
        obtain ⟨h1, h2, h3, h4⟩ := ih _ _ _ _ hrec
        refine ⟨by omega, by rw [faces_cons_AddVertex, h2], ?_, ?_⟩
        · have e : vEnd2 - vCounter = (vEnd2 - (vCounter + 1)) + 1 := by omega
          rw [e, List.range'_succ, List.map_cons, ← h3]
          rfl
        · intro p hp
          rw [vertices_cons_AddVertex] at hp
          rcases List.mem_cons.1 hp with rfl | hp
          · exact ⟨v, rfl⟩
          · exact h4 p hp
    · simp only [Option.some.injEq, Prod.mk.injEq] at h
      obtain ⟨rfl, rfl⟩ := h
      simp [faces, vertexNames, vertices]

/-- Whenever the `u` loop returns, it has added vertices only, with distinct
names built from counters `≥ uCounter` and the loop's suffix, each at a point
of the surface. -/
theorem CHyperboloid.uLoop_sound (M : CMath K) (vIncrement : K) (suffix : String)
    (guard : K → Bool) (next : K → K) (point : K → K → Vector3 K) (vFuel : Nat) (fuel : Nat) :
    ∀ (u : K) (uCounter vCounter : Nat) (calls : List (SinkCall K)) (uEnd vEnd : Nat),
    CHyperboloid.uLoop M vIncrement suffix guard next point vFuel fuel u uCounter vCounter =
        some (calls, uEnd, vEnd) →
      faces calls = [] ∧ (vertexNames calls).Nodup ∧
        (∀ name ∈ vertexNames calls, ∃ k m, uCounter ≤ k ∧
          name = CHyperboloid.vName k m suffix) ∧
        ∀ p ∈ vertices calls, ∃ w1 w2, p.2 = point w1 w2 := by
  induction fuel with
  | zero =>
    intro u uCounter vCounter calls uEnd vEnd h
    unfold CHyperboloid.uLoop at h
    split_ifs at h
    simp only [Option.some.injEq, Prod.mk.injEq] at h
    obtain ⟨rfl, -, -⟩ := h
    simp [faces, vertexNames, vertices]
  | succ fuel ih =>
    intro u uCounter vCounter calls uEnd vEnd h
    unfold CHyperboloid.uLoop at h
    split_ifs at h with hg
    · cases hring : CHyperboloid.vLoop M vIncrement uCounter suffix (point u) vFuel 0 0 with
      | none => rw [hring] at h; simp at h
      | some r =>
        obtain ⟨ring, vEnd1⟩ := r
        rw [hring] at h
        simp only [] at h
        cases hrec : CHyperboloid.uLoop M vIncrement suffix guard next point vFuel fuel (next u)
            (uCounter + 1) vEnd1 with
        | none => rw [hrec] at h; simp at h
        | some r2 =>
          obtain ⟨rest, uEnd2, vEnd2⟩ := r2
          rw [hrec] at h
          simp only [Option.some.injEq, Prod.mk.injEq] at h
          obtain ⟨rfl, -, -⟩ := h
          obtain ⟨-, a2, a3, a4⟩ := CHyperboloid.vLoop_sound M vIncrement uCounter suffix
            (point u) vFuel _ _ _ _ hring
          obtain ⟨b1, b2, b3, b4⟩ := ih _ _ _ _ _ _ hrec
          refine ⟨by rw [faces_append, a2, b1]; rfl, ?_, ?_, ?_⟩
          · rw [vertexNames_append, List.nodup_append]
            refine ⟨?_, b2, ?_⟩
            · rw [a3]
              exact (List.nodup_range' _ _).map_on
                fun x _ y _ hxy => (CHyperboloid.hyperboloid_vName_inj_same hxy).2
            · intro x hx1 hx2
              rw [a3] at hx1
              obtain ⟨m, _, rfl⟩ := List.mem_map.1 hx1
              obtain ⟨k, m2, hk, hEq⟩ := b3 _ hx2
              have := (CHyperboloid.hyperboloid_vName_inj_same hEq).1
              omega
          · intro name hname
            rw [vertexNames_append] at hname
            rcases List.mem_append.1 hname with hn | hn
            · rw [a3] at hn
              obtain ⟨m, _, rfl⟩ := List.mem_map.1 hn
              exact ⟨uCounter, m, le_refl _, rfl⟩
            · obtain ⟨k, m, hk, hEq⟩ := b3 _ hn
              exact ⟨k, m, by omega, hEq⟩
          · intro p hp
            rw [vertices_append] at hp
            rcases List.mem_append.1 hp with hp | hp
            · obtain ⟨w, hw⟩ := a4 p hp
              exact ⟨u, w, hw⟩
            · exact b4 p hp
    · simp only [Option.some.injEq, Prod.mk.injEq] at h
      obtain ⟨rfl, -, -⟩ := h
      simp [faces, vertexNames, vertices]

/-- Whenever the vertex part returns, it has added vertices only, under
distinct names, each at a point of the surface of its sheet. -/
theorem CHyperboloid.addVertices_sound (M : CMath K) (fuel : Nat)
    (a c uMax uIncrement vIncrement : K) (sheet : Int) (calls : List (SinkCall K))
    (uCounter vCounter : Nat)
    (h : CHyperboloid.addVertices M fuel a c uMax uIncrement vIncrement sheet =
      some (calls, uCounter, vCounter)) :
    faces calls = [] ∧ (vertexNames calls).Nodup ∧
      ∀ p ∈ vertices calls,
        (0 < sheet → ∃ w1 w2, p.2 = CHyperboloid.posPoint M a c w1 w2 ∨
          p.2 = CHyperboloid.negPoint M a c w1 w2) ∧
        (¬ 0 < sheet → ∃ w1 w2, p.2 = CHyperboloid.onePoint M a c w1 w2) := by
  unfold CHyperboloid.addVertices at h
  by_cases h1 : sheet > 0
  · rw [if_pos h1] at h
    cases hpos : CHyperboloid.uLoop M vIncrement "_pos"
        (fun u => decide (u < uMax + uIncrement / 5)) (fun u => u + uIncrement)
        (CHyperboloid.posPoint M a c) fuel fuel 0 0 0 with
    | none => rw [hpos] at h; simp at h
    | some r =>
      obtain ⟨pos, uc1, vc1⟩ := r
      rw [hpos] at h
      simp only [] at h
      obtain ⟨a1, a2, a3, a4⟩ := CHyperboloid.uLoop_sound _ _ _ _ _ _ _ _ _ _ _ _ _ _ hpos
      by_cases h2 : sheet = 2
      · rw [if_pos h2] at h
        cases hneg : CHyperboloid.uLoop M vIncrement "_neg"
            (fun u => decide (u > -1 * (uMax + uIncrement / 5))) (fun u => u - uIncrement)
            (CHyperboloid.negPoint M a c) fuel fuel 0 0 vc1 with
        | none => rw [hneg] at h; simp at h
        | some r2 =>
          obtain ⟨neg, uc2, vc2⟩ := r2
          rw [hneg] at h
          simp only [Option.some.injEq, Prod.mk.injEq] at h
          obtain ⟨rfl, -, -⟩ := h
          obtain ⟨b1, b2, b3, b4⟩ := CHyperboloid.uLoop_sound _ _ _ _ _ _ _ _ _ _ _ _ _ _ hneg
          refine ⟨by rw [faces_append, a1, b1]; rfl, ?_, ?_⟩
          · rw [vertexNames_append, List.nodup_append]
            refine ⟨a2, b2, ?_⟩
            intro x hx1 hx2
            obtain ⟨k, m, _, rfl⟩ := a3 x hx1
            obtain ⟨k2, m2, _, hEq⟩ := b3 _ hx2
            have := (CHyperboloid.hyperboloid_vName_inj ⟨_, rfl⟩ ⟨_, rfl⟩ hEq).2.2
            exact absurd this (by decide)
          · intro p hp
            rw [vertices_append] at hp
            refine ⟨fun _ => ?_, fun hn => absurd h1 hn⟩
            rcases List.mem_append.1 hp with hp | hp
            · obtain ⟨w1, w2, hw⟩ := a4 p hp
              exact ⟨w1, w2, Or.inl hw⟩
            · obtain ⟨w1, w2, hw⟩ := b4 p hp
              exact ⟨w1, w2, Or.inr hw⟩
      · rw [if_neg h2] at h
        simp only [Option.some.injEq, Prod.mk.injEq] at h
        obtain ⟨rfl, -, -⟩ := h
        refine ⟨a1, a2, fun p hp => ⟨fun _ => ?_, fun hn => absurd h1 hn⟩⟩
        obtain ⟨w1, w2, hw⟩ := a4 p hp
        exact ⟨w1, w2, Or.inl hw⟩
  · rw [if_neg h1] at h
    obtain ⟨a1, a2, a3, a4⟩ := CHyperboloid.uLoop_sound _ _ _ _ _ _ _ _ _ _ _ _ _ _ h
    exact ⟨a1, a2, fun p hp => ⟨fun hn => absurd hn h1, fun _ => a4 p hp⟩⟩

theorem CHyperboloid.faceLoop_snd (suffix : String) (uCounter vCounter faceCounter : Nat) :
    (CHyperboloid.faceLoop K suffix uCounter vCounter faceCounter).2 =
      faceCounter + (uCounter - 1) * (vCounter - 1) := by
  rw [CHyperboloid.faceLoop_eq]

theorem CHyperboloid.validSheet_natCast (m : Nat) (hm : m ≤ 2) :
    CHyperboloid.validSheet (m : K) = (m : Int) := by
  unfold CHyperboloid.validSheet
  simp only []
  rw [castInt_natCast, if_neg (by omega)]

theorem CHyperboloid.validSheet_zero : CHyperboloid.validSheet (0 : K) = 0 := by
  simpa using @CHyperboloid.validSheet_natCast K _ _ 0 (by omega)

theorem CHyperboloid.validSheet_one : CHyperboloid.validSheet (1 : K) = 1 := by
  simpa using @CHyperboloid.validSheet_natCast K _ _ 1 (by omega)

theorem CHyperboloid.validSheet_two : CHyperboloid.validSheet (2 : K) = 2 := by
  simpa using @CHyperboloid.validSheet_natCast K _ _ 2 (by omega)

/-- Whenever a build returns, each of its vertices is a point of the surface
of its validated sheet mode. -/
theorem CHyperboloid.UpdateEntity_points (M : CMath K) (fuel : Nat)
    (A C UMax UIncrement VIncrement Sheet : K) (calls : List (SinkCall K))
    (h : CHyperboloid.UpdateEntity M fuel A C UMax UIncrement VIncrement Sheet = some calls) :
    ∀ p ∈ vertices calls,
      (0 < CHyperboloid.validSheet Sheet → ∃ w1 w2, p.2 = CHyperboloid.posPoint M A C w1 w2 ∨
        p.2 = CHyperboloid.negPoint M A C w1 w2) ∧
      (¬ 0 < CHyperboloid.validSheet Sheet →
        ∃ w1 w2, p.2 = CHyperboloid.onePoint M A C w1 w2) := by
  unfold CHyperboloid.UpdateEntity at h
  simp only [] at h
  cases hv : CHyperboloid.addVertices M fuel A C UMax (UMax / UIncrement)
      (M.M_PI / VIncrement) (CHyperboloid.validSheet Sheet) with
  | none => rw [hv] at h; simp at h
  | some r =>
    obtain ⟨vs, uc, vc⟩ := r
    rw [hv] at h
    simp only [Option.some.injEq] at h
    subst h
    obtain ⟨-, -, a3⟩ := CHyperboloid.addVertices_sound _ _ _ _ _ _ _ _ _ _ _ hv
    intro p hp
    rw [vertices_append, CHyperboloid.hyperboloid_vertices_addFaces, List.append_nil] at hp
    exact a3 p hp

end HyperboloidSound

section HyperboloidClaims

variable {K : Type} [LinearOrderedField K] [FloorRing K]

/-- C10. Endpoint inclusion by the `step/5` slack: in exact arithmetic (any
ordered field with `M_PI > 0`), for `Sheet = 1`, `UMax > 0` and positive whole
step counts `UIncrement = s`, `VIncrement = t`, the build returns and its
vertices are, in order, `s + 1` rings sampled at `u = k * UMax / s` for
`k = 0..s`, each of `2 * t + 1` vertices sampled at `v = m * M_PI / t` for
`m = 0..2t`; the last ring is at `u = UMax` and the last vertex of a ring at
`v = 2 * M_PI`. -/
theorem CHyperboloid.paraboloid_sampling (M : CMath K) (hpi : 0 < M.M_PI) (A C UMax : K)
    (hU : 0 < UMax) (s t : Nat) (hs : 0 < s) (ht : 0 < t) (fuel : Nat)
    (hfu : 2 * s + 1 ≤ fuel) (hfv : 2 * t + 1 ≤ fuel) :
    ∃ calls, CHyperboloid.UpdateEntity M fuel A C UMax (s : K) (t : K) 1 = some calls ∧
      vertices calls =
        ((List.range (s + 1)).flatMap fun k =>
          (List.range (2 * t + 1)).map fun m =>
            (CHyperboloid.vName k m "_pos",
              CHyperboloid.posPoint M A C ((k : K) * UMax / (s : K))
                ((m : K) * M.M_PI / (t : K)))) ∧
      (s : K) * UMax / (s : K) = UMax ∧
      ((2 * t : Nat) : K) * M.M_PI / (t : K) = 2 * M.M_PI := by
  obtain ⟨calls, hrun, hv⟩ :=
    CHyperboloid.vertices_of_build M hpi A C UMax 1 hU.le hs ht fuel hfu hfv
  have hs' : (s : K) ≠ 0 := by exact_mod_cast (by omega : s ≠ 0)
  have ht' : (t : K) ≠ 0 := by exact_mod_cast (by omega : t ≠ 0)
  refine ⟨calls, hrun, ?_, ?_, ?_⟩
  · rw [hv, CHyperboloid.validSheet_one, if_pos (by decide), if_neg (by decide), List.append_nil,
      CHyperboloid.vertices_grid, CHyperboloid.ringCount_pos hU]
    simp only [mul_div_assoc]
  · field_simp
  · push_cast
    field_simp
    ring

end HyperboloidClaims

/-! ## Positions in exact real arithmetic

The claims about positions are read on `ℝ`, with `tc::M_PI`, `cosf`, `sinf`,
`sinh`, `cosh` and `sqrt` the real constant and functions. -/

section RealClaims

/-- C7. Hyperboloid vertices lie on the quadric: in exact real arithmetic, for
`A ≠ 0` and `C ≠ 0`, the build returns (for `UMax ≥ 0`, positive whole step
counts `s`, `t` and enough fuel), and every vertex `(x, y, z)` of a build
that returns satisfies `x²/A² + y²/A² − z²/C² = 1` when `Sheet = 0`, and
`x²/A² + y²/A² − z²/C² = −1` when `Sheet = 1` or `Sheet = 2` (the `_pos` and
the `_neg` group). -/
theorem CHyperboloid.vertex_on_quadric (A C : ℝ) (hA : A ≠ 0) (hC : C ≠ 0) :
    (∀ (UMax Sheet : ℝ) (s t fuel : Nat), 0 ≤ UMax → 0 < s → 0 < t →
      2 * s + 1 ≤ fuel → 2 * t + 1 ≤ fuel →
      ∃ calls, CHyperboloid.UpdateEntity
        ⟨Real.pi, Real.cos, Real.sin, Real.sinh, Real.cosh, Real.sqrt⟩
        fuel A C UMax (s : ℝ) (t : ℝ) Sheet = some calls) ∧
    (∀ (fuel : Nat) (UMax UIncrement VIncrement Sheet : ℝ) (calls : List (SinkCall ℝ)),
      CHyperboloid.UpdateEntity ⟨Real.pi, Real.cos, Real.sin, Real.sinh, Real.cosh, Real.sqrt⟩
        fuel A C UMax UIncrement VIncrement Sheet = some calls →
      ∀ (name : String) (pos : Vector3 ℝ), (name, pos) ∈ vertices calls →
        (Sheet = 0 → pos.x ^ 2 / A ^ 2 + pos.y ^ 2 / A ^ 2 - pos.z ^ 2 / C ^ 2 = 1) ∧
        (Sheet = 1 ∨ Sheet = 2 →
          pos.x ^ 2 / A ^ 2 + pos.y ^ 2 / A ^ 2 - pos.z ^ 2 / C ^ 2 = -1)) := by
  refine ⟨fun UMax Sheet s t fuel hU hs ht hfu hfv =>
    ⟨_, CHyperboloid.UpdateEntity_eq _ Real.pi_pos A C UMax Sheet hU hs ht fuel hfu hfv⟩, ?_⟩
  intro fuel UMax UIncrement VIncrement Sheet calls h name pos hmem
  obtain ⟨hpn, hone⟩ := CHyperboloid.UpdateEntity_points _ _ _ _ _ _ _ _ _ h (name, pos) hmem
  have hA2 : A ^ 2 ≠ 0 := pow_ne_zero 2 hA
  have hC2 : C ^ 2 ≠ 0 := pow_ne_zero 2 hC
  constructor
  · intro hS
    have hs : ¬ 0 < CHyperboloid.validSheet Sheet := by
      rw [hS, CHyperboloid.validSheet_zero]
      exact lt_irrefl 0
    obtain ⟨u, v, hp⟩ := hone hs
    simp only [] at hp
    rw [hp]
    simp only [CHyperboloid.onePoint]
    have h1 := Real.cos_sq_add_sin_sq v
    have h2 : Real.sqrt (1 + u ^ 2) ^ 2 = 1 + u ^ 2 := Real.sq_sqrt (by positivity)
    set cv := Real.cos v
    set sv := Real.sin v
    set r := Real.sqrt (1 + u ^ 2)
    have e : (A * r * cv) ^ 2 / A ^ 2 + (A * r * sv) ^ 2 / A ^ 2 - (C * u) ^ 2 / C ^ 2 =
        r ^ 2 * (cv ^ 2 + sv ^ 2) - u ^ 2 := by
      field_simp
      ring
    rw [e, h1, h2]
    ring
  · intro hS
    have hs : 0 < CHyperboloid.validSheet Sheet := by
      rcases hS with hS | hS
      · rw [hS, CHyperboloid.validSheet_one]
        exact Int.one_pos
      · rw [hS, CHyperboloid.validSheet_two]
        exact (by decide : (0 : Int) < 2)
    obtain ⟨u, v, hp⟩ := hpn hs
    simp only [] at hp
    have h1 := Real.cos_sq_add_sin_sq v
    have h2 := Real.cosh_sq u
    have key : (A * Real.sinh u * Real.cos v) ^ 2 / A ^ 2 +
        (A * Real.sinh u * Real.sin v) ^ 2 / A ^ 2 - (C * Real.cosh u) ^ 2 / C ^ 2 = -1 := by
      set cv := Real.cos v
      set sv := Real.sin v
      set sh := Real.sinh u
      set ch := Real.cosh u
      have e : (A * sh * cv) ^ 2 / A ^ 2 + (A * sh * sv) ^ 2 / A ^ 2 - (C * ch) ^ 2 / C ^ 2 =
          sh ^ 2 * (cv ^ 2 + sv ^ 2) - ch ^ 2 := by
        field_simp
        ring
      rw [e, h1, h2]
      ring
    rcases hp with hp | hp
    · rw [hp]
      simp only [CHyperboloid.posPoint]
      exact key
    · rw [hp]
      simp only [CHyperboloid.negPoint, neg_sq]
      exact key

/-- C8. Two-sheet point reflection: in exact real arithmetic, for `Sheet = 2`,
every `A`, `C`, `UMax ≥ 0` and positive whole step counts `UIncrement = s`,
`VIncrement = t`, the build returns and its vertices are a group `P` named
with suffix `_pos` followed by a group `N` named with suffix `_neg`; the two
groups have the same number of vertices, and for every vertex of `P` at
`(x, y, z)` there is a vertex of `N` at `(−x, −y, −z)`. -/
theorem CHyperboloid.two_sheet_reflection (A C UMax : ℝ) (hU : 0 ≤ UMax) (s t : Nat)
    (hs : 0 < s) (ht : 0 < t) (fuel : Nat) (hfu : 2 * s + 1 ≤ fuel)
    (hfv : 2 * t + 1 ≤ fuel) :
    ∃ (calls : List (SinkCall ℝ)) (P N : List (String × Vector3 ℝ)),
      CHyperboloid.UpdateEntity ⟨Real.pi, Real.cos, Real.sin, Real.sinh, Real.cosh, Real.sqrt⟩
        fuel A C UMax (s : ℝ) (t : ℝ) 2 = some calls ∧
      vertices calls = P ++ N ∧
      (∀ p ∈ P, ∃ k m, p.1 = CHyperboloid.vName k m "_pos") ∧
      (∀ q ∈ N, ∃ k m, q.1 = CHyperboloid.vName k m "_neg") ∧
      P.length = N.length ∧
      ∀ p ∈ P, ∃ q ∈ N, q.2.x = -p.2.x ∧ q.2.y = -p.2.y ∧ q.2.z = -p.2.z := by
  obtain ⟨calls, hrun, hv⟩ := CHyperboloid.vertices_of_build
    (⟨Real.pi, Real.cos, Real.sin, Real.sinh, Real.cosh, Real.sqrt⟩ : CMath ℝ)
    Real.pi_pos A C UMax 2 hU hs ht fuel hfu hfv
  rw [CHyperboloid.validSheet_two, if_pos (by decide), if_pos rfl] at hv
  refine ⟨calls, _, _, hrun, hv, ?_, ?_, ?_, ?_⟩
  · intro p hp
    rw [CHyperboloid.vertices_grid, List.mem_flatMap] at hp
    obtain ⟨k, -, hp⟩ := hp
    obtain ⟨m, -, rfl⟩ := List.mem_map.1 hp
    exact ⟨k, m, rfl⟩
  · intro q hq
    rw [CHyperboloid.vertices_grid, List.mem_flatMap] at hq
    obtain ⟨k, -, hq⟩ := hq
    obtain ⟨m, -, rfl⟩ := List.mem_map.1 hq
    exact ⟨k, m, rfl⟩
  · rw [CHyperboloid.vertices_grid, CHyperboloid.vertices_grid, length_grid, length_grid]
  · intro p hp
    rw [CHyperboloid.vertices_grid, List.mem_flatMap] at hp
    obtain ⟨k, hk, hp⟩ := hp
    obtain ⟨m, hm, rfl⟩ := List.mem_map.1 hp
    rw [List.mem_range] at hm
    have ht' : (t : ℝ) ≠ 0 := by exact_mod_cast (by omega : t ≠ 0)
    have hstep : (t : ℝ) * (Real.pi / (t : ℝ)) = Real.pi := by
      field_simp
    by_cases hmt : m < t
    · refine ⟨(CHyperboloid.vName k (m + t) "_neg",
          CHyperboloid.negPoint ⟨Real.pi, Real.cos, Real.sin, Real.sinh, Real.cosh, Real.sqrt⟩
            A C (-((k : ℝ) * (UMax / (s : ℝ)))) (((m + t : Nat) : ℝ) * (Real.pi / (t : ℝ)))),
        ?_, ?_⟩
      · rw [CHyperboloid.vertices_grid, List.mem_flatMap]
        exact ⟨k, hk, List.mem_map.2 ⟨m + t, List.mem_range.2 (by omega), rfl⟩⟩
      · have e : ((m + t : Nat) : ℝ) * (Real.pi / (t : ℝ)) =
            (m : ℝ) * (Real.pi / (t : ℝ)) + Real.pi := by
          push_cast
          rw [add_mul, hstep]
        simp only [CHyperboloid.negPoint, CHyperboloid.posPoint, e, Real.cos_add_pi,
          Real.sin_add_pi, Real.sinh_neg, Real.cosh_neg]
        refine ⟨by ring, by ring, trivial⟩
    · refine ⟨(CHyperboloid.vName k (m - t) "_neg",
          CHyperboloid.negPoint ⟨Real.pi, Real.cos, Real.sin, Real.sinh, Real.cosh, Real.sqrt⟩
            A C (-((k : ℝ) * (UMax / (s : ℝ)))) (((m - t : Nat) : ℝ) * (Real.pi / (t : ℝ)))),
        ?_, ?_⟩
      · rw [CHyperboloid.vertices_grid, List.mem_flatMap]
        exact ⟨k, hk, List.mem_map.2 ⟨m - t, List.mem_range.2 (by omega), rfl⟩⟩
      · have e : ((m - t : Nat) : ℝ) * (Real.pi / (t : ℝ)) =
            (m : ℝ) * (Real.pi / (t : ℝ)) - Real.pi := by
          rw [Nat.cast_sub (by omega : t ≤ m), sub_mul, hstep]
        simp only [CHyperboloid.negPoint, CHyperboloid.posPoint, e, Real.cos_sub_pi,
          Real.sin_sub_pi, Real.sinh_neg, Real.cosh_neg]
        refine ⟨by ring, by ring, trivial⟩

end RealClaims

/-! ## The builds of the scenarios, evaluated -/

section Scenarios

theorem ratMath_pi_pos : 0 < ratMath.M_PI := by
  norm_num [ratMath]

theorem head?_grid {α : Type} (f : Nat → Nat → α) (a b : Nat) :
    ((List.range (a + 1)).flatMap fun k => (List.range (b + 1)).map (f k)).head? =
      some (f 0 0) := by
  simp [List.range_succ_eq_map]

theorem getLast?_grid {α : Type} (f : Nat → Nat → α) (a b : Nat) :
    ((List.range (a + 1)).flatMap fun k => (List.range (b + 1)).map (f k)).getLast? =
      some (f a b) := by
  rw [List.range_succ, List.flatMap_append]
  simp [List.range_succ]

/-- The one-sheet vertex loops in exact arithmetic: `2 * s + 1` rings, ring `k`
computed at `u = -1 * (UMax + uIncrement / 5) + k * uIncrement`. -/
theorem CHyperboloid.one_sheet_sampling {K : Type} [LinearOrderedField K] [FloorRing K]
    (M : CMath K) (hpi : 0 < M.M_PI) (A C UMax : K)
    (hU : 0 < UMax) (s t : Nat) (hs : 0 < s) (ht : 0 < t) (fuel : Nat)
    (hfu : 2 * s + 1 ≤ fuel) (hfv : 2 * t + 1 ≤ fuel) :
    ∃ calls, CHyperboloid.UpdateEntity M fuel A C UMax (s : K) (t : K) 0 = some calls ∧
      vertices calls =
        ((List.range (2 * s + 1)).flatMap fun k =>
          (List.range (2 * t + 1)).map fun m =>
            (CHyperboloid.vName k m "",
              CHyperboloid.onePoint M A C
                (-1 * (UMax + UMax / (s : K) / 5) + (k : K) * (UMax / (s : K)))
                ((m : K) * (M.M_PI / (t : K))))) := by
  obtain ⟨calls, hrun, hv⟩ :=
    CHyperboloid.vertices_of_build M hpi A C UMax 0 hU.le hs ht fuel hfu hfv
  refine ⟨calls, hrun, ?_⟩
  rw [hv, CHyperboloid.validSheet_zero, if_neg (by decide), CHyperboloid.vertices_grid,
    CHyperboloid.ringCount_pos hU]

/-- C9, the code at `A = 1, C = 1, UMax = 1, UIncrement = 4, VIncrement = 4,
Sheet = 0` in exact real arithmetic: the build returns 81 vertices; the first
one (ring 0) has `z = -21/20`, not `-C * UMax = -1`, and the last one
(ring 8) has `z = 19/20`, not `C * UMax = 1`. -/
theorem CHyperboloid.one_sheet_rings_offset :
    ∃ calls, CHyperboloid.UpdateEntity
        ⟨Real.pi, Real.cos, Real.sin, Real.sinh, Real.cosh, Real.sqrt⟩ 9 1 1 1 4 4 0 =
        some calls ∧
      (vertices calls).length = 81 ∧
      ((vertices calls).map fun p => (p.1, p.2.z)).head? = some ("v_0_0", -21 / 20) ∧
      ((vertices calls).map fun p => (p.1, p.2.z)).getLast? = some ("v_8_8", 19 / 20) := by
  obtain ⟨calls, hrun, hv⟩ := CHyperboloid.one_sheet_sampling
    (⟨Real.pi, Real.cos, Real.sin, Real.sinh, Real.cosh, Real.sqrt⟩ : CMath ℝ) Real.pi_pos 1 1 1
    (by norm_num) 4 4 (by norm_num) (by norm_num) 9 (by norm_num) (by norm_num)
  simp only [Nat.cast_ofNat] at hrun hv
  refine ⟨calls, hrun, ?_, ?_, ?_⟩
  · rw [hv, length_grid]
    simp
  · rw [hv, List.map_flatMap]
    simp only [List.map_map]
    rw [head?_grid]
    simp only [Function.comp, CHyperboloid.onePoint, Option.some.injEq, Prod.mk.injEq]
    exact ⟨by decide, by norm_num⟩
  · rw [hv, List.map_flatMap]
    simp only [List.map_map]
    rw [getLast?_grid]
    simp only [Function.comp, CHyperboloid.onePoint, Option.some.injEq, Prod.mk.injEq]
    exact ⟨by decide, by norm_num⟩

theorem CHyperboloid.paraboloid_sampling_witness :
    ∃ calls, CHyperboloid.UpdateEntity ratMath 9 1 1 1 ((4 : Nat) : ℚ) ((4 : Nat) : ℚ) 1 =
      some calls ∧ (vertices calls).length = 5 * 9 := by
  obtain ⟨calls, hrun, hv, -, -⟩ := CHyperboloid.paraboloid_sampling ratMath ratMath_pi_pos
    1 1 1 (by norm_num) 4 4 (by norm_num) (by norm_num) 9 (by norm_num) (by norm_num)
  refine ⟨calls, hrun, ?_⟩
  rw [hv, length_grid]
  simp

theorem CHyperboloid.vertex_on_quadric_witness :
    ∃ (calls : List (SinkCall ℝ)) (pos : Vector3 ℝ),
      CHyperboloid.UpdateEntity ⟨Real.pi, Real.cos, Real.sin, Real.sinh, Real.cosh, Real.sqrt⟩
        9 1 1 1 ((4 : Nat) : ℝ) ((4 : Nat) : ℝ) 2 = some calls ∧
      (CHyperboloid.vName 0 0 "_pos", pos) ∈ vertices calls ∧
      pos.x ^ 2 / (1 : ℝ) ^ 2 + pos.y ^ 2 / (1 : ℝ) ^ 2 - pos.z ^ 2 / (1 : ℝ) ^ 2 = -1 := by
  obtain ⟨calls, hrun, hv⟩ := CHyperboloid.vertices_of_build
    (⟨Real.pi, Real.cos, Real.sin, Real.sinh, Real.cosh, Real.sqrt⟩ : CMath ℝ)
    Real.pi_pos 1 1 1 2 (by norm_num) (by norm_num : 0 < 4) (by norm_num : 0 < 4) 9
    (by norm_num) (by norm_num)
  rw [CHyperboloid.validSheet_two, if_pos (by decide), if_pos rfl,
    CHyperboloid.ringCount_pos (by norm_num : (0 : ℝ) < 1)] at hv
  have hmem : (CHyperboloid.vName 0 0 "_pos",
      CHyperboloid.posPoint ⟨Real.pi, Real.cos, Real.sin, Real.sinh, Real.cosh, Real.sqrt⟩
        1 1 (((0 : Nat) : ℝ) * (1 / ((4 : Nat) : ℝ)))
        (((0 : Nat) : ℝ) * (Real.pi / ((4 : Nat) : ℝ)))) ∈ vertices calls := by
    rw [hv]
    refine List.mem_append_left _ ?_
    rw [CHyperboloid.vertices_grid, List.mem_flatMap]
    exact ⟨0, List.mem_range.2 (by norm_num),
      List.mem_map.2 ⟨0, List.mem_range.2 (by norm_num), rfl⟩⟩
  exact ⟨calls, _, hrun, hmem,
    ((CHyperboloid.vertex_on_quadric 1 1 one_ne_zero one_ne_zero).2 9 1 _ _ 2 calls hrun _ _
      hmem).2 (Or.inr rfl)⟩

theorem CHyperboloid.two_sheet_reflection_witness :
    ∃ (calls : List (SinkCall ℝ)) (P N : List (String × Vector3 ℝ)),
      CHyperboloid.UpdateEntity ⟨Real.pi, Real.cos, Real.sin, Real.sinh, Real.cosh, Real.sqrt⟩
        9 1 1 1 ((4 : Nat) : ℝ) ((4 : Nat) : ℝ) 2 = some calls ∧
      vertices calls = P ++ N ∧
      (∀ p ∈ P, ∃ k m, p.1 = CHyperboloid.vName k m "_pos") ∧
      (∀ q ∈ N, ∃ k m, q.1 = CHyperboloid.vName k m "_neg") ∧
      P.length = N.length ∧
      ∀ p ∈ P, ∃ q ∈ N, q.2.x = -p.2.x ∧ q.2.y = -p.2.y ∧ q.2.z = -p.2.z :=
  CHyperboloid.two_sheet_reflection 1 1 1 (by norm_num) 4 4 (by norm_num) (by norm_num) 9
    (by norm_num) (by norm_num)

end Scenarios

/-! ## Sphere: the open strip (`CrossDegrees < 360`) -/

section SphereOpen

variable {K : Type} [LinearOrderedField K] [FloorRing K]

theorem filter_range_lt (N k : Nat) :
    (List.range N).filter (fun j => decide (j < k)) = List.range (min N k) := by
  induction N with
  | zero => simp
  | succ N ih =>
    rw [List.range_succ, List.filter_append, ih]
    by_cases h : N < k
    · have e1 : min N k = N := by omega
      have e2 : min (N + 1) k = N + 1 := by omega
      rw [e1, e2, List.range_succ]
      simp [h]
    · have e1 : min N k = k := by omega
      have e2 : min (N + 1) k = k := by omega
      rw [e1, e2]
      simp [h]

theorem length_filter_grid {α β γ : Type} (rows : List β) (cols : List γ) (f : β → γ → α)
    (p : α → Bool) (q : γ → Bool) (hpq : ∀ i j, p (f i j) = q j) :
    ((rows.flatMap fun i => cols.map (f i)).filter p).length =
      rows.length * (cols.filter q).length := by
  induction rows with
  | nil => simp
  | cons a t ih =>
    rw [List.flatMap_cons, List.filter_append, List.length_append, ih, List.filter_map,
      List.length_map, List.length_cons, Nat.succ_mul, Nat.add_comm]
    congr 2
    apply List.filter_congr
    intro j _
    exact hpq a j

theorem CSphere.length_upperFace (guard : Bool) (i j : Nat) :
    (CSphere.upperFace guard i j).length = if guard then 4 else 2 := by
  cases guard <;> rfl

/-- The faces of a build of the open strip, for whole-number `Segments = n`
and `Density = d` and `0 < CrossDegrees = phi < 360`: one face per band `i < d`
and per `j < maxPoints` (the float), with the two guarded names present when
`j + 1 < maxPoints`. -/
theorem CSphere.faces_open (M : CMath K) (n d : Nat) (Radius Degrees phi : K)
    (h360 : phi < 360) :
    faces (CSphere.UpdateEntity M (n : K) Radius (d : K) Degrees phi) =
      (List.range d).flatMap fun i =>
        (List.range ⌈phi / 360 * (n : K)⌉₊).map fun j =>
          (CSphere.fName i j,
            CSphere.upperFace (decide (((j : K) + 1) < phi / 360 * (n : K))) i j) := by
  rw [CSphere.faces_UpdateEntity, if_neg (not_lt.2 h360.le), castInt_natCast, castInt_natCast]
  simp only [if_neg (ne_of_lt h360), floatBoundRange, Int.cast_natCast, Int.toNat_ofNat,
    Int.ceil_toNat]

/-- Number of four-vertex faces of the open strip: `⌈maxPoints⌉ - 1` per band,
`maxPoints` being the float `(phi / 360) * n`. -/
theorem CSphere.open_quads (M : CMath K) (n d : Nat) (Radius Degrees phi : K)
    (h360 : phi < 360) :
    (fourVertexFaces (CSphere.UpdateEntity M (n : K) Radius (d : K) Degrees phi)).length =
      d * (⌈phi / 360 * (n : K)⌉₊ - 1) := by
  unfold fourVertexFaces
  rw [CSphere.faces_open M n d Radius Degrees phi h360,
    length_filter_grid (List.range d) (List.range ⌈phi / 360 * (n : K)⌉₊) _ _
      (fun j => decide (j < ⌈phi / 360 * (n : K)⌉₊ - 1))]
  · rw [filter_range_lt, List.length_range, List.length_range]
    congr 1
    omega
  · intro i j
    simp only [CSphere.length_upperFace]
    have hiff : ((j : K) + 1 < phi / 360 * (n : K)) ↔ j < ⌈phi / 360 * (n : K)⌉₊ - 1 := by
      have h1 : ((j : K) + 1 < phi / 360 * (n : K)) ↔ j + 1 < ⌈phi / 360 * (n : K)⌉₊ := by
        rw [Nat.lt_ceil]
        push_cast
        rfl
      rw [h1]
      omega
    by_cases hj : (j : K) + 1 < phi / 360 * (n : K)
    · simp [hj, hiff.1 hj]
    · have hj2 : ¬ j < ⌈phi / 360 * (n : K)⌉₊ - 1 := fun h => hj (hiff.2 h)
      simp [hj, hj2]

end SphereOpen

section SphereOpenClaims

variable {K : Type} [LinearOrderedField K] [FloorRing K]

/-- C11, the code at `Segments = 6, Radius = 2, Density = 4, Degrees = 360,
CrossDegrees = 180` (so `maxPoints = 3`) in exact real arithmetic: the build
adds 12 faces, three per band, of which only 8 list four vertex names; the
face `f1_0_2`, for which `j + 1 < maxPoints` fails, is added all the same and
lists the two names `v0_2`, `v1_2`. -/
theorem CSphere.open_strip_two_vertex_face :
    (faces (CSphere.UpdateEntity
        ⟨Real.pi, Real.cos, Real.sin, Real.sinh, Real.cosh, Real.sqrt⟩ 6 2 4 360 180)).length =
        12 ∧
      (fourVertexFaces (CSphere.UpdateEntity
        ⟨Real.pi, Real.cos, Real.sin, Real.sinh, Real.cosh, Real.sqrt⟩ 6 2 4 360 180)).length =
        8 ∧
      ("f1_0_2", ["v0_2", "v1_2"]) ∈ faces (CSphere.UpdateEntity
        ⟨Real.pi, Real.cos, Real.sin, Real.sinh, Real.cosh, Real.sqrt⟩ 6 2 4 360 180) := by
  have e : ⌈(180 : ℝ) / 360 * ((6 : Nat) : ℝ)⌉₊ = 3 := by
    rw [show (180 : ℝ) / 360 * ((6 : Nat) : ℝ) = ((3 : Nat) : ℝ) by norm_num, Nat.ceil_natCast]
  have hf := CSphere.faces_open
    (⟨Real.pi, Real.cos, Real.sin, Real.sinh, Real.cosh, Real.sqrt⟩ : CMath ℝ) 6 4 2 360 180
    (by norm_num)
  have hq := CSphere.open_quads
    (⟨Real.pi, Real.cos, Real.sin, Real.sinh, Real.cosh, Real.sqrt⟩ : CMath ℝ) 6 4 2 360 180
    (by norm_num)
  rw [e] at hf hq
  simp only [Nat.cast_ofNat] at hf hq
  refine ⟨?_, ?_, ?_⟩
  · rw [hf, length_grid]
    simp
  · rw [hq]
  · rw [hf, List.mem_flatMap]
    refine ⟨0, List.mem_range.2 (by norm_num), List.mem_map.2 ⟨2, List.mem_range.2 (by norm_num), ?_⟩⟩
    have hg : decide ((((2 : Nat) : ℝ) + 1) < 180 / 360 * 6) = false := by
      rw [decide_eq_false_iff_not]
      norm_num
    rw [hg]
    decide

/-- Sphere open strip width in exact arithmetic: for whole-number
`Segments = n` and `Density = d` and `CrossDegrees = phi < 360`, the number of
four-vertex faces is `d * (⌈(phi / 360) * n⌉ - 1)`: it is `d * (m - 1)` when
`(phi / 360) * n` is a whole number `m` (then `m = maxPoints`), and
`d * ⌊(phi / 360) * n⌋ = d * maxPoints` when it is not. -/
theorem CSphere.open_quads_exact (M : CMath K) (n d : Nat) (Radius Degrees phi : K)
    (h360 : phi < 360) :
    (fourVertexFaces (CSphere.UpdateEntity M (n : K) Radius (d : K) Degrees phi)).length =
        d * (⌈phi / 360 * (n : K)⌉₊ - 1) ∧
      (∀ m : Nat, phi / 360 * (n : K) = (m : K) →
        (fourVertexFaces (CSphere.UpdateEntity M (n : K) Radius (d : K) Degrees phi)).length =
          d * (m - 1)) ∧
      ((∀ m : Nat, phi / 360 * (n : K) ≠ (m : K)) →
        (fourVertexFaces (CSphere.UpdateEntity M (n : K) Radius (d : K) Degrees phi)).length =
          d * ⌊phi / 360 * (n : K)⌋₊) := by
  have hq := CSphere.open_quads M n d Radius Degrees phi h360
  refine ⟨hq, ?_, ?_⟩
  · intro m hm
    rw [hq, hm, Nat.ceil_natCast]
  · intro hne
    rw [hq]
    congr 1
    rcases le_or_lt (phi / 360 * (n : K)) 0 with hx | hx
    · rw [Nat.ceil_eq_zero.2 hx, Nat.floor_of_nonpos hx]
    · have hfl : (⌊phi / 360 * (n : K)⌋₊ : K) < phi / 360 * (n : K) :=
        lt_of_le_of_ne (Nat.floor_le hx.le) (fun h => hne _ h.symm)
      have hc : ⌈phi / 360 * (n : K)⌉₊ = ⌊phi / 360 * (n : K)⌋₊ + 1 := by
        rw [Nat.ceil_eq_iff (Nat.succ_ne_zero _)]
        refine ⟨by simpa using hfl, ?_⟩
        push_cast
        exact (Nat.lt_floor_add_one _).le
      rw [hc]
      omega

end SphereOpenClaims

/-! ## Sphere: the seam of the closed case -/

section SphereSeam

variable {K : Type} [LinearOrderedField K] [FloorRing K]

theorem CSphere.vertices_UpdateEntity (M : CMath K)
    (Segments Radius Density Degrees CrossDegrees : K) :
    vertices (CSphere.UpdateEntity M Segments Radius Density Degrees CrossDegrees) =
      (List.range (castInt Density + 1).toNat).flatMap fun i =>
        (List.range (CSphere.ringSize (castInt Segments)
          (castInt ((if CrossDegrees > 360 then 360 else CrossDegrees) / 360 *
            (castInt Segments : K))))).map fun j =>
          (CSphere.vName i j,
            CSphere.circlePoint M (castInt Segments) Radius
              (((i : K) / (castInt Density : K) *
                ((if Degrees > 360 then 360 else Degrees) / 360) * M.M_PI) - M.M_PI / 2) j) := by
  unfold CSphere.UpdateEntity
  simp only []
  rw [vertices_append, CSphere.vertices_addVertices, CSphere.sphere_vertices_addFaces,
    List.append_nil]

/-- The closed case for whole-number `Segments = n`, `Density = d`: the
vertices are `d + 1` rings of `n + 1` columns, the faces `d` bands of `n`
quads `upperFace` with both guarded names present. -/
theorem CSphere.closed_build (M : CMath K) (n d : Nat) (Radius Degrees : K) :
    vertices (CSphere.UpdateEntity M (n : K) Radius (d : K) Degrees 360) =
        ((List.range (d + 1)).flatMap fun i =>
          (List.range (n + 1)).map fun j =>
            (CSphere.vName i j,
              CSphere.circlePoint M (n : Int) Radius
                (((i : K) / ((d : Int) : K) *
                  ((if Degrees > 360 then 360 else Degrees) / 360) * M.M_PI) - M.M_PI / 2) j)) ∧
      faces (CSphere.UpdateEntity M (n : K) Radius (d : K) Degrees 360) =
        ((List.range d).flatMap fun i =>
          (List.range n).map fun j => (CSphere.fName i j, CSphere.upperFace true i j)) := by
  have h360 : ¬ ((360 : K) > 360) := lt_irrefl _
  have hmp : (360 : K) / 360 * (((n : Int) : K)) = (n : K) := by
    rw [div_self (by norm_num : (360 : K) ≠ 0), one_mul, Int.cast_natCast]
  constructor
  · rw [CSphere.vertices_UpdateEntity, if_neg h360, castInt_natCast, castInt_natCast, hmp,
      castInt_natCast]
    have hr : CSphere.ringSize (n : Int) (n : Int) = n + 1 := by
      unfold CSphere.ringSize
      omega
    have hd : ((d : Int) + 1).toNat = d + 1 := by omega
    rw [hr, hd]
  · rw [CSphere.faces_UpdateEntity, if_neg h360, castInt_natCast, castInt_natCast, hmp]
    have hfr : floatBoundRange (n : K) = List.range n := by
      simp [floatBoundRange]
    rw [hfr, Int.toNat_ofNat]
    apply List.flatMap_congr
    intro i _
    apply List.map_congr_left
    intro j hj
    rw [List.mem_range] at hj
    have hg : (j : K) + 1 < (n : K) + 1 := by
      have : (j : K) < (n : K) := by exact_mod_cast hj
      linarith
    rw [if_pos rfl, decide_eq_true hg]

end SphereSeam

section SphereSeamClaims

/-- Sphere seam in exact real arithmetic: for `CrossDegrees = 360`,
whole-number `Segments = n ≥ 1` and `Density = d`, and every ring `i ≤ d`, the
vertices `v<i>_0` and `v<i>_<n>` are both added, under two distinct names, at
one and the same position (`theta = 0` and `theta = 2π`); and the last quad
of band `i < d`, `f1_<i>_<n-1>`, lists `v<i>_<n>`, `v<i>_<n-1>`,
`v<i+1>_<n-1>`, `v<i+1>_<n>`. -/
theorem CSphere.seam_exact (n d : Nat) (hn : 1 ≤ n) (Radius Degrees : ℝ)
    (i : Nat) (hi : i ≤ d) :
    ∃ p : Vector3 ℝ,
      (CSphere.vName i 0, p) ∈ vertices (CSphere.UpdateEntity
        ⟨Real.pi, Real.cos, Real.sin, Real.sinh, Real.cosh, Real.sqrt⟩
        (n : ℝ) Radius (d : ℝ) Degrees 360) ∧
      (CSphere.vName i n, p) ∈ vertices (CSphere.UpdateEntity
        ⟨Real.pi, Real.cos, Real.sin, Real.sinh, Real.cosh, Real.sqrt⟩
        (n : ℝ) Radius (d : ℝ) Degrees 360) ∧
      CSphere.vName i 0 ≠ CSphere.vName i n ∧
      (i < d →
        (CSphere.fName i (n - 1),
          [CSphere.vName i n, CSphere.vName i (n - 1), CSphere.vName (i + 1) (n - 1),
            CSphere.vName (i + 1) n]) ∈ faces (CSphere.UpdateEntity
              ⟨Real.pi, Real.cos, Real.sin, Real.sinh, Real.cosh, Real.sqrt⟩
              (n : ℝ) Radius (d : ℝ) Degrees 360)) := by
  obtain ⟨hv, hf⟩ := CSphere.closed_build
    (⟨Real.pi, Real.cos, Real.sin, Real.sinh, Real.cosh, Real.sqrt⟩ : CMath ℝ) n d Radius Degrees
  have hn0 : (n : ℝ) ≠ 0 := by exact_mod_cast (by omega : n ≠ 0)
  have hsame : ∀ z : ℝ,
      CSphere.circlePoint ⟨Real.pi, Real.cos, Real.sin, Real.sinh, Real.cosh, Real.sqrt⟩
        (n : Int) Radius z n =
      CSphere.circlePoint ⟨Real.pi, Real.cos, Real.sin, Real.sinh, Real.cosh, Real.sqrt⟩
        (n : Int) Radius z 0 := by
    intro z
    simp only [CSphere.circlePoint, Int.cast_natCast, div_self hn0, one_mul, Nat.cast_zero,
      zero_div, zero_mul, Real.cos_two_pi, Real.sin_two_pi, Real.cos_zero, Real.sin_zero]
  refine ⟨CSphere.circlePoint ⟨Real.pi, Real.cos, Real.sin, Real.sinh, Real.cosh, Real.sqrt⟩
    (n : Int) Radius
    (((i : ℝ) / ((d : Int) : ℝ) * ((if Degrees > 360 then 360 else Degrees) / 360) * Real.pi) -
      Real.pi / 2) 0, ?_, ?_, ?_, ?_⟩
  · rw [hv, List.mem_flatMap]
    exact ⟨i, List.mem_range.2 (by omega),
      List.mem_map.2 ⟨0, List.mem_range.2 (by omega), rfl⟩⟩
  · rw [hv, List.mem_flatMap]
    refine ⟨i, List.mem_range.2 (by omega),
      List.mem_map.2 ⟨n, List.mem_range.2 (by omega), ?_⟩⟩
    rw [hsame]
  · intro h
    have := (CSphere.sphere_vName_inj h).2
    omega
  · intro hid
    rw [hf, List.mem_flatMap]
    refine ⟨i, List.mem_range.2 hid,
      List.mem_map.2 ⟨n - 1, List.mem_range.2 (by omega), ?_⟩⟩
    have e : n - 1 + 1 = n := by omega
    simp only [CSphere.upperFace, if_true, e, List.singleton_append, List.cons_append,
      List.nil_append]

end SphereSeamClaims

section SphereScenarios

end SphereScenarios

/-! ## Hyperboloid: termination for every positive step count -/

section HyperboloidTermination

variable {K : Type} [LinearOrderedField K] [FloorRing K]

/-- The guard of the `v` loop at `v = m * vIncrement`, `vIncrement = M_PI / y`
with any `y > 0`, admits exactly the indices below `⌈2 * y + 1/5⌉`. -/
theorem CHyperboloid.vGuard_real {pi y : K} (hpi : 0 < pi) (hy : 0 < y) (m : Nat) :
    0 + (m : K) * (pi / y) < 2 * pi + pi / y / 5 ↔ m < ⌈2 * y + 1 / 5⌉₊ := by
  have hw : 0 < pi / y := div_pos hpi hy
  have e : 2 * pi + pi / y / 5 = (2 * y + 1 / 5) * (pi / y) := by
    field_simp
    ring
  rw [Nat.lt_ceil, zero_add, e, mul_lt_mul_right hw]

/-- The guard of the positive `u` loop at `u = m * uIncrement`,
`uIncrement = uMax / x` with any `x > 0`, admits exactly the indices below
`⌈x + 1/5⌉`. -/
theorem CHyperboloid.uGuard_real {uMax x : K} (hU : 0 < uMax) (hx : 0 < x) (m : Nat) :
    (m : K) * (uMax / x) < uMax + uMax / x / 5 ↔ m < ⌈x + 1 / 5⌉₊ := by
  have hw : 0 < uMax / x := div_pos hU hx
  have e : uMax + uMax / x / 5 = (x + 1 / 5) * (uMax / x) := by
    field_simp
    ring
  rw [Nat.lt_ceil, e, mul_lt_mul_right hw]

/-- The guard of the one-sheet `u` loop at its `m`-th sample admits exactly the
indices below `⌈2 * x + 2/5⌉`. -/
theorem CHyperboloid.oneGuard_real {uMax x : K} (hU : 0 < uMax) (hx : 0 < x) (m : Nat) :
    -1 * (uMax + uMax / x / 5) + (m : K) * (uMax / x) < uMax + uMax / x / 5 ↔
      m < ⌈2 * x + 2 / 5⌉₊ := by
  have hw : 0 < uMax / x := div_pos hU hx
  have e : uMax + uMax / x / 5 = (x + 1 / 5) * (uMax / x) := by
    field_simp
    ring
  have h1 : (-1 * (uMax + uMax / x / 5) + (m : K) * (uMax / x) < uMax + uMax / x / 5) ↔
      (m : K) * (uMax / x) < (2 * x + 2 / 5) * (uMax / x) := by
    rw [e]
    constructor
    · intro h
      linarith
    · intro h
      linarith
  rw [h1, Nat.lt_ceil, mul_lt_mul_right hw]

/-- A loop guard that fails at once when `uMax = 0` and otherwise admits exactly
the indices below `bound` admits exactly the indices below some `rings ≤ bound`. -/
theorem CHyperboloid.rings_exist {uMax : K} (hU : 0 ≤ uMax) (g : Nat → Prop) (bound : Nat)
    (hzero : uMax = 0 → ¬ g 0) (hpos : 0 < uMax → ∀ m, g m ↔ m < bound) :
    ∃ rings, rings ≤ bound ∧ (∀ m, m < rings → g m) ∧ ¬ g rings := by
  rcases eq_or_lt_of_le hU with h0 | h0
  · exact ⟨0, Nat.zero_le _, fun m hm => absurd hm (Nat.not_lt_zero m), hzero h0.symm⟩
  · exact ⟨bound, le_refl _, fun m hm => (hpos h0 m).2 hm,
      fun h => Nat.lt_irrefl _ ((hpos h0 bound).1 h)⟩

/-- The `v` loop started at `v = 0`, `vCounter = 0` with `vIncrement = M_PI / y`,
`y > 0`, returns after `⌈2 * y + 1/5⌉` iterations. -/
theorem CHyperboloid.vLoop_returns (M : CMath K) (hpi : 0 < M.M_PI) {y : K} (hy : 0 < y)
    (uCounter : Nat) (suffix : String) (point : K → Vector3 K) (fuel : Nat)
    (hfuel : ⌈2 * y + 1 / 5⌉₊ ≤ fuel) :
    CHyperboloid.vLoop M (M.M_PI / y) uCounter suffix point fuel 0 0 =
      some ((List.range ⌈2 * y + 1 / 5⌉₊).map (fun m =>
          SinkCall.AddVertex (CHyperboloid.vName uCounter (0 + m) suffix)
            (point (0 + (m : K) * (M.M_PI / y)))), 0 + ⌈2 * y + 1 / 5⌉₊) :=
  CHyperboloid.vLoop_eq M (M.M_PI / y) uCounter suffix point ⌈2 * y + 1 / 5⌉₊ fuel 0 0 hfuel
    (fun m hm => (CHyperboloid.vGuard_real hpi hy m).2 hm)
    (fun hlt => Nat.lt_irrefl _ ((CHyperboloid.vGuard_real hpi hy _).1 hlt))

/-- A `u` loop whose guard admits exactly the first `rings` iterates returns,
when the fuel covers `rings` and the `v` loops. -/
theorem CHyperboloid.uLoop_returns (M : CMath K) (hpi : 0 < M.M_PI) {y : K} (hy : 0 < y)
    (suffix : String) (guard : K → Bool) (next : K → K) (point : K → K → Vector3 K)
    (u0 : K) (rings fuel vCounter : Nat)
    (hin : ∀ m : Nat, m < rings → guard (next^[m] u0) = true)
    (hout : guard (next^[rings] u0) = false)
    (hfu : rings ≤ fuel) (hfv : ⌈2 * y + 1 / 5⌉₊ ≤ fuel) :
    ∃ r, CHyperboloid.uLoop M (M.M_PI / y) suffix guard next point fuel fuel u0 0 vCounter =
      some r :=
  ⟨_, CHyperboloid.uLoop_eq M (M.M_PI / y) suffix guard next point fuel
    (0 + ⌈2 * y + 1 / 5⌉₊)
    (fun uc u => (List.range ⌈2 * y + 1 / 5⌉₊).map (fun m =>
          SinkCall.AddVertex (CHyperboloid.vName uc (0 + m) suffix)
            (point u (0 + (m : K) * (M.M_PI / y)))))
    (fun uc u => CHyperboloid.vLoop_returns M hpi hy uc suffix (point u) fuel hfv)
    rings fuel u0 0 vCounter hfu hin hout⟩

/-- The vertex part returns for `uMax ≥ 0` and positive step counts `x`, `y`,
whole or not, when the fuel covers `⌈2 * x + 2/5⌉` and `⌈2 * y + 1/5⌉`. -/
theorem CHyperboloid.addVertices_returns (M : CMath K) (hpi : 0 < M.M_PI) (a c uMax x y : K)
    (hU : 0 ≤ uMax) (hx : 0 < x) (hy : 0 < y) (sheet : Int) (fuel : Nat)
    (hfu : ⌈2 * x + 2 / 5⌉₊ ≤ fuel) (hfv : ⌈2 * y + 1 / 5⌉₊ ≤ fuel) :
    ∃ r, CHyperboloid.addVertices M fuel a c uMax (uMax / x) (M.M_PI / y) sheet = some r := by
  have hmono : ⌈x + 1 / 5⌉₊ ≤ ⌈2 * x + 2 / 5⌉₊ := Nat.ceil_mono (by linarith)
  obtain ⟨R, hR, hin, hout⟩ := CHyperboloid.rings_exist hU
    (fun m : Nat => (m : K) * (uMax / x) < uMax + uMax / x / 5) ⌈x + 1 / 5⌉₊
    (fun h0 => by rw [h0]; simp) (fun h0 m => CHyperboloid.uGuard_real h0 hx m)
  obtain ⟨R1, hR1, hin1, hout1⟩ := CHyperboloid.rings_exist hU
    (fun m : Nat => -1 * (uMax + uMax / x / 5) + (m : K) * (uMax / x) < uMax + uMax / x / 5)
    ⌈2 * x + 2 / 5⌉₊
    (fun h0 => by rw [h0]; simp) (fun h0 m => CHyperboloid.oneGuard_real h0 hx m)
  unfold CHyperboloid.addVertices
  by_cases h1 : sheet > 0
  · rw [if_pos h1]
    obtain ⟨⟨pos, uc, vc⟩, hpos⟩ := CHyperboloid.uLoop_returns M hpi hy "_pos"
      (fun u => decide (u < uMax + uMax / x / 5)) (fun u => u + uMax / x)
      (CHyperboloid.posPoint M a c) 0 R fuel 0
      (fun m hm => by
        rw [iterate_add_const, zero_add]
        exact decide_eq_true (hin m hm))
      (by
        rw [iterate_add_const, zero_add]
        exact decide_eq_false hout)
      (by omega) hfv
    rw [hpos]
    simp only []
    by_cases h2 : sheet = 2
    · rw [if_pos h2]
      obtain ⟨⟨neg, uc2, vc2⟩, hneg⟩ := CHyperboloid.uLoop_returns M hpi hy "_neg"
        (fun u => decide (u > -1 * (uMax + uMax / x / 5))) (fun u => u - uMax / x)
        (CHyperboloid.negPoint M a c) 0 R fuel vc
        (fun m hm => by
          rw [iterate_sub_const, zero_sub]
          have := hin m hm
          exact decide_eq_true (by show _ > _; linarith))
        (by
          rw [iterate_sub_const, zero_sub]
          exact decide_eq_false (fun h => hout (by have h' : _ > _ := h; linarith)))
        (by omega) hfv
      rw [hneg]
      exact ⟨_, rfl⟩
    · rw [if_neg h2]
      exact ⟨_, rfl⟩
  · rw [if_neg h1]
    exact CHyperboloid.uLoop_returns M hpi hy ""
      (fun u => decide (u < uMax + uMax / x / 5)) (fun u => u + uMax / x)
      (CHyperboloid.onePoint M a c) _ R1 fuel 0
      (fun m hm => by
        rw [iterate_add_const]
        exact decide_eq_true (hin1 m hm))
      (by
        rw [iterate_add_const]
        exact decide_eq_false hout1)
      (by omega) hfv

end HyperboloidTermination

/-! ## Hyperboloid: the face set, the sheet input, termination -/

section HyperboloidFaceSet

variable {K : Type} [LinearOrderedField K] [FloorRing K]

theorem CHyperboloid.faces_faceLoop_quads (suffix : String)
    (uCounter vCounter faceCounter : Nat) :
    faces (CHyperboloid.faceLoop K suffix uCounter vCounter faceCounter).1 =
      CHyperboloid.quads suffix uCounter vCounter faceCounter := by
  rw [CHyperboloid.faces_faceLoop]
  rfl

theorem CHyperboloid.faces_addFaces_eq (sheet : Int) (uCounter vCounter : Nat) :
    faces (CHyperboloid.addFaces K sheet uCounter vCounter) =
      if sheet > 0 then
        CHyperboloid.quads "_pos" uCounter vCounter 0 ++
          (if sheet = 2 then
            CHyperboloid.quads "_neg" uCounter vCounter ((uCounter - 1) * (vCounter - 1))
          else [])
      else CHyperboloid.quads "" uCounter vCounter 0 := by
  unfold CHyperboloid.addFaces
  by_cases h1 : sheet > 0
  · rw [if_pos h1, if_pos h1]
    simp only []
    by_cases h2 : sheet = 2
    · rw [if_pos h2, if_pos h2, faces_append, CHyperboloid.faces_faceLoop_quads,
        CHyperboloid.faces_faceLoop_quads, CHyperboloid.faceLoop_snd, Nat.zero_add]
    · rw [if_neg h2, if_neg h2, List.append_nil, CHyperboloid.faces_faceLoop_quads]
  · rw [if_neg h1, if_neg h1, CHyperboloid.faces_faceLoop_quads]

theorem CHyperboloid.length_quads (suffix : String) (U V faceCounter : Nat) :
    (CHyperboloid.quads suffix U V faceCounter).length = (U - 1) * (V - 1) := by
  unfold CHyperboloid.quads
  rw [length_grid, List.length_range, List.length_range]

theorem CHyperboloid.vertexNames_grid_ringCount (vIncrement uMax : K) (suffix : String)
    (point : K → K → Vector3 K) (uOf : Nat → K) (a b : Nat) :
    vertexNames (CHyperboloid.grid vIncrement suffix point uOf
        (CHyperboloid.ringCount uMax a) b) =
      (List.range (CHyperboloid.ringCount uMax a)).flatMap fun u =>
        (List.range (CHyperboloid.ringCount uMax b)).map fun v =>
          CHyperboloid.vName u v suffix := by
  rw [CHyperboloid.vertexNames_grid]
  unfold CHyperboloid.ringCount
  by_cases h : uMax = 0
  · simp [h]
  · simp [h]

/-- The sheet input acts on a build only through the validated `sheet`. -/
theorem CHyperboloid.UpdateEntity_congr_sheet (M : CMath K) (fuel : Nat)
    (A C UMax UIncrement VIncrement Sheet Sheet2 : K)
    (h : CHyperboloid.validSheet Sheet = CHyperboloid.validSheet Sheet2) :
    CHyperboloid.UpdateEntity M fuel A C UMax UIncrement VIncrement Sheet =
      CHyperboloid.UpdateEntity M fuel A C UMax UIncrement VIncrement Sheet2 := by
  unfold CHyperboloid.UpdateEntity
  simp only [h]

theorem CHyperboloid.validSheet_of_lt_one {Sheet : K} (h : Sheet < 1) :
    CHyperboloid.validSheet Sheet = 0 := by
  unfold CHyperboloid.validSheet castInt
  simp only []
  by_cases h0 : 0 ≤ Sheet
  · have hfl : ⌊Sheet⌋ = 0 := by
      rw [Int.floor_eq_iff]
      exact ⟨by simpa using h0, by simpa using h⟩
    rw [if_pos h0, hfl]
    simp
  · have hce : ⌈Sheet⌉ ≤ 0 := by
      rw [Int.ceil_le]
      simpa using (not_le.1 h0).le
    rw [if_neg h0]
    split_ifs with h1
    · rfl
    · omega

theorem CHyperboloid.validSheet_of_three_le {Sheet : K} (h : 3 ≤ Sheet) :
    CHyperboloid.validSheet Sheet = 0 := by
  unfold CHyperboloid.validSheet castInt
  simp only []
  have h0 : 0 ≤ Sheet := le_trans (by norm_num) h
  have hfl : 3 ≤ ⌊Sheet⌋ := by
    rw [Int.le_floor]
    simpa using h
  rw [if_pos h0, if_pos (Or.inr (by omega))]

theorem CHyperboloid.validSheet_of_floor {Sheet : K} (m : Nat) (hm : m ≤ 2)
    (h1 : (m : K) ≤ Sheet) (h2 : Sheet < (m : K) + 1) :
    CHyperboloid.validSheet Sheet = (m : Int) := by
  unfold CHyperboloid.validSheet castInt
  simp only []
  have h0 : 0 ≤ Sheet := le_trans (Nat.cast_nonneg m) h1
  have hfl : ⌊Sheet⌋ = (m : Int) := by
    rw [Int.floor_eq_iff]
    exact ⟨by simpa using h1, by simpa using h2⟩
  rw [if_pos h0, hfl, if_neg (by omega)]

end HyperboloidFaceSet

section HyperboloidLaterClaims

variable {K : Type} [LinearOrderedField K] [FloorRing K]

/-- C14, as the code has it. Sheet remapping: the cast `(int)Sheet` truncates
toward zero before the range check, so for every `Sheet < 1` and every
`Sheet ≥ 3` the build is the build for `Sheet = 0`, while for `1 ≤ Sheet < 2`
it is the build for `Sheet = 1` and for `2 ≤ Sheet < 3` the build for
`Sheet = 2`, the other inputs and the fuel unchanged. -/
theorem CHyperboloid.sheet_remapping (M : CMath K) (fuel : Nat)
    (A C UMax UIncrement VIncrement Sheet : K) :
    (Sheet < 1 ∨ 3 ≤ Sheet →
      CHyperboloid.UpdateEntity M fuel A C UMax UIncrement VIncrement Sheet =
        CHyperboloid.UpdateEntity M fuel A C UMax UIncrement VIncrement 0) ∧
    (1 ≤ Sheet ∧ Sheet < 2 →
      CHyperboloid.UpdateEntity M fuel A C UMax UIncrement VIncrement Sheet =
        CHyperboloid.UpdateEntity M fuel A C UMax UIncrement VIncrement 1) ∧
    (2 ≤ Sheet ∧ Sheet < 3 →
      CHyperboloid.UpdateEntity M fuel A C UMax UIncrement VIncrement Sheet =
        CHyperboloid.UpdateEntity M fuel A C UMax UIncrement VIncrement 2) := by
  refine ⟨fun h => ?_, fun h => ?_, fun h => ?_⟩
  · apply CHyperboloid.UpdateEntity_congr_sheet
    rw [CHyperboloid.validSheet_zero]
    rcases h with h | h
    · exact CHyperboloid.validSheet_of_lt_one h
    · exact CHyperboloid.validSheet_of_three_le h
  · apply CHyperboloid.UpdateEntity_congr_sheet
    rw [CHyperboloid.validSheet_one]
    have := CHyperboloid.validSheet_of_floor 1 (by omega) (by simpa using h.1)
      (by norm_num; linarith [h.2] : Sheet < ((1 : Nat) : K) + 1)
    simpa using this
  · apply CHyperboloid.UpdateEntity_congr_sheet
    rw [CHyperboloid.validSheet_two]
    have := CHyperboloid.validSheet_of_floor 2 (by omega) (by simpa using h.1)
      (by norm_num; linarith [h.2] : Sheet < ((2 : Nat) : K) + 1)
    simpa using this

end HyperboloidLaterClaims

section HyperboloidScenarios

theorem CHyperboloid.sheet_remapping_counterexample :
    (3 / 2 : ℝ) ≠ 0 ∧ (3 / 2 : ℝ) ≠ 1 ∧ (3 / 2 : ℝ) ≠ 2 ∧
      CHyperboloid.UpdateEntity ⟨Real.pi, Real.cos, Real.sin, Real.sinh, Real.cosh, Real.sqrt⟩
          9 1 1 1 4 4 (3 / 2) ≠
        CHyperboloid.UpdateEntity ⟨Real.pi, Real.cos, Real.sin, Real.sinh, Real.cosh, Real.sqrt⟩
          9 1 1 1 4 4 0 := by
  refine ⟨by norm_num, by norm_num, by norm_num, ?_⟩
  have hvs : CHyperboloid.validSheet (3 / 2 : ℝ) = CHyperboloid.validSheet (1 : ℝ) := by
    rw [CHyperboloid.validSheet_one]
    have := @CHyperboloid.validSheet_of_floor ℝ _ _ (3 / 2) 1 (by omega) (by norm_num)
      (by norm_num)
    simpa using this
  rw [CHyperboloid.UpdateEntity_congr_sheet _ _ _ _ _ _ _ _ _ hvs]
  obtain ⟨c1, hrun1, hv1⟩ := CHyperboloid.vertices_of_build
    (⟨Real.pi, Real.cos, Real.sin, Real.sinh, Real.cosh, Real.sqrt⟩ : CMath ℝ)
    Real.pi_pos 1 1 1 1 (by norm_num) (by norm_num : 0 < 4) (by norm_num : 0 < 4) 9
    (by norm_num) (by norm_num)
  obtain ⟨c0, hrun0, hv0⟩ := CHyperboloid.vertices_of_build
    (⟨Real.pi, Real.cos, Real.sin, Real.sinh, Real.cosh, Real.sqrt⟩ : CMath ℝ)
    Real.pi_pos 1 1 1 0 (by norm_num) (by norm_num : 0 < 4) (by norm_num : 0 < 4) 9
    (by norm_num) (by norm_num)
  simp only [Nat.cast_ofNat] at hrun1 hrun0
  rw [hrun1, hrun0]
  intro h
  have hc : c1 = c0 := Option.some.inj h
  have hl1 : (vertices c1).length = 45 := by
    rw [hv1, CHyperboloid.validSheet_one, if_pos (by decide), if_neg (by decide),
      List.append_nil, CHyperboloid.vertices_grid, length_grid,
      CHyperboloid.ringCount_pos (by norm_num : (0 : ℝ) < 1)]
    simp
  have hl0 : (vertices c0).length = 81 := by
    rw [hv0, CHyperboloid.validSheet_zero, if_neg (by decide), CHyperboloid.vertices_grid,
      length_grid, CHyperboloid.ringCount_pos (by norm_num : (0 : ℝ) < 1)]
    simp
  rw [hc, hl0] at hl1
  exact absurd hl1 (by decide)

theorem CHyperboloid.sheet_remapping_witness :
    ((7 : ℚ) < 1 ∨ (3 : ℚ) ≤ 7) ∧
      CHyperboloid.UpdateEntity ratMath 9 1 1 1 4 4 7 =
        CHyperboloid.UpdateEntity ratMath 9 1 1 1 4 4 0 :=
  ⟨Or.inr (by norm_num),
    (CHyperboloid.sheet_remapping ratMath 9 1 1 1 4 4 7).1 (Or.inr (by norm_num))⟩

end HyperboloidScenarios

/-! ## Implicit surface: a field without sign change -/

section ImplicitSurfaceClaims

variable {K : Type} [LinearOrderedField K] [FloorRing K]

theorem flatMap_const_nil {α β : Type} (l : List α) :
    (l.flatMap fun _ => ([] : List β)) = [] := by
  induction l with
  | nil => rfl
  | cons a t ih => simp

theorem CGenImplicitSurf.caseIndexFrom_outside (val : List K) :
    ∀ b : Nat, (∀ f ∈ val, ¬ f < 0) → CGenImplicitSurf.caseIndexFrom b val = 0 := by
  induction val with
  | nil => intro b _; rfl
  | cons f rest ih =>
    intro b h
    unfold CGenImplicitSurf.caseIndexFrom
    rw [if_neg (h f (by simp)), ih (b + 1) (fun g hg => h g (by simp [hg]))]

/-- The published edge table has the entry `0x0` for the cases `0` (no corner
inside) and `255` (every corner inside), and `0x109`, `0x203`, `0x30a` for
the cases `1`, `2`, `3`. -/
theorem CGenImplicitSurf.EDGE_TABLE_entries :
    CGenImplicitSurf.EDGE_TABLE 0 = 0 ∧ CGenImplicitSurf.EDGE_TABLE 255 = 0 ∧
      CGenImplicitSurf.EDGE_TABLE 1 = 0x109 ∧ CGenImplicitSurf.EDGE_TABLE 2 = 0x203 ∧
      CGenImplicitSurf.EDGE_TABLE 3 = 0x30a := by
  decide

theorem CGenImplicitSurf.polygonise_of_mask_zero (TRI_TABLE : Nat → List Int)
    (cell : Gridcell K)
    (h : CGenImplicitSurf.EDGE_TABLE (CGenImplicitSurf.caseIndex cell.val) = 0) :
    CGenImplicitSurf.polygonise TRI_TABLE cell = [] := by
  unfold CGenImplicitSurf.polygonise
  simp only []
  rw [if_pos h]

/-- Every cell of a field that is `1` everywhere has case index `0`. -/
theorem CGenImplicitSurf.caseIndex_positive (xMin yMin zMin hx hy hz : K) (i j k : Nat) :
    CGenImplicitSurf.caseIndex
      (CGenImplicitSurf.gridcell (fun _ _ _ => (1 : K)) xMin yMin zMin hx hy hz i j k).val =
      0 := by
  unfold CGenImplicitSurf.caseIndex CGenImplicitSurf.gridcell
  apply CGenImplicitSurf.caseIndexFrom_outside
  intro f hf
  simp only [List.map_map, List.mem_map] at hf
  obtain ⟨o, -, rfl⟩ := hf
  simp

/-- Every cell of a field that is `-1` everywhere has case index `255`. -/
theorem CGenImplicitSurf.caseIndex_negative (xMin yMin zMin hx hy hz : K) (i j k : Nat) :
    CGenImplicitSurf.caseIndex
      (CGenImplicitSurf.gridcell (fun _ _ _ => (-1 : K)) xMin yMin zMin hx hy hz i j k).val =
      255 := by
  have hneg : (-1 : K) < 0 := by norm_num
  simp [CGenImplicitSurf.caseIndex, CGenImplicitSurf.gridcell, CGenImplicitSurf.cornerOffsets,
    CGenImplicitSurf.caseIndexFrom, hneg]

/-- A grid none of whose cells yields a triangle makes no call on the sink. -/
theorem CGenImplicitSurf.runMarchingCubes_nil (functionXyz : K → K → K → K)
    (TRI_TABLE : Nat → List Int) (vertexName faceName : Nat → String) (gridSize : Int)
    (xMin yMin zMin xMax yMax zMax : K)
    (h : ∀ (x0 y0 z0 hx hy hz : K) (i j k : Nat), CGenImplicitSurf.polygonise TRI_TABLE
      (CGenImplicitSurf.gridcell functionXyz x0 y0 z0 hx hy hz i j k) = []) :
    CGenImplicitSurf.runMarchingCubes functionXyz TRI_TABLE vertexName faceName gridSize
      xMin yMin zMin xMax yMax zMax = [] := by
  unfold CGenImplicitSurf.runMarchingCubes
  simp only [h, flatMap_const_nil]
  rfl

/-- C16. Marching-cubes empty field, on the polygonizer modelled from the
specification: for every box with `start < end` on each axis and every
resolution `num_segs ≥ 1`, whatever the triangle table and the naming, the
build of the constant field `f = 1` and the build of the constant field
`f = -1` succeed and make no call on the sink: zero vertices and zero faces. -/
theorem CGenImplicitSurf.empty_field (TRI_TABLE : Nat → List Int)
    (vertexName faceName : Nat → String)
    (x_start x_end y_start y_end z_start z_end num_segs : K)
    (hx : x_start < x_end) (hy : y_start < y_end) (hz : z_start < z_end)
    (hN : 1 ≤ num_segs) :
    (∃ calls, CGenImplicitSurf.UpdateEntity (fun _ _ _ => (1 : K)) TRI_TABLE vertexName faceName
        x_start x_end y_start y_end z_start z_end num_segs = Except.ok calls ∧
      (vertices calls).length = 0 ∧ (faces calls).length = 0) ∧
    (∃ calls, CGenImplicitSurf.UpdateEntity (fun _ _ _ => (-1 : K)) TRI_TABLE vertexName
        faceName x_start x_end y_start y_end z_start z_end num_segs = Except.ok calls ∧
      (vertices calls).length = 0 ∧ (faces calls).length = 0) := by
  have hb : ¬ ¬ (x_start < x_end ∧ y_start < y_end ∧ z_start < z_end) :=
    not_not.2 ⟨hx, hy, hz⟩
  have hn : ¬ castInt num_segs < 1 := not_lt.2 (one_le_castInt hN)
  refine ⟨⟨[], ?_, rfl, rfl⟩, ⟨[], ?_, rfl, rfl⟩⟩
  · unfold CGenImplicitSurf.UpdateEntity
    rw [if_neg hb, if_neg hn, CGenImplicitSurf.runMarchingCubes_nil]
    intro x0 y0 z0 h1 h2 h3 i j k
    apply CGenImplicitSurf.polygonise_of_mask_zero
    rw [CGenImplicitSurf.caseIndex_positive]
    exact CGenImplicitSurf.EDGE_TABLE_entries.1
  · unfold CGenImplicitSurf.UpdateEntity
    rw [if_neg hb, if_neg hn, CGenImplicitSurf.runMarchingCubes_nil]
    intro x0 y0 z0 h1 h2 h3 i j k
    apply CGenImplicitSurf.polygonise_of_mask_zero
    rw [CGenImplicitSurf.caseIndex_negative]
    exact CGenImplicitSurf.EDGE_TABLE_entries.2.1

theorem CGenImplicitSurf.empty_field_witness :
    ∃ calls, CGenImplicitSurf.UpdateEntity (fun _ _ _ => (1 : ℚ)) (fun _ => [-1])
        (fun n => "v" ++ toString n) (fun n => "f" ++ toString n) 0 1 0 1 0 1 4 =
        Except.ok calls ∧
      (vertices calls).length = 0 ∧ (faces calls).length = 0 :=
  (CGenImplicitSurf.empty_field (fun _ => [-1]) (fun n => "v" ++ toString n)
    (fun n => "f" ++ toString n) 0 1 0 1 0 1 4 (by norm_num) (by norm_num) (by norm_num)
    (by norm_num)).1

end ImplicitSurfaceClaims

/-! ## Rounding to binary32 -/

section Rounding

variable {K : Type} [LinearOrderedField K] [FloorRing K]

theorem roundHalfEven_of_near (y : K) (m : Int) (h1 : (m : K) - 1 / 2 < y)
    (h2 : y < (m : K) + 1 / 2) : roundHalfEven y = m := by
  unfold roundHalfEven
  by_cases hm : (m : K) ≤ y
  · have hfl : ⌊y⌋ = m := by
      rw [Int.floor_eq_iff]
      exact ⟨hm, by linarith⟩
    rw [hfl, if_pos (by linarith)]
  · have hfl : ⌊y⌋ = m - 1 := by
      rw [Int.floor_eq_iff]
      push_cast
      exact ⟨by linarith, by linarith [not_le.1 hm]⟩
    rw [hfl]
    push_cast
    rw [if_neg (by linarith), if_pos (by linarith)]
    omega

theorem roundHalfEven_intCast (m : Int) : roundHalfEven (m : K) = m :=
  roundHalfEven_of_near (m : K) m (by linarith) (by linarith)

/-- A tie goes to the even neighbour. -/
theorem roundHalfEven_tie (m : Int) :
    roundHalfEven ((m : K) + 1 / 2) = if m % 2 = 0 then m else m + 1 := by
  unfold roundHalfEven
  have hfl : ⌊(m : K) + 1 / 2⌋ = m := by
    rw [Int.floor_eq_iff]
    exact ⟨by linarith, by linarith⟩
  rw [hfl, if_neg (by linarith), if_neg (by linarith)]

theorem intLog_eq {x : K} (e : Int) (h1 : (2 : K) ^ e ≤ x) (h2 : x < (2 : K) ^ (e + 1)) :
    Int.log 2 x = e := by
  have hx : 0 < x := lt_of_lt_of_le (zpow_pos (by norm_num) e) h1
  have a : e ≤ Int.log 2 x := by
    rw [← Int.zpow_le_iff_le_log (by norm_num) hx]
    exact_mod_cast h1
  have b : Int.log 2 x < e + 1 := by
    rw [← Int.lt_zpow_iff_log_lt (by norm_num) hx]
    exact_mod_cast h2
  omega

theorem ulpExponent_of_normal {x : K} (e : Int) (he : -126 ≤ e) (h1 : (2 : K) ^ e ≤ |x|)
    (h2 : |x| < (2 : K) ^ (e + 1)) : ulpExponent x = e - 23 := by
  unfold ulpExponent
  rw [intLog_eq e h1 h2, max_eq_left he]

theorem ulpExponent_zero : ulpExponent (0 : K) = -23 := by
  unfold ulpExponent
  rw [abs_zero, Int.log_zero_right]
  rfl

/-- Rounding a value whose quotient by the unit in the last place is within
`1/2` of the integer `m`. -/
theorem round32_of_near {x : K} (k m : Int) (hk : ulpExponent x = k)
    (h1 : (m : K) - 1 / 2 < x / (2 : K) ^ k) (h2 : x / (2 : K) ^ k < (m : K) + 1 / 2) :
    round32 x = (m : K) * (2 : K) ^ k := by
  unfold round32
  rw [hk, roundHalfEven_of_near _ m h1 h2]

/-- A multiple of its unit in the last place is a binary32 value. -/
theorem round32_of_exact {x : K} (k m : Int) (hk : ulpExponent x = k)
    (hx : x = (m : K) * (2 : K) ^ k) : round32 x = x := by
  have hpos : (0 : K) < (2 : K) ^ k := zpow_pos (by norm_num) k
  have hq : x / (2 : K) ^ k = (m : K) := by
    rw [hx, mul_div_assoc, div_self (ne_of_gt hpos), mul_one]
  rw [round32_of_near k m hk (by rw [hq]; linarith) (by rw [hq]; linarith), ← hx]

theorem round32_zero : round32 (0 : K) = 0 := by
  unfold round32
  rw [zero_div, ← Int.cast_zero, roundHalfEven_intCast, Int.cast_zero, zero_mul]

/-- The conversion `(float)i` is exact for `|i| ≤ 2^24`. -/
theorem round32_intCast (n : Int) (hn : |n| ≤ 2 ^ 24) : round32 (n : K) = (n : K) := by
  by_cases h0 : n = 0
  · rw [h0, Int.cast_zero, round32_zero]
  have habs : |(n : K)| = ((n.natAbs : Nat) : K) := by
    rw [← Int.cast_abs, ← Nat.cast_natAbs]
  have hpos : 0 < n.natAbs := Int.natAbs_pos.2 h0
  have hle : n.natAbs ≤ 2 ^ 24 := by
    have : (n.natAbs : Int) ≤ 2 ^ 24 := by rw [← Int.abs_eq_natAbs]; exact hn
    exact_mod_cast this
  have hlog : Int.log 2 |(n : K)| = (Nat.log 2 n.natAbs : Int) := by
    rw [habs, Int.log_natCast]
  have hL : Nat.log 2 n.natAbs ≤ 24 := by
    have := @Nat.log_mono_right 2 _ _ hle
    rwa [Nat.log_pow (by norm_num)] at this
  have hk : ulpExponent (n : K) = (Nat.log 2 n.natAbs : Int) - 23 := by
    unfold ulpExponent
    rw [hlog, max_eq_left (by omega)]
  by_cases h24 : Nat.log 2 n.natAbs = 24
  · -- then `|n| = 2^24`, a multiple of `2`
    have hge : 2 ^ 24 ≤ n.natAbs := by
      have := Nat.pow_log_le_self 2 (Nat.pos_iff_ne_zero.1 hpos)
      rwa [h24] at this
    have heq : n.natAbs = 2 ^ 24 := le_antisymm hle hge
    have hn2 : n = 2 ^ 24 ∨ n = -(2 ^ 24) := by omega
    rw [h24] at hk
    rcases hn2 with h | h
    · refine round32_of_exact (1 : Int) (2 ^ 23 : Int) (by rw [hk]; rfl) ?_
      rw [h]
      norm_num
    · refine round32_of_exact (1 : Int) (-(2 ^ 23) : Int) (by rw [hk]; rfl) ?_
      rw [h]
      norm_num
  · have hL' : Nat.log 2 n.natAbs ≤ 23 := by omega
    obtain ⟨d, hd⟩ : ∃ d : Nat, (Nat.log 2 n.natAbs : Int) - 23 = -(d : Int) :=
      ⟨23 - Nat.log 2 n.natAbs, by omega⟩
    rw [hd] at hk
    refine round32_of_exact (-(d : Int)) (n * 2 ^ d) hk ?_
    push_cast
    rw [zpow_neg, zpow_natCast, mul_assoc, mul_inv_cancel₀ (by positivity), mul_one]

theorem round32_natCast (n : Nat) (hn : n ≤ 2 ^ 24) : round32 (n : K) = (n : K) := by
  have h := @round32_intCast K _ _ (n : Int) (by rw [abs_of_nonneg (by omega)]; exact_mod_cast hn)
  simpa using h

theorem round32_one : round32 (1 : K) = 1 := by
  simpa using @round32_natCast K _ _ 1 (by norm_num)

theorem roundHalfEven_nonneg {y : K} (hy : 0 ≤ y) : 0 ≤ roundHalfEven y := by
  have hf : 0 ≤ ⌊y⌋ := Int.floor_nonneg.2 hy
  unfold roundHalfEven
  split_ifs <;> omega

theorem round32_nonneg {x : K} (hx : 0 ≤ x) : 0 ≤ round32 x := by
  unfold round32
  have hpos : (0 : K) < (2 : K) ^ ulpExponent x := zpow_pos (by norm_num) _
  have h := roundHalfEven_nonneg (div_nonneg hx hpos.le)
  exact mul_nonneg (by exact_mod_cast h) hpos.le

theorem roundHalfEven_le {y : K} (N : Int) (hy : y ≤ (N : K)) : roundHalfEven y ≤ N := by
  have hf : ⌊y⌋ ≤ N := by
    have := Int.floor_le_floor hy
    rwa [Int.floor_intCast] at this
  by_cases hlt : ⌊y⌋ < N
  · unfold roundHalfEven
    split_ifs <;> omega
  · have heq : ⌊y⌋ = N := by omega
    have hyN : y = (N : K) := le_antisymm hy (by rw [← heq]; exact Int.floor_le y)
    rw [hyN, roundHalfEven_intCast]

/-- Rounding does not cross a whole number up to `2^24`. -/
theorem round32_le_natCast {x : K} (n : Nat) (hn : n ≤ 2 ^ 24) (hx : x ≤ (n : K)) :
    round32 x ≤ (n : K) := by
  by_cases h0 : x ≤ 0
  · have hpos : (0 : K) < (2 : K) ^ ulpExponent x := zpow_pos (by norm_num) _
    have h := roundHalfEven_le (0 : Int) (by
      rw [Int.cast_zero]
      exact div_nonpos_of_nonpos_of_nonneg h0 hpos.le : x / (2 : K) ^ ulpExponent x ≤ ((0 : Int) : K))
    unfold round32
    have h2 : (roundHalfEven (x / (2 : K) ^ ulpExponent x) : K) ≤ 0 := by exact_mod_cast h
    exact le_trans (mul_nonpos_of_nonpos_of_nonneg h2 hpos.le) (Nat.cast_nonneg n)
  · have hxpos : 0 < x := not_le.1 h0
    have hx24 : x ≤ (2 : K) ^ (24 : Int) := by
      have h1 : ((n : Nat) : K) ≤ ((16777216 : Nat) : K) := Nat.cast_le.2 (by omega)
      have h2 : ((16777216 : Nat) : K) = (2 : K) ^ (24 : Int) := by norm_num
      rw [← h2]
      exact le_trans hx h1
    have hlog : Int.log 2 |x| ≤ 24 := by
      rw [abs_of_pos hxpos]
      by_contra hc
      have h25 : (25 : Int) ≤ Int.log 2 x := by omega
      rw [← Int.zpow_le_iff_le_log (by norm_num) hxpos] at h25
      have h25' : (2 : K) ^ (25 : Int) ≤ x := by exact_mod_cast h25
      have : (2 : K) ^ (24 : Int) < (2 : K) ^ (25 : Int) := by norm_num
      linarith
    by_cases h24 : Int.log 2 |x| = 24
    · have hge : (2 : K) ^ (24 : Int) ≤ x := by
        have := (@Int.zpow_le_iff_le_log K _ _ 2 (by norm_num) 24 x hxpos).2
          (by rw [abs_of_pos hxpos] at h24; omega)
        exact_mod_cast this
      have hxe : x = (2 : K) ^ (24 : Int) := le_antisymm hx24 hge
      have hr : round32 x = x := by
        rw [hxe]
        have := @round32_natCast K _ _ (2 ^ 24) (le_refl _)
        norm_num at this ⊢
        exact this
      rw [hr]
      exact hx
    · obtain ⟨d, hd⟩ : ∃ d : Nat, ulpExponent x = -(d : Int) := by
        refine ⟨(23 - max (Int.log 2 |x|) (-126)).toNat, ?_⟩
        unfold ulpExponent
        have : max (Int.log 2 |x|) (-126) ≤ 23 := max_le (by omega) (by norm_num)
        omega
      have hpos : (0 : K) < (2 : K) ^ ulpExponent x := zpow_pos (by norm_num) _
      have hN : (n : K) = (((n * 2 ^ d : Nat) : Int) : K) * (2 : K) ^ ulpExponent x := by
        rw [hd]
        push_cast
        rw [zpow_neg, zpow_natCast, mul_assoc, mul_inv_cancel₀ (by positivity), mul_one]
      have hq : x / (2 : K) ^ ulpExponent x ≤ (((n * 2 ^ d : Nat) : Int) : K) := by
        rw [div_le_iff₀ hpos, ← hN]
        exact hx
      have h := roundHalfEven_le _ hq
      unfold round32
      rw [hN]
      exact mul_le_mul_of_nonneg_right (by exact_mod_cast h) hpos.le

end Rounding

section RoundingSymmetry

variable {K : Type} [LinearOrderedField K] [FloorRing K]

/-- Every `y` is within `1/2` of an integer, or half-way between two. -/
theorem near_or_tie (y : K) :
    (∃ m : Int, (m : K) - 1 / 2 < y ∧ y < (m : K) + 1 / 2) ∨ ∃ m : Int, y = (m : K) + 1 / 2 := by
  have h1 := Int.floor_le y
  have h2 := Int.lt_floor_add_one y
  rcases lt_trichotomy (y - (⌊y⌋ : K)) (1 / 2) with h | h | h
  · exact Or.inl ⟨⌊y⌋, by linarith, by linarith⟩
  · exact Or.inr ⟨⌊y⌋, by linarith⟩
  · exact Or.inl ⟨⌊y⌋ + 1, by push_cast; linarith, by push_cast; linarith⟩

theorem roundHalfEven_neg (y : K) : roundHalfEven (-y) = -roundHalfEven y := by
  rcases near_or_tie y with ⟨m, h1, h2⟩ | ⟨m, rfl⟩
  · rw [roundHalfEven_of_near y m h1 h2,
      roundHalfEven_of_near (-y) (-m) (by push_cast; linarith) (by push_cast; linarith)]
  · have e : -((m : K) + 1 / 2) = ((-m - 1 : Int) : K) + 1 / 2 := by
      push_cast
      ring
    rw [e, roundHalfEven_tie, roundHalfEven_tie]
    split_ifs <;> omega

theorem ulpExponent_neg (x : K) : ulpExponent (-x) = ulpExponent x := by
  unfold ulpExponent
  rw [abs_neg]

/-- Rounding commutes with negation. -/
theorem round32_neg (x : K) : round32 (-x) = -round32 x := by
  unfold round32
  rw [ulpExponent_neg, neg_div, roundHalfEven_neg]
  push_cast
  ring

theorem roundHalfEven_abs_le {y : K} (N : Int) (hy : |y| ≤ (N : K)) :
    |roundHalfEven y| ≤ N := by
  rw [abs_le] at hy ⊢
  constructor
  · have h := roundHalfEven_le (-(-N)) (by push_cast; linarith [hy.1] : -y ≤ ((-(-N) : Int) : K))
    rw [roundHalfEven_neg] at h
    omega
  · exact roundHalfEven_le N hy.2

/-- The significand of a rounded value has at most 24 bits, or is `2^24`. -/
theorem significand_le (x : K) :
    |roundHalfEven (x / (2 : K) ^ ulpExponent x)| ≤ 2 ^ 24 := by
  apply roundHalfEven_abs_le
  have hpos : (0 : K) < (2 : K) ^ ulpExponent x := zpow_pos (by norm_num) _
  rw [abs_div, abs_of_pos hpos, div_le_iff₀ hpos]
  have hlt : |x| < (2 : K) ^ (Int.log 2 |x| + 1) := Int.lt_zpow_succ_log_self (by norm_num) _
  have hle : Int.log 2 |x| + 1 ≤ ulpExponent x + 24 := by
    unfold ulpExponent
    have := le_max_left (Int.log 2 |x|) (-126)
    omega
  have h2 : (2 : K) ^ (Int.log 2 |x| + 1) ≤ (2 : K) ^ (ulpExponent x + 24) :=
    zpow_le_zpow_right₀ (by norm_num) hle
  have h3 : (2 : K) ^ (ulpExponent x + 24) = ((2 ^ 24 : Int) : K) * (2 : K) ^ ulpExponent x := by
    rw [zpow_add₀ (by norm_num : (2 : K) ≠ 0)]
    push_cast
    rw [mul_comm]
    norm_num
  rw [← h3]
  exact le_of_lt (lt_of_lt_of_le (by exact_mod_cast hlt) h2)

theorem ulpExponent_ge (x : K) : -149 ≤ ulpExponent x := by
  unfold ulpExponent
  have := le_max_right (Int.log 2 |x|) (-126)
  omega

/-- A rounded value is a binary32 value: rounding it again changes nothing. -/
theorem round32_idem (x : K) : round32 (round32 x) = round32 x := by
  have hpos : (0 : K) < (2 : K) ^ ulpExponent x := zpow_pos (by norm_num) _
  have hR := significand_le x
  have hk := ulpExponent_ge x
  set R := roundHalfEven (x / (2 : K) ^ ulpExponent x) with hRdef
  have hr : round32 x = (R : K) * (2 : K) ^ ulpExponent x := rfl
  by_cases hR0 : R = 0
  · rw [hr, hR0, Int.cast_zero, zero_mul, round32_zero]
  have habs : |round32 x| = ((|R| : Int) : K) * (2 : K) ^ ulpExponent x := by
    rw [hr, abs_mul, abs_of_pos hpos, Int.cast_abs]
  have hRpos : (1 : K) ≤ ((|R| : Int) : K) := by
    have : (1 : Int) ≤ |R| := Int.one_le_abs hR0
    exact_mod_cast this
  have hrpos : 0 < |round32 x| := by
    rw [habs]
    exact mul_pos (lt_of_lt_of_le one_pos hRpos) hpos
  by_cases h24 : |R| = 2 ^ 24
  · -- the significand is `2^24`: the value is `2^23` units of the next binade
    have hval : |round32 x| = (2 : K) ^ (ulpExponent x + 24) := by
      rw [habs, h24, zpow_add₀ (by norm_num : (2 : K) ≠ 0)]
      push_cast
      rw [mul_comm]
      norm_num
    have hlog : Int.log 2 |round32 x| = ulpExponent x + 24 := by
      rw [hval]
      exact_mod_cast @Int.log_zpow K _ _ 2 (by norm_num) (ulpExponent x + 24)
    have hk2 : ulpExponent (round32 x) = ulpExponent x + 1 := by
      show max (Int.log 2 |round32 x|) (-126) - 23 = ulpExponent x + 1
      rw [hlog, max_eq_left (by omega)]
      omega
    have hcases : R = 2 ^ 24 ∨ R = -(2 ^ 24) := by
      rcases abs_cases R with ⟨h, -⟩ | ⟨h, -⟩ <;> omega
    rcases hcases with h | h
    · refine round32_of_exact (ulpExponent x + 1) (2 ^ 23) hk2 ?_
      rw [hr, h, zpow_add₀ (by norm_num : (2 : K) ≠ 0)]
      push_cast
      ring
    · refine round32_of_exact (ulpExponent x + 1) (-(2 ^ 23)) hk2 ?_
      rw [hr, h, zpow_add₀ (by norm_num : (2 : K) ≠ 0)]
      push_cast
      ring
  · -- below `2^24`: the unit in the last place does not grow
    have hlt : |R| < 2 ^ 24 := lt_of_le_of_ne hR h24
    have hvallt : |round32 x| < (2 : K) ^ (ulpExponent x + 24) := by
      rw [habs, zpow_add₀ (by norm_num : (2 : K) ≠ 0), mul_comm ((2 : K) ^ ulpExponent x)]
      apply mul_lt_mul_of_pos_right _ hpos
      have : ((|R| : Int) : K) < ((2 ^ 24 : Int) : K) := by exact_mod_cast hlt
      push_cast at this ⊢
      norm_num at this ⊢
      exact this
    have hlog : Int.log 2 |round32 x| < ulpExponent x + 24 :=
      (Int.lt_zpow_iff_log_lt (by norm_num) hrpos).1 (by exact_mod_cast hvallt)
    have hk2 : ulpExponent (round32 x) ≤ ulpExponent x := by
      show max (Int.log 2 |round32 x|) (-126) - 23 ≤ ulpExponent x
      have : max (Int.log 2 |round32 x|) (-126) ≤ ulpExponent x + 23 :=
        max_le (by omega) (by omega)
      omega
    obtain ⟨d, hd⟩ : ∃ d : Nat, ulpExponent x = ulpExponent (round32 x) + (d : Int) :=
      ⟨(ulpExponent x - ulpExponent (round32 x)).toNat, by omega⟩
    have e : ∀ k2 : Int, ulpExponent x = k2 + (d : Int) →
        (R : K) * (2 : K) ^ ulpExponent x = ((R * 2 ^ d : Int) : K) * (2 : K) ^ k2 := by
      intro k2 h
      rw [h, zpow_add₀ (by norm_num : (2 : K) ≠ 0), zpow_natCast]
      push_cast
      ring
    exact round32_of_exact (ulpExponent (round32 x)) (R * 2 ^ d) rfl (hr.trans (e _ hd))

end RoundingSymmetry

section RoundingOrder

variable {K : Type} [LinearOrderedField K] [FloorRing K]

theorem roundHalfEven_ge {y : K} (N : Int) (hy : (N : K) ≤ y) : N ≤ roundHalfEven y := by
  have h := roundHalfEven_le (-N) (by push_cast; linarith : -y ≤ ((-N : Int) : K))
  rw [roundHalfEven_neg] at h
  omega

/-- Rounding to the nearest integer is monotone. -/
theorem roundHalfEven_mono {a b : K} (h : a ≤ b) : roundHalfEven a ≤ roundHalfEven b := by
  have hf := Int.floor_le_floor h
  by_cases hlt : ⌊a⌋ < ⌊b⌋
  · have h1 : roundHalfEven a ≤ ⌊a⌋ + 1 :=
      roundHalfEven_le (⌊a⌋ + 1) (by push_cast; linarith [Int.lt_floor_add_one a])
    have h2 : ⌊b⌋ ≤ roundHalfEven b := roundHalfEven_ge ⌊b⌋ (Int.floor_le b)
    omega
  · have he : ⌊a⌋ = ⌊b⌋ := by omega
    unfold roundHalfEven
    rw [he]
    split_ifs <;> first | omega | (exfalso; linarith)

/-- The unit in the last place grows with the magnitude. -/
theorem ulpExponent_mono {x y : K} (hx : x ≠ 0) (h : |x| ≤ |y|) :
    ulpExponent x ≤ ulpExponent y := by
  unfold ulpExponent
  have hl : Int.log 2 |x| ≤ Int.log 2 |y| := Int.log_mono_right (abs_pos.2 hx) h
  have := max_le_max hl (le_refl (-126 : Int))
  omega

/-- A value lies below `2^24` units in its last place. -/
theorem abs_lt_ulp (x : K) : |x| < (2 : K) ^ (ulpExponent x + 24) := by
  have hlt : |x| < (2 : K) ^ (Int.log 2 |x| + 1) := Int.lt_zpow_succ_log_self (by norm_num) _
  have hle : Int.log 2 |x| + 1 ≤ ulpExponent x + 24 := by
    unfold ulpExponent
    have := le_max_left (Int.log 2 |x|) (-126)
    omega
  exact lt_of_lt_of_le hlt (zpow_le_zpow_right₀ (by norm_num) hle)

/-- A multiple of a unit at least as coarse as its unit in the last place is a
binary32 value. -/
theorem round32_of_multiple {x : K} (k m : Int) (hx : x = (m : K) * (2 : K) ^ k)
    (hk : ulpExponent x ≤ k) : round32 x = x := by
  obtain ⟨d, hd⟩ := Int.eq_ofNat_of_zero_le (by omega : 0 ≤ k - ulpExponent x)
  apply round32_of_exact (ulpExponent x) (m * 2 ^ d) rfl
  have e : k = (d : Int) + ulpExponent x := by omega
  have e2 : (2 : K) ^ k = (2 : K) ^ d * (2 : K) ^ ulpExponent x := by
    rw [e, zpow_add₀ (by norm_num : (2 : K) ≠ 0), zpow_natCast]
  refine hx.trans ?_
  rw [e2]
  push_cast
  ring

/-- The binary32 values: a significand of at most 24 bits times a power of two
not below `2^-149`. -/
theorem round32_of_significand (k m : Int) (hk : -149 ≤ k) (hm : |m| ≤ 2 ^ 24) :
    round32 ((m : K) * (2 : K) ^ k) = (m : K) * (2 : K) ^ k := by
  have key : ∀ (k m : Int), -149 ≤ k → |m| < 2 ^ 24 →
      round32 ((m : K) * (2 : K) ^ k) = (m : K) * (2 : K) ^ k := by
    intro k m hk hm
    by_cases h0 : m = 0
    · rw [h0, Int.cast_zero, zero_mul, round32_zero]
    apply round32_of_multiple k m rfl
    have hpos : (0 : K) < (2 : K) ^ k := zpow_pos (by norm_num) k
    have hx0 : (0 : K) < |(m : K) * (2 : K) ^ k| := by
      rw [abs_pos]
      exact mul_ne_zero (by exact_mod_cast h0) (ne_of_gt hpos)
    have hlt : |(m : K) * (2 : K) ^ k| < (2 : K) ^ (k + 24) := by
      rw [abs_mul, abs_of_pos hpos, zpow_add₀ (by norm_num : (2 : K) ≠ 0), mul_comm]
      apply mul_lt_mul_of_pos_left _ hpos
      have : ((|m| : Int) : K) < ((2 ^ 24 : Int) : K) := Int.cast_lt.2 hm
      rw [Int.cast_abs] at this
      calc |(m : K)| < ((2 ^ 24 : Int) : K) := this
        _ = (2 : K) ^ (24 : Int) := by norm_num
    have hlog : Int.log 2 |(m : K) * (2 : K) ^ k| < k + 24 := by
      rw [← Int.lt_zpow_iff_log_lt (by norm_num) hx0]
      exact_mod_cast hlt
    unfold ulpExponent
    have := max_le (by omega : Int.log 2 |(m : K) * (2 : K) ^ k| ≤ k + 23)
      (by omega : (-126 : Int) ≤ k + 23)
    omega
  by_cases hlt : |m| < 2 ^ 24
  · exact key k m hk hlt
  · have heq : |m| = 2 ^ 24 := by omega
    have hm2 : (m : K) * (2 : K) ^ k = ((m / 2 : Int) : K) * (2 : K) ^ (k + 1) := by
      have hdiv : m = m / 2 * 2 := by
        rcases abs_cases m with ⟨h1, -⟩ | ⟨h1, -⟩ <;> omega
      rw [zpow_add₀ (by norm_num : (2 : K) ≠ 0), zpow_one]
      have hc : (m : K) = ((m / 2 : Int) : K) * 2 := by exact_mod_cast congrArg (Int.cast : Int → K) hdiv
      rw [hc]
      ring
    rw [hm2]
    apply key (k + 1) (m / 2) (by omega)
    rcases abs_cases m with ⟨h1, h1s⟩ | ⟨h1, h1s⟩ <;>
      rcases abs_cases (m / 2) with ⟨h2, h2s⟩ | ⟨h2, h2s⟩ <;> omega

theorem round32_nonpos {x : K} (hx : x ≤ 0) : round32 x ≤ 0 := by
  have h := round32_nonneg (neg_nonneg.2 hx)
  rw [round32_neg] at h
  linarith

theorem round32_mono_of_pos {x y : K} (hx : 0 < x) (h : x ≤ y) : round32 x ≤ round32 y := by
  have hy : 0 < y := lt_of_lt_of_le hx h
  have he : ulpExponent x ≤ ulpExponent y :=
    ulpExponent_mono (ne_of_gt hx) (by rwa [abs_of_pos hx, abs_of_pos hy])
  have hpx : (0 : K) < (2 : K) ^ ulpExponent x := zpow_pos (by norm_num) _
  have hpy : (0 : K) < (2 : K) ^ ulpExponent y := zpow_pos (by norm_num) _
  by_cases heq : ulpExponent x = ulpExponent y
  · unfold round32
    rw [heq]
    exact mul_le_mul_of_nonneg_right
      (Int.cast_le.2 (roundHalfEven_mono (div_le_div_of_nonneg_right h hpy.le))) hpy.le
  · have hlt : ulpExponent x + 1 ≤ ulpExponent y := by omega
    have h1 : round32 x ≤ (2 : K) ^ (ulpExponent y + 23) := by
      have hs := significand_le x
      have hs2 : ((roundHalfEven (x / (2 : K) ^ ulpExponent x) : Int) : K) ≤ (2 : K) ^ (24 : Int) := by
        have : roundHalfEven (x / (2 : K) ^ ulpExponent x) ≤ 2 ^ 24 := (abs_le.1 hs).2
        calc ((roundHalfEven (x / (2 : K) ^ ulpExponent x) : Int) : K) ≤ ((2 ^ 24 : Int) : K) :=
              Int.cast_le.2 this
          _ = (2 : K) ^ (24 : Int) := by norm_num
      calc round32 x ≤ (2 : K) ^ (24 : Int) * (2 : K) ^ ulpExponent x :=
            mul_le_mul_of_nonneg_right hs2 hpx.le
        _ = (2 : K) ^ (ulpExponent x + 1 + 23) := by
            rw [← zpow_add₀ (by norm_num : (2 : K) ≠ 0)]
            congr 1
            ring
        _ ≤ (2 : K) ^ (ulpExponent y + 23) :=
            zpow_le_zpow_right₀ (by norm_num) (by omega)
    have h2 : (2 : K) ^ (ulpExponent y + 23) ≤ round32 y := by
      have hge := ulpExponent_ge x
      have hlog : Int.log 2 |y| = ulpExponent y + 23 := by
        have hdef : ulpExponent y = max (Int.log 2 |y|) (-126) - 23 := rfl
        rcases le_total (Int.log 2 |y|) (-126) with hc | hc
        · rw [max_eq_right hc] at hdef
          omega
        · rw [max_eq_left hc] at hdef
          omega
      have hle : (2 : K) ^ (ulpExponent y + 23) ≤ y := by
        have := Int.zpow_log_le_self (by norm_num : 1 < 2) (abs_pos.2 (ne_of_gt hy))
        rw [hlog, abs_of_pos hy] at this
        exact_mod_cast this
      have hq : (((2 ^ 23 : Int)) : K) ≤ y / (2 : K) ^ ulpExponent y := by
        rw [le_div_iff₀ hpy]
        calc (((2 ^ 23 : Int)) : K) * (2 : K) ^ ulpExponent y
            = (2 : K) ^ (23 : Int) * (2 : K) ^ ulpExponent y := by norm_num
          _ = (2 : K) ^ (ulpExponent y + 23) := by
            rw [← zpow_add₀ (by norm_num : (2 : K) ≠ 0)]
            congr 1
            ring
          _ ≤ y := hle
      have hr := roundHalfEven_ge (2 ^ 23) hq
      calc (2 : K) ^ (ulpExponent y + 23)
          = (((2 ^ 23 : Int)) : K) * (2 : K) ^ ulpExponent y := by
            rw [add_comm, zpow_add₀ (by norm_num : (2 : K) ≠ 0)]
            norm_num
        _ ≤ round32 y := mul_le_mul_of_nonneg_right (Int.cast_le.2 hr) hpy.le
    exact le_trans h1 h2

/-- Rounding to binary32 is monotone. -/
theorem round32_mono {x y : K} (h : x ≤ y) : round32 x ≤ round32 y := by
  rcases lt_or_le 0 x with hx | hx
  · exact round32_mono_of_pos hx h
  · rcases le_or_lt 0 y with hy | hy
    · exact le_trans (round32_nonpos hx) (round32_nonneg hy)
    · have := round32_mono_of_pos (neg_pos.2 hy) (neg_le_neg h)
      rw [round32_neg, round32_neg] at this
      linarith

/-- A binary32 value other than zero, plus one unit in its last place, is a
binary32 value. -/
theorem round32_succ {u : K} (hu : round32 u = u) :
    round32 (u + (2 : K) ^ ulpExponent u) = u + (2 : K) ^ ulpExponent u := by
  have hpos : (0 : K) < (2 : K) ^ ulpExponent u := zpow_pos (by norm_num) _
  have hr : u = ((roundHalfEven (u / (2 : K) ^ ulpExponent u) : Int) : K) *
      (2 : K) ^ ulpExponent u := hu.symm
  set m := roundHalfEven (u / (2 : K) ^ ulpExponent u) with hm
  have hlt : |m| < 2 ^ 24 := by
    have h1 := abs_lt_ulp u
    have h2 : |u| = ((|m| : Int) : K) * (2 : K) ^ ulpExponent u := by
      conv_lhs => rw [hr]
      rw [abs_mul, abs_of_pos hpos, Int.cast_abs]
    rw [h2, add_comm, zpow_add₀ (by norm_num : (2 : K) ≠ 0)] at h1
    have h3 := lt_of_mul_lt_mul_right h1 hpos.le
    have h4 : ((|m| : Int) : K) < ((2 ^ 24 : Int) : K) := by
      calc ((|m| : Int) : K) < (2 : K) ^ (24 : Int) := h3
        _ = ((2 ^ 24 : Int) : K) := by norm_num
    exact Int.cast_lt.1 h4
  have e : u + (2 : K) ^ ulpExponent u = ((m + 1 : Int) : K) * (2 : K) ^ ulpExponent u := by
    push_cast
    rw [add_mul, one_mul, ← hr]
  rw [e]
  apply round32_of_significand _ _ (ulpExponent_ge u)
  rcases abs_cases m with ⟨h1, h1s⟩ | ⟨h1, h1s⟩ <;>
    rcases abs_cases (m + 1) with ⟨h2, h2s⟩ | ⟨h2, h2s⟩ <;> omega

/-- A float loop variable moves: below the bound `B`, adding an increment of
at least one unit in the last place of `B` to a binary32 value `u` with
`|u| ≤ B` gives a value at least `2^-149` above `u`. -/
theorem round32_add_progress {u inc B : K} (hu : round32 u = u) (hB : |u| ≤ B)
    (hinc : (2 : K) ^ ulpExponent B ≤ inc) :
    u + (2 : K) ^ (-149 : Int) ≤ round32 (u + inc) := by
  by_cases h0 : u = 0
  · rw [h0, zero_add, zero_add]
    have h1 : round32 ((2 : K) ^ ulpExponent B) = (2 : K) ^ ulpExponent B := by
      have := @round32_of_significand K _ _ (ulpExponent B) 1 (ulpExponent_ge B) (by norm_num)
      rwa [Int.cast_one, one_mul] at this
    calc (2 : K) ^ (-149 : Int) ≤ (2 : K) ^ ulpExponent B :=
          zpow_le_zpow_right₀ (by norm_num) (ulpExponent_ge B)
      _ = round32 ((2 : K) ^ ulpExponent B) := h1.symm
      _ ≤ round32 inc := round32_mono hinc
  · have hBpos : 0 ≤ B := le_trans (abs_nonneg u) hB
    have he : ulpExponent u ≤ ulpExponent B :=
      ulpExponent_mono h0 (by rwa [abs_of_nonneg hBpos])
    have h1 : (2 : K) ^ ulpExponent u ≤ inc :=
      le_trans (zpow_le_zpow_right₀ (by norm_num) he) hinc
    calc u + (2 : K) ^ (-149 : Int) ≤ u + (2 : K) ^ ulpExponent u :=
          add_le_add_left (zpow_le_zpow_right₀ (by norm_num) (ulpExponent_ge u)) u
      _ = round32 (u + (2 : K) ^ ulpExponent u) := (round32_succ hu).symm
      _ ≤ round32 (u + inc) := round32_mono (add_le_add_left h1 u)

end RoundingOrder

/-! ## Sphere: the shape of a float build -/

section SphereFloatShape

variable {K : Type} [LinearOrderedField K] [FloorRing K]

theorem CSphere.addCircleLoopFloat_eq (F : FloatArith K) (M : CMath K) (n : Int)
    (radius zTheta : K) (vertexSetName : Nat) (maxPoints : Int) (l : List Nat)
    (currPoints : Int) :
    CSphere.addCircleLoopFloat F M n radius zTheta vertexSetName maxPoints l currPoints =
      (l.take (maxPoints + 1 - currPoints).toNat).map fun i =>
        SinkCall.AddVertex (CSphere.vName vertexSetName i)
          (CSphere.circlePointFloat F M n radius zTheta i) := by
  induction l generalizing currPoints with
  | nil => simp [CSphere.addCircleLoopFloat]
  | cons i rest ih =>
    unfold CSphere.addCircleLoopFloat
    by_cases h : currPoints ≥ maxPoints + 1
    · have h0 : (maxPoints + 1 - currPoints).toNat = 0 := by omega
      simp [h, h0]
    · have h1 : (maxPoints + 1 - currPoints).toNat =
          (maxPoints + 1 - (currPoints + 1)).toNat + 1 := by omega
      rw [if_neg h, h1, List.take_succ_cons, List.map_cons, ih]

theorem CSphere.addCircleFloat_eq (F : FloatArith K) (M : CMath K) (n : Int)
    (radius zTheta : K) (vertexSetName : Nat) (maxPoints : Int) :
    CSphere.addCircleFloat F M n radius zTheta vertexSetName maxPoints =
      (List.range (CSphere.ringSize n maxPoints)).map fun i =>
        SinkCall.AddVertex (CSphere.vName vertexSetName i)
          (CSphere.circlePointFloat F M n radius zTheta i) := by
  unfold CSphere.addCircleFloat intBoundRange CSphere.ringSize
  rw [CSphere.addCircleLoopFloat_eq, sub_zero, List.take_range]

theorem CSphere.vertices_addVerticesFloat (F : FloatArith K) (M : CMath K) (n : Int)
    (radius : K) (density : Int) (maxDegrees maxPoints : K) :
    vertices (CSphere.addVerticesFloat F M n radius density maxDegrees maxPoints) =
      (List.range (density + 1).toNat).flatMap fun i =>
        (List.range (CSphere.ringSize n (castInt maxPoints))).map fun j =>
          (CSphere.vName i j,
            CSphere.circlePointFloat F M n radius
              (F.sub (F.mul (F.mul (F.div (F.ofInt i) (F.ofInt density)) maxDegrees) M.M_PI)
                (F.div M.M_PI 2)) j) := by
  unfold CSphere.addVerticesFloat intBoundRange
  rw [vertices_flatMap]
  simp only [CSphere.addCircleFloat_eq, vertices_map_AddVertex]

theorem CSphere.faces_addVerticesFloat (F : FloatArith K) (M : CMath K) (n : Int)
    (radius : K) (density : Int) (maxDegrees maxPoints : K) :
    faces (CSphere.addVerticesFloat F M n radius density maxDegrees maxPoints) = [] := by
  unfold CSphere.addVerticesFloat
  rw [faces_flatMap]
  simp only [CSphere.addCircleFloat_eq, faces_map_AddVertex]
  simp

theorem CSphere.vertexNames_addVerticesFloat (F : FloatArith K) (M : CMath K) (n : Int)
    (radius : K) (density : Int) (maxDegrees maxPoints : K) :
    vertexNames (CSphere.addVerticesFloat F M n radius density maxDegrees maxPoints) =
      (List.range (density + 1).toNat).flatMap fun i =>
        (List.range (CSphere.ringSize n (castInt maxPoints))).map fun j =>
          CSphere.vName i j := by
  unfold vertexNames
  rw [CSphere.vertices_addVerticesFloat, List.map_flatMap]
  simp only [List.map_map]
  rfl

theorem CSphere.faces_addFacesFloat (F : FloatArith K) (density : Int)
    (crossDegrees maxPoints : K) :
    faces (CSphere.addFacesFloat F density crossDegrees maxPoints) =
      (List.range density.toNat).flatMap fun i =>
        (CSphere.floatLoop F maxPoints (2 ^ 31) 0).map fun j =>
          (CSphere.fName i j,
            CSphere.upperFace
              (if crossDegrees = 360 then
                decide (F.ofInt ((j : Int) + 1) < F.add maxPoints (F.ofInt 1))
              else decide (F.ofInt ((j : Int) + 1) < maxPoints)) i j) := by
  unfold CSphere.addFacesFloat intBoundRange
  split_ifs with h
  · rw [faces_flatMap]
    simp only [faces_map_AddFace]
  · rw [faces_flatMap]
    simp only [faces_map_AddFace]

theorem CSphere.vertices_addFacesFloat (F : FloatArith K) (density : Int)
    (crossDegrees maxPoints : K) :
    vertices (CSphere.addFacesFloat F density crossDegrees maxPoints) = [] := by
  unfold CSphere.addFacesFloat
  split_ifs with h
  · rw [vertices_flatMap]
    simp only [vertices_map_AddFace]
    simp
  · rw [vertices_flatMap]
    simp only [vertices_map_AddFace]
    simp

theorem CSphere.vertexNames_UpdateEntityFloat (F : FloatArith K) (M : CMath K)
    (Segments Radius Density Degrees CrossDegrees : K) :
    vertexNames (CSphere.UpdateEntityFloat F M Segments Radius Density Degrees CrossDegrees) =
      (List.range (castInt Density + 1).toNat).flatMap fun i =>
        (List.range (CSphere.ringSize (castInt Segments)
          (castInt (CSphere.maxPointsFloat F (if CrossDegrees > 360 then 360 else CrossDegrees)
            (castInt Segments))))).map fun j => CSphere.vName i j := by
  unfold CSphere.UpdateEntityFloat
  simp only []
  rw [vertexNames_append, CSphere.vertexNames_addVerticesFloat]
  simp [vertexNames, CSphere.vertices_addFacesFloat]

theorem CSphere.faces_UpdateEntityFloat (F : FloatArith K) (M : CMath K)
    (Segments Radius Density Degrees CrossDegrees : K) :
    faces (CSphere.UpdateEntityFloat F M Segments Radius Density Degrees CrossDegrees) =
      (List.range (castInt Density).toNat).flatMap fun i =>
        (CSphere.floatLoop F
          (CSphere.maxPointsFloat F (if CrossDegrees > 360 then 360 else CrossDegrees)
            (castInt Segments)) (2 ^ 31) 0).map fun j =>
          (CSphere.fName i j,
            CSphere.upperFace
              (if (if CrossDegrees > 360 then 360 else CrossDegrees) = 360 then
                decide (F.ofInt ((j : Int) + 1) <
                  F.add (CSphere.maxPointsFloat F
                    (if CrossDegrees > 360 then 360 else CrossDegrees) (castInt Segments))
                    (F.ofInt 1))
              else
                decide (F.ofInt ((j : Int) + 1) <
                  CSphere.maxPointsFloat F (if CrossDegrees > 360 then 360 else CrossDegrees)
                    (castInt Segments))) i j) := by
  unfold CSphere.UpdateEntityFloat
  simp only []
  rw [faces_append, CSphere.faces_addVerticesFloat, CSphere.faces_addFacesFloat]
  simp

/-- The loop visits `j, j + 1, ...` up to the first index whose float is not
below the bound. -/
theorem CSphere.floatLoop_eq (F : FloatArith K) (bound : K) (c : Nat)
    (hin : ∀ j : Nat, j < c → F.ofInt j < bound) (hout : ¬ F.ofInt c < bound) :
    ∀ (fuel j : Nat), j ≤ c → c - j ≤ fuel →
      CSphere.floatLoop F bound fuel j = List.range' j (c - j) := by
  intro fuel
  induction fuel with
  | zero =>
    intro j hj hf
    have : c - j = 0 := by omega
    rw [this]
    rfl
  | succ fuel ih =>
    intro j hj hf
    unfold CSphere.floatLoop
    by_cases hjc : j = c
    · rw [hjc, if_neg hout, Nat.sub_self]
      rfl
    · have hlt : j < c := by omega
      rw [if_pos (hin j hlt), ih (j + 1) (by omega) (by omega)]
      have e : c - j = (c - (j + 1)) + 1 := by omega
      rw [e, List.range'_succ]

/-- With conversions exact up to `⌈bound⌉`, the loop visits the indices below
`⌈bound⌉`. -/
theorem CSphere.floatLoop_of_exact (F : FloatArith K) (bound : K)
    (hconv : ∀ j : Nat, j ≤ ⌈bound⌉₊ → F.ofInt j = (j : K)) (h31 : ⌈bound⌉₊ ≤ 2 ^ 31) :
    CSphere.floatLoop F bound (2 ^ 31) 0 = List.range ⌈bound⌉₊ := by
  rw [CSphere.floatLoop_eq F bound ⌈bound⌉₊
    (fun j hj => by rw [hconv j hj.le]; exact Nat.lt_ceil.1 hj)
    (by rw [hconv _ (le_refl _)]; exact not_lt.2 (Nat.le_ceil bound))
    (2 ^ 31) 0 (Nat.zero_le _) (by omega)]
  rw [Nat.sub_zero, List.range_eq_range']

end SphereFloatShape

section Binary32Sphere

variable {K : Type} [LinearOrderedField K] [FloorRing K]

/-- A tie between two binary32 values goes to the one with the even significand. -/
theorem round32_of_tie {x : K} (k m : Int) (hk : ulpExponent x = k)
    (hx : x / (2 : K) ^ k = (m : K) + 1 / 2) :
    round32 x = ((if m % 2 = 0 then m else m + 1 : Int) : K) * (2 : K) ^ k := by
  unfold round32
  rw [hk, hx, roundHalfEven_tie]

theorem binary32_ofInt_natCast (j : Nat) (hj : j ≤ 2 ^ 24) :
    (binary32 : FloatArith K).ofInt (j : Int) = (j : K) := by
  show round32 (((j : Int) : K)) = (j : K)
  rw [Int.cast_natCast]
  exact round32_natCast j hj

theorem CSphere.maxPointsFloat_nonneg (n : Nat) (phi : K) (h0 : 0 ≤ phi) :
    0 ≤ CSphere.maxPointsFloat (binary32 : FloatArith K) phi (n : Int) := by
  show 0 ≤ round32 (round32 (phi / 360) * round32 (((n : Int) : K)))
  rw [Int.cast_natCast]
  exact round32_nonneg (mul_nonneg (round32_nonneg (div_nonneg h0 (by norm_num)))
    (round32_nonneg (Nat.cast_nonneg n)))

/-- For `n ≤ 2^24` and `crossDegrees ≤ 360` the float `maxPoints` is at most `n`. -/
theorem CSphere.maxPointsFloat_le (n : Nat) (hn : n ≤ 2 ^ 24) (phi : K) (h360 : phi ≤ 360) :
    CSphere.maxPointsFloat (binary32 : FloatArith K) phi (n : Int) ≤ (n : K) := by
  show round32 (round32 (phi / 360) * round32 (((n : Int) : K))) ≤ (n : K)
  rw [Int.cast_natCast, round32_natCast n hn]
  have ha : round32 (phi / 360) ≤ ((1 : Nat) : K) :=
    round32_le_natCast 1 (by norm_num) (by
      rw [Nat.cast_one, div_le_one (by norm_num : (0 : K) < 360)]
      exact h360)
  rw [Nat.cast_one] at ha
  apply round32_le_natCast n hn
  simpa using mul_le_mul_of_nonneg_right ha (Nat.cast_nonneg n)

/-- For `n ≤ 2^24` and `crossDegrees = 360` the float `maxPoints` is `n`. -/
theorem CSphere.maxPointsFloat_closed (n : Nat) (hn : n ≤ 2 ^ 24) :
    CSphere.maxPointsFloat (binary32 : FloatArith K) 360 (n : Int) = (n : K) := by
  show round32 (round32 ((360 : K) / 360) * round32 (((n : Int) : K))) = (n : K)
  rw [Int.cast_natCast, round32_natCast n hn, div_self (by norm_num : (360 : K) ≠ 0),
    round32_one, one_mul, round32_natCast n hn]

/-- The vertex names of a float build for whole-number `Segments = n`,
`Density = d` and `0 ≤ CrossDegrees = phi ≤ 360`: `d + 1` rings of the columns
`0 .. min(n, (int)maxPoints)`. -/
theorem CSphere.vertexNames_float (M : CMath K) (n d : Nat) (Radius Degrees phi : K)
    (h0 : 0 ≤ phi) (h360 : phi ≤ 360) :
    vertexNames (CSphere.UpdateEntityFloat binary32 M (n : K) Radius (d : K) Degrees phi) =
      (List.range (d + 1)).flatMap fun i =>
        (List.range (min n ⌊CSphere.maxPointsFloat (binary32 : FloatArith K) phi (n : Int)⌋₊ +
          1)).map fun j => CSphere.vName i j := by
  rw [CSphere.vertexNames_UpdateEntityFloat, if_neg (not_lt.2 h360), castInt_natCast,
    castInt_natCast]
  have hm0 := CSphere.maxPointsFloat_nonneg n phi h0
  have hring : CSphere.ringSize (n : Int)
      (castInt (CSphere.maxPointsFloat (binary32 : FloatArith K) phi (n : Int))) =
      min n ⌊CSphere.maxPointsFloat (binary32 : FloatArith K) phi (n : Int)⌋₊ + 1 := by
    unfold CSphere.ringSize
    rw [castInt_of_nonneg hm0]
    have h1 : ⌊CSphere.maxPointsFloat (binary32 : FloatArith K) phi (n : Int)⌋ =
        ((⌊CSphere.maxPointsFloat (binary32 : FloatArith K) phi (n : Int)⌋₊ : Nat) : Int) :=
      (Int.natCast_floor_eq_floor hm0).symm
    rw [h1]
    omega
  rw [hring]
  have hd : ((d : Int) + 1).toNat = d + 1 := by omega
  rw [hd]

/-- The faces of a float build of the open strip for `n ≤ 2^24`: one face per
band `i < d` and per `j < maxPoints` (the float), with the two guarded names
present when `j + 1 < maxPoints`. -/
theorem CSphere.faces_open_float (M : CMath K) (n d : Nat) (hn : n ≤ 2 ^ 24)
    (Radius Degrees phi : K) (h360 : phi < 360) :
    faces (CSphere.UpdateEntityFloat binary32 M (n : K) Radius (d : K) Degrees phi) =
      (List.range d).flatMap fun i =>
        (List.range ⌈CSphere.maxPointsFloat (binary32 : FloatArith K) phi (n : Int)⌉₊).map
          fun j =>
          (CSphere.fName i j,
            CSphere.upperFace
              (decide (((j : K) + 1) <
                CSphere.maxPointsFloat (binary32 : FloatArith K) phi (n : Int))) i j) := by
  have hle := CSphere.maxPointsFloat_le n hn phi h360.le
  have hceil : ⌈CSphere.maxPointsFloat (binary32 : FloatArith K) phi (n : Int)⌉₊ ≤ n :=
    Nat.ceil_le.2 hle
  rw [CSphere.faces_UpdateEntityFloat, if_neg (not_lt.2 h360.le), castInt_natCast,
    castInt_natCast, Int.toNat_ofNat,
    CSphere.floatLoop_of_exact _ _ (fun j hj => binary32_ofInt_natCast j (by omega))
      (by
        have : (2 : Nat) ^ 24 ≤ 2 ^ 31 := by norm_num
        omega)]
  apply List.flatMap_congr
  intro i _
  apply List.map_congr_left
  intro j hj
  rw [List.mem_range] at hj
  rw [if_neg (ne_of_lt h360)]
  have hc : (binary32 : FloatArith K).ofInt ((j : Int) + 1) = (j : K) + 1 := by
    have := @binary32_ofInt_natCast K _ _ (j + 1) (by omega)
    push_cast at this
    exact this
  rw [hc]

/-- Number of four-vertex faces of a float build of the open strip for
`n ≤ 2^24`: `⌈maxPoints⌉ - 1` per band, `maxPoints` being the float. -/
theorem CSphere.open_quads_float (M : CMath K) (n d : Nat) (hn : n ≤ 2 ^ 24)
    (Radius Degrees phi : K) (h360 : phi < 360) :
    (fourVertexFaces
        (CSphere.UpdateEntityFloat binary32 M (n : K) Radius (d : K) Degrees phi)).length =
      d * (⌈CSphere.maxPointsFloat (binary32 : FloatArith K) phi (n : Int)⌉₊ - 1) := by
  unfold fourVertexFaces
  rw [CSphere.faces_open_float M n d hn Radius Degrees phi h360,
    length_filter_grid (List.range d)
      (List.range ⌈CSphere.maxPointsFloat (binary32 : FloatArith K) phi (n : Int)⌉₊) _ _
      (fun j => decide
        (j < ⌈CSphere.maxPointsFloat (binary32 : FloatArith K) phi (n : Int)⌉₊ - 1))]
  · rw [filter_range_lt, List.length_range, List.length_range]
    congr 1
    omega
  · intro i j
    simp only [CSphere.length_upperFace]
    have hiff : ((j : K) + 1 < CSphere.maxPointsFloat (binary32 : FloatArith K) phi (n : Int)) ↔
        j < ⌈CSphere.maxPointsFloat (binary32 : FloatArith K) phi (n : Int)⌉₊ - 1 := by
      have h1 : ((j : K) + 1 < CSphere.maxPointsFloat (binary32 : FloatArith K) phi (n : Int)) ↔
          j + 1 < ⌈CSphere.maxPointsFloat (binary32 : FloatArith K) phi (n : Int)⌉₊ := by
        rw [Nat.lt_ceil]
        push_cast
        rfl
      rw [h1]
      omega
    by_cases hj : (j : K) + 1 < CSphere.maxPointsFloat (binary32 : FloatArith K) phi (n : Int)
    · simp [hj, hiff.1 hj]
    · have hj2 : ¬ j < ⌈CSphere.maxPointsFloat (binary32 : FloatArith K) phi (n : Int)⌉₊ - 1 :=
        fun h => hj (hiff.2 h)
      simp [hj, hj2]

/-- The faces of a float build of the closed case for `n ≤ 2^24`: `d` bands of
`n` faces. -/
theorem CSphere.faces_closed_float (M : CMath K) (n d : Nat) (hn : n ≤ 2 ^ 24)
    (Radius Degrees : K) :
    faces (CSphere.UpdateEntityFloat binary32 M (n : K) Radius (d : K) Degrees 360) =
      (List.range d).flatMap fun i =>
        (List.range n).map fun j =>
          (CSphere.fName i j,
            CSphere.upperFace
              (decide ((binary32 : FloatArith K).ofInt ((j : Int) + 1) <
                (binary32 : FloatArith K).add (n : K) ((binary32 : FloatArith K).ofInt 1)))
              i j) := by
  have h360 : ¬ ((360 : K) > 360) := lt_irrefl _
  rw [CSphere.faces_UpdateEntityFloat, if_neg h360, castInt_natCast, castInt_natCast,
    Int.toNat_ofNat, CSphere.maxPointsFloat_closed n hn,
    CSphere.floatLoop_of_exact _ _
      (fun j hj => binary32_ofInt_natCast j (by rw [Nat.ceil_natCast] at hj; omega))
      (by
        rw [Nat.ceil_natCast]
        have : (2 : Nat) ^ 24 ≤ 2 ^ 31 := by norm_num
        omega),
    Nat.ceil_natCast]
  simp only [if_pos]

end Binary32Sphere

/-! ## Binary32 values at the scenarios -/

section Binary32Values

variable {K : Type} [LinearOrderedField K] [FloorRing K]

/-- The exponent of the unit in the last place at a positive `x` of the binade
`[2^e, 2^(e+1))`, `e ≥ -126`. -/
theorem ulpExponent_of_pos {x : K} (k : Int) (hk : -149 ≤ k) (h1 : (2 : K) ^ (k + 23) ≤ x)
    (h2 : x < (2 : K) ^ (k + 23 + 1)) : ulpExponent x = k := by
  have hx : 0 < x := lt_of_lt_of_le (zpow_pos (by norm_num) _) h1
  have h := ulpExponent_of_normal (k + 23) (by omega) (by rwa [abs_of_pos hx])
    (by rwa [abs_of_pos hx])
  rw [h]
  omega

theorem round32_16777220 : round32 (16777220 : K) = 16777220 :=
  round32_of_exact 1 8388610
    (ulpExponent_of_pos 1 (by norm_num) (by norm_num) (by norm_num)) (by norm_num)

theorem round32_16777218 : round32 (16777218 : K) = 16777218 :=
  round32_of_exact 1 8388609
    (ulpExponent_of_pos 1 (by norm_num) (by norm_num) (by norm_num)) (by norm_num)

theorem round32_16777217 : round32 (16777217 : K) = 16777216 := by
  rw [round32_of_tie 1 8388608
    (ulpExponent_of_pos 1 (by norm_num) (by norm_num) (by norm_num)) (by norm_num)]
  norm_num

theorem round32_16777219 : round32 (16777219 : K) = 16777220 := by
  rw [round32_of_tie 1 8388609
    (ulpExponent_of_pos 1 (by norm_num) (by norm_num) (by norm_num)) (by norm_num)]
  norm_num

/-- At `Segments = 16777220` the face loop `j < maxPoints` ends at
`j = 16777219`, whose float is `16777220.0f`. -/
theorem CSphere.floatLoop_16777220 :
    CSphere.floatLoop (binary32 : FloatArith K) 16777220 (2 ^ 31) 0 = List.range 16777219 := by
  rw [CSphere.floatLoop_eq (binary32 : FloatArith K) 16777220 16777219 ?_ ?_ (2 ^ 31) 0
    (Nat.zero_le _) (by norm_num), Nat.sub_zero, List.range_eq_range']
  · intro j hj
    show round32 (((j : Int) : K)) < 16777220
    rw [Int.cast_natCast]
    by_cases h24 : j ≤ 2 ^ 24
    · rw [round32_natCast j h24]
      have : (j : K) < ((16777220 : Nat) : K) := Nat.cast_lt.2 (by omega)
      simpa using this
    · have hj2 : j = 16777217 ∨ j = 16777218 := by
        have : (2 : Nat) ^ 24 = 16777216 := by norm_num
        omega
      rcases hj2 with h | h
      · rw [h]
        have := @round32_16777217 K _ _
        simp only [Nat.cast_ofNat]
        rw [this]
        norm_num
      · rw [h]
        have := @round32_16777218 K _ _
        simp only [Nat.cast_ofNat]
        rw [this]
        norm_num
  · show ¬ round32 ((((16777219 : Nat) : Int) : K)) < 16777220
    have := @round32_16777219 K _ _
    simp only [Int.cast_natCast, Nat.cast_ofNat, Int.cast_ofNat]
    rw [this]
    exact lt_irrefl _

theorem CSphere.maxPointsFloat_16777220 :
    CSphere.maxPointsFloat (binary32 : FloatArith K) 360 ((16777220 : Nat) : Int) = 16777220 := by
  show round32 (round32 ((360 : K) / 360) * round32 ((((16777220 : Nat) : Int) : K))) = 16777220
  simp only [Int.cast_natCast, Nat.cast_ofNat, Int.cast_ofNat]
  rw [div_self (by norm_num : (360 : K) ≠ 0), round32_one, one_mul, round32_16777220,
    round32_16777220]

/-- The faces of the float build at `Segments = 16777220`, `CrossDegrees = 360`:
each band has the faces `j < 16777219`. -/
theorem CSphere.faces_16777220 (M : CMath K) (d : Nat) (Radius Degrees : K) :
    ∃ g : Nat → Nat → List String,
      faces (CSphere.UpdateEntityFloat binary32 M ((16777220 : Nat) : K) Radius (d : K)
          Degrees 360) =
        (List.range d).flatMap fun i =>
          (List.range 16777219).map fun j => (CSphere.fName i j, g i j) := by
  have h360 : ¬ ((360 : K) > 360) := lt_irrefl _
  refine ⟨fun i j => CSphere.upperFace
    (decide ((binary32 : FloatArith K).ofInt ((j : Int) + 1) <
      (binary32 : FloatArith K).add 16777220 ((binary32 : FloatArith K).ofInt 1))) i j, ?_⟩
  rw [CSphere.faces_UpdateEntityFloat, if_neg h360, castInt_natCast, castInt_natCast,
    Int.toNat_ofNat, CSphere.maxPointsFloat_16777220, CSphere.floatLoop_16777220]
  simp only [if_pos]

theorem CSphere.maxPointsFloat_210_108 :
    CSphere.maxPointsFloat (binary32 : FloatArith K) 210 ((108 : Nat) : Int) =
      16515071 / 262144 := by
  show round32 (round32 ((210 : K) / 360) * round32 ((((108 : Nat) : Int) : K))) = _
  have h1 : round32 ((210 : K) / 360) = 9786709 / 16777216 := by
    rw [round32_of_near (-24) 9786709
      (ulpExponent_of_pos (-24) (by norm_num) (by norm_num) (by norm_num)) (by norm_num)
      (by norm_num)]
    norm_num
  have h2 : round32 ((((108 : Nat) : Int) : K)) = 108 := by
    rw [Int.cast_natCast, round32_natCast 108 (by norm_num)]
    norm_num
  rw [h1, h2, round32_of_near (-18) 16515071
    (ulpExponent_of_pos (-18) (by norm_num) (by norm_num) (by norm_num)) (by norm_num)
    (by norm_num)]
  norm_num

theorem CSphere.maxPointsFloat_200_6 :
    CSphere.maxPointsFloat (binary32 : FloatArith K) 200 ((6 : Nat) : Int) =
      6990507 / 2097152 := by
  show round32 (round32 ((200 : K) / 360) * round32 ((((6 : Nat) : Int) : K))) = _
  have h1 : round32 ((200 : K) / 360) = 9320676 / 16777216 := by
    rw [round32_of_near (-24) 9320676
      (ulpExponent_of_pos (-24) (by norm_num) (by norm_num) (by norm_num)) (by norm_num)
      (by norm_num)]
    norm_num
  have h2 : round32 ((((6 : Nat) : Int) : K)) = 6 := by
    rw [Int.cast_natCast, round32_natCast 6 (by norm_num)]
    norm_num
  rw [h1, h2, round32_of_near (-22) 13981014
    (ulpExponent_of_pos (-22) (by norm_num) (by norm_num) (by norm_num)) (by norm_num)
    (by norm_num)]
  norm_num

theorem CSphere.maxPointsFloat_24_45 :
    CSphere.maxPointsFloat (binary32 : FloatArith K) 24 ((45 : Nat) : Int) =
      12582913 / 4194304 := by
  show round32 (round32 ((24 : K) / 360) * round32 ((((45 : Nat) : Int) : K))) = _
  have h1 : round32 ((24 : K) / 360) = 8947849 / 134217728 := by
    rw [round32_of_near (-27) 8947849
      (ulpExponent_of_pos (-27) (by norm_num) (by norm_num) (by norm_num)) (by norm_num)
      (by norm_num)]
    norm_num
  have h2 : round32 ((((45 : Nat) : Int) : K)) = 45 := by
    rw [Int.cast_natCast, round32_natCast 45 (by norm_num)]
    norm_num
  rw [h1, h2, round32_of_near (-22) 12582913
    (ulpExponent_of_pos (-22) (by norm_num) (by norm_num) (by norm_num)) (by norm_num)
    (by norm_num)]
  norm_num

end Binary32Values

/-! ## Sphere: the checked division -/

section Checked

variable {K : Type} [LinearOrderedField K] [FloorRing K]

theorem CSphere.addCircleLoopChecked_eq (M : CMath K) (n : Int) (radius zTheta : K)
    (vertexSetName : Nat) (maxPoints : Int) (l : List Nat) (currPoints : Int) :
    CSphere.addCircleLoopChecked M n radius zTheta vertexSetName maxPoints l currPoints =
      (l.take (maxPoints + 1 - currPoints).toNat).map fun i =>
        (CSphere.vName vertexSetName i, CSphere.circlePointChecked M n radius zTheta i) := by
  induction l generalizing currPoints with
  | nil => simp [CSphere.addCircleLoopChecked]
  | cons i rest ih =>
    unfold CSphere.addCircleLoopChecked
    by_cases h : currPoints ≥ maxPoints + 1
    · have h0 : (maxPoints + 1 - currPoints).toNat = 0 := by omega
      simp [h, h0]
    · have h1 : (maxPoints + 1 - currPoints).toNat =
          (maxPoints + 1 - (currPoints + 1)).toNat + 1 := by omega
      rw [if_neg h, h1, List.take_succ_cons, List.map_cons, ih]

theorem CSphere.addCircleChecked_eq (M : CMath K) (n : Int) (radius zTheta : K)
    (vertexSetName : Nat) (maxPoints : Int) :
    CSphere.addCircleChecked M n radius zTheta vertexSetName maxPoints =
      (List.range (CSphere.ringSize n maxPoints)).map fun i =>
        (CSphere.vName vertexSetName i, CSphere.circlePointChecked M n radius zTheta i) := by
  unfold CSphere.addCircleChecked intBoundRange CSphere.ringSize
  rw [CSphere.addCircleLoopChecked_eq, sub_zero, List.take_range]

/-- Where the division has a value (`n ≠ 0`), the checked position is the
position of `CSphere.circlePoint`. -/
theorem CSphere.circlePointChecked_of_ne (M : CMath K) (n : Int) (hn : n ≠ 0)
    (radius zTheta : K) (i : Nat) :
    CSphere.circlePointChecked M n radius zTheta i =
      some (CSphere.circlePoint M n radius zTheta i) := by
  unfold CSphere.circlePointChecked CSphere.circlePoint
  rw [if_neg hn]

/-- The vertices of the checked build, ring by ring. -/
theorem CSphere.UpdateEntityChecked_eq (M : CMath K)
    (Segments Radius Density Degrees CrossDegrees : K) :
    CSphere.UpdateEntityChecked M Segments Radius Density Degrees CrossDegrees =
      (List.range (castInt Density + 1).toNat).flatMap fun i =>
        (List.range (CSphere.ringSize (castInt Segments)
          (castInt ((if CrossDegrees > 360 then 360 else CrossDegrees) / 360 *
            (castInt Segments : K))))).map fun j =>
          (CSphere.vName i j,
            if castInt Density = 0 then none
            else CSphere.circlePointChecked M (castInt Segments) Radius
              (((i : K) / (castInt Density : K) *
                ((if Degrees > 360 then 360 else Degrees) / 360) * M.M_PI) - M.M_PI / 2) j) := by
  unfold CSphere.UpdateEntityChecked CSphere.addVerticesChecked intBoundRange
  simp only []
  by_cases hd : castInt Density = 0
  · simp only [hd, if_true, CSphere.addCircleChecked_eq, List.map_map]
    rfl
  · simp only [hd, if_false, CSphere.addCircleChecked_eq]

/-- Where both divisions have a value, the checked build has the vertices of
`CSphere.UpdateEntity`. -/
theorem CSphere.UpdateEntityChecked_of_ne (M : CMath K)
    (Segments Radius Density Degrees CrossDegrees : K)
    (hn : castInt Segments ≠ 0) (hd : castInt Density ≠ 0) :
    CSphere.UpdateEntityChecked M Segments Radius Density Degrees CrossDegrees =
      (vertices (CSphere.UpdateEntity M Segments Radius Density Degrees CrossDegrees)).map
        fun q => (q.1, some q.2) := by
  rw [CSphere.UpdateEntityChecked_eq, CSphere.vertices_UpdateEntity, List.map_flatMap]
  simp only [List.map_map, if_neg hd, CSphere.circlePointChecked_of_ne _ _ hn]
  rfl

end Checked

/-! ## Sphere: the float build without rounding -/

section SphereBridge

variable {K : Type} [LinearOrderedField K] [FloorRing K]

theorem CSphere.circlePoint_exactArith (M : CMath K) (n : Int) (radius zTheta : K) (i : Nat) :
    CSphere.circlePointFloat exactArith M n radius zTheta i =
      CSphere.circlePoint M n radius zTheta i := by
  unfold CSphere.circlePointFloat CSphere.circlePoint
  simp only [exactArith, Int.cast_natCast]

theorem CSphere.addCircleLoop_exactArith (M : CMath K) (n : Int) (radius zTheta : K)
    (vertexSetName : Nat) (maxPoints : Int) (l : List Nat) (currPoints : Int) :
    CSphere.addCircleLoopFloat exactArith M n radius zTheta vertexSetName maxPoints l
        currPoints =
      CSphere.addCircleLoop M n radius zTheta vertexSetName maxPoints l currPoints := by
  rw [CSphere.addCircleLoopFloat_eq, CSphere.addCircleLoop_eq]
  simp only [CSphere.circlePoint_exactArith]

theorem CSphere.sphere_addVertices_exactArith (M : CMath K) (n : Int) (radius : K) (density : Int)
    (maxDegrees maxPoints : K) :
    CSphere.addVerticesFloat exactArith M n radius density maxDegrees maxPoints =
      CSphere.addVertices M n radius density maxDegrees maxPoints := by
  unfold CSphere.addVerticesFloat CSphere.addVertices CSphere.addCircleFloat CSphere.addCircle
  simp only [CSphere.addCircleLoop_exactArith]
  simp only [exactArith, Int.cast_natCast]

theorem CSphere.floatLoop_exactArith (bound : K) (h31 : bound ≤ 2 ^ 31) :
    CSphere.floatLoop (exactArith : FloatArith K) bound (2 ^ 31) 0 = floatBoundRange bound := by
  have hc : ⌈bound⌉₊ ≤ 2 ^ 31 := by
    rw [Nat.ceil_le]
    exact_mod_cast h31
  rw [CSphere.floatLoop_of_exact _ _ (fun j _ => by simp [exactArith]) hc]
  simp [floatBoundRange, Int.ceil_toNat]

/-- Without rounding, and with `maxPoints` within the range of `int`, the float
build is the build in exact arithmetic. -/
theorem CSphere.sphere_UpdateEntity_exactArith (M : CMath K)
    (Segments Radius Density Degrees CrossDegrees : K)
    (h31 : (if CrossDegrees > 360 then 360 else CrossDegrees) / 360 *
      ((castInt Segments : Int) : K) ≤ 2 ^ 31) :
    CSphere.UpdateEntityFloat exactArith M Segments Radius Density Degrees CrossDegrees =
      CSphere.UpdateEntity M Segments Radius Density Degrees CrossDegrees := by
  unfold CSphere.UpdateEntityFloat CSphere.UpdateEntity
  simp only [CSphere.sphere_addVertices_exactArith]
  have hmp : CSphere.maxPointsFloat (exactArith : FloatArith K)
      (if CrossDegrees > 360 then 360 else CrossDegrees) (castInt Segments) =
      (if CrossDegrees > 360 then 360 else CrossDegrees) / 360 *
        ((castInt Segments : Int) : K) := rfl
  have hdiv : (exactArith : FloatArith K).div (if Degrees > 360 then 360 else Degrees) 360 =
      (if Degrees > 360 then 360 else Degrees) / 360 := rfl
  rw [hmp, hdiv]
  congr 1
  unfold CSphere.addFacesFloat CSphere.addFaces
  rw [CSphere.floatLoop_exactArith _ h31]
  simp only [exactArith, Int.cast_add, Int.cast_natCast, Int.cast_one]

end SphereBridge

section SphereFloatClaims

variable {K : Type} [LinearOrderedField K] [FloorRing K]

/-- C4, as the code has it. Sphere face count, closed case: in binary32
arithmetic, for whole-number `Segments = n ≤ 2^24` and `Density = d` (an
`int`), with `CrossDegrees = 360` (and any `Degrees`, in particular `360`),
`CSphere::UpdateEntity` makes exactly `d * n` calls of `AddFace`. -/
theorem CSphere.closed_face_count (M : CMath K) (n d : Nat) (hn : n ≤ 2 ^ 24)
    (hd : d < 2 ^ 31) (Radius Degrees : K) :
    (faces (CSphere.UpdateEntityFloat binary32 M (n : K) Radius (d : K) Degrees 360)).length =
      d * n := by
  rw [CSphere.faces_closed_float M n d hn Radius Degrees, length_grid, List.length_range,
    List.length_range]

/-- C5, as the code has it. Sphere vertex grid: in binary32 arithmetic, for
whole-number `Segments = n` and `Density = d` (both `int`s) and
`CrossDegrees = phi` in `(0, 360]`, the names passed to `AddVertex` are, in
order, `v<i>_<j>` for `0 ≤ i ≤ d` and `0 ≤ j ≤ min(n, maxPoints)`, where
`maxPoints` is the cast `(int)` of the float `maxCrossDegrees * n` the code
computes; no name occurs twice, there are `(d + 1) * (min(n, maxPoints) + 1)`
of them, and `maxPoints ≤ n` when `n ≤ 2^24`.  In exact arithmetic the float is
`(phi / 360) * n` and `maxPoints = ⌊(phi / 360) * n⌋`. -/
theorem CSphere.vertex_grid (M : CMath K) (n d : Nat) (hn : n < 2 ^ 31) (hd : d + 1 < 2 ^ 31)
    (Radius Degrees phi : K) (h0 : 0 < phi) (h360 : phi ≤ 360) :
    vertexNames (CSphere.UpdateEntityFloat binary32 M (n : K) Radius (d : K) Degrees phi) =
        ((List.range (d + 1)).flatMap fun i =>
          (List.range
            (min n ⌊CSphere.maxPointsFloat (binary32 : FloatArith K) phi (n : Int)⌋₊ + 1)).map
            fun j => CSphere.vName i j) ∧
      (vertexNames
        (CSphere.UpdateEntityFloat binary32 M (n : K) Radius (d : K) Degrees phi)).Nodup ∧
      (vertexNames
        (CSphere.UpdateEntityFloat binary32 M (n : K) Radius (d : K) Degrees phi)).length =
        (d + 1) *
          (min n ⌊CSphere.maxPointsFloat (binary32 : FloatArith K) phi (n : Int)⌋₊ + 1) ∧
      (n ≤ 2 ^ 24 →
        ⌊CSphere.maxPointsFloat (binary32 : FloatArith K) phi (n : Int)⌋₊ ≤ n) ∧
      vertexNames (CSphere.UpdateEntity M (n : K) Radius (d : K) Degrees phi) =
        ((List.range (d + 1)).flatMap fun i =>
          (List.range (⌊phi / 360 * (n : K)⌋₊ + 1)).map fun j => CSphere.vName i j) := by
  have hgrid := CSphere.vertexNames_float M n d Radius Degrees phi h0.le h360
  refine ⟨hgrid, ?_, ?_, ?_, (CSphere.vertex_names_exact M n d Radius Degrees phi h0 h360).1⟩
  · rw [hgrid]
    exact nodup_grid CSphere.vName (fun _ _ _ _ h => CSphere.sphere_vName_inj h) _ _
      (List.nodup_range _) (fun _ => List.nodup_range _)
  · rw [hgrid, length_grid, List.length_range, List.length_range]
  · intro h24
    have := Nat.floor_le_floor (CSphere.maxPointsFloat_le n h24 phi h360)
    rwa [Nat.floor_natCast] at this

/-- C12, as the code has it. Sphere open strip width: in binary32 arithmetic,
for whole-number `Segments = n ≤ 2^24` and `Density = d` (an `int`) and
`CrossDegrees = phi < 360`, the number of four-vertex faces is
`d * (⌈maxPoints⌉ - 1)`, where `maxPoints` is the float `maxCrossDegrees * n`
the code computes.  In exact arithmetic the float is `(phi / 360) * n`, and
the number is `d * (m - 1)` when `(phi / 360) * n` is a whole number `m`, and
`d * ⌊(phi / 360) * n⌋` when it is not. -/
theorem CSphere.open_strip_width (M : CMath K) (n d : Nat) (hn : n ≤ 2 ^ 24)
    (hd : d < 2 ^ 31) (Radius Degrees phi : K) (h360 : phi < 360) :
    (fourVertexFaces
        (CSphere.UpdateEntityFloat binary32 M (n : K) Radius (d : K) Degrees phi)).length =
        d * (⌈CSphere.maxPointsFloat (binary32 : FloatArith K) phi (n : Int)⌉₊ - 1) ∧
      (fourVertexFaces (CSphere.UpdateEntity M (n : K) Radius (d : K) Degrees phi)).length =
        d * (⌈phi / 360 * (n : K)⌉₊ - 1) ∧
      (∀ m : Nat, phi / 360 * (n : K) = (m : K) →
        (fourVertexFaces (CSphere.UpdateEntity M (n : K) Radius (d : K) Degrees phi)).length =
          d * (m - 1)) ∧
      ((∀ m : Nat, phi / 360 * (n : K) ≠ (m : K)) →
        (fourVertexFaces (CSphere.UpdateEntity M (n : K) Radius (d : K) Degrees phi)).length =
          d * ⌊phi / 360 * (n : K)⌋₊) :=
  ⟨CSphere.open_quads_float M n d hn Radius Degrees phi h360,
    CSphere.open_quads_exact M n d Radius Degrees phi h360⟩

end SphereFloatClaims

section SphereRealClaims

/-- Every position of `CSphere.circlePoint` in exact real arithmetic lies on
the sphere of radius `|radius|`. -/
theorem CSphere.circlePoint_on_sphere (n : Int) (radius zTheta : ℝ) (i : Nat) :
    (CSphere.circlePoint ⟨Real.pi, Real.cos, Real.sin, Real.sinh, Real.cosh, Real.sqrt⟩
        n radius zTheta i).x ^ 2 +
      (CSphere.circlePoint ⟨Real.pi, Real.cos, Real.sin, Real.sinh, Real.cosh, Real.sqrt⟩
        n radius zTheta i).y ^ 2 +
      (CSphere.circlePoint ⟨Real.pi, Real.cos, Real.sin, Real.sinh, Real.cosh, Real.sqrt⟩
        n radius zTheta i).z ^ 2 = radius ^ 2 := by
  simp only [CSphere.circlePoint]
  have h1 := Real.cos_sq_add_sin_sq zTheta
  have h2 := Real.cos_sq_add_sin_sq ((i : ℝ) / (n : ℝ) * 2 * Real.pi)
  set cz := Real.cos zTheta
  set sz := Real.sin zTheta
  set ct := Real.cos ((i : ℝ) / (n : ℝ) * 2 * Real.pi)
  set st := Real.sin ((i : ℝ) / (n : ℝ) * 2 * Real.pi)
  have e : (radius * cz * ct) ^ 2 + (radius * cz * st) ^ 2 + (radius * sz) ^ 2 =
      radius ^ 2 * (cz ^ 2 * (ct ^ 2 + st ^ 2) + sz ^ 2) := by ring
  rw [e, h2, mul_one, h1, mul_one]

/-- C6, as the code has it. Sphere radius: in exact real arithmetic, for every
input whose `Segments` and `Density` are not zero as `int`s, every vertex the
build adds has a position `(x, y, z)` with `x² + y² + z² = Radius²`, that is,
it lies at distance `|Radius|` from the origin.  (At `Segments = 0` the
quotient `(float)i / n`, and at `Density = 0` the quotient
`(float)i / density`, is `0 / 0` and has no value.) -/
theorem CSphere.vertex_on_sphere (Segments Radius Density Degrees CrossDegrees : ℝ)
    (hn : castInt Segments ≠ 0) (hd : castInt Density ≠ 0)
    (name : String) (pos : Option (Vector3 ℝ))
    (h : (name, pos) ∈ CSphere.UpdateEntityChecked
      ⟨Real.pi, Real.cos, Real.sin, Real.sinh, Real.cosh, Real.sqrt⟩
      Segments Radius Density Degrees CrossDegrees) :
    ∃ p : Vector3 ℝ, pos = some p ∧
      (name, p) ∈ vertices (CSphere.UpdateEntity
        ⟨Real.pi, Real.cos, Real.sin, Real.sinh, Real.cosh, Real.sqrt⟩
        Segments Radius Density Degrees CrossDegrees) ∧
      p.x ^ 2 + p.y ^ 2 + p.z ^ 2 = Radius ^ 2 ∧
      Real.sqrt (p.x ^ 2 + p.y ^ 2 + p.z ^ 2) = |Radius| := by
  rw [CSphere.UpdateEntityChecked_of_ne _ _ _ _ _ _ hn hd] at h
  obtain ⟨q, hq, hEq⟩ := List.mem_map.1 h
  obtain ⟨e1, e2⟩ := Prod.mk.inj hEq
  have hq2 : (name, q.2) ∈ vertices (CSphere.UpdateEntity
      ⟨Real.pi, Real.cos, Real.sin, Real.sinh, Real.cosh, Real.sqrt⟩
      Segments Radius Density Degrees CrossDegrees) := by
    rw [← e1]
    exact hq
  have key : q.2.x ^ 2 + q.2.y ^ 2 + q.2.z ^ 2 = Radius ^ 2 := by
    rw [CSphere.vertices_UpdateEntity, List.mem_flatMap] at hq
    obtain ⟨i, -, hi⟩ := hq
    obtain ⟨j, -, hj⟩ := List.mem_map.1 hi
    rw [← hj]
    exact CSphere.circlePoint_on_sphere _ _ _ _
  exact ⟨q.2, e2.symm, hq2, key, by rw [key, Real.sqrt_sq_eq_abs]⟩

/-- C19, as the code has it. Sphere seam is a duplicated column, not a wrapped
index: for `CrossDegrees = 360`, whole-number `Segments = n` with
`1 ≤ n < 2^24`, `Density = d ≥ 1` (an `int`) and every ring `i ≤ d`, the
vertices `v<i>_0` and `v<i>_<n>` have two distinct names and, in exact real
arithmetic, one and the same position (`theta = 0` and `theta = 2π`); in
binary32 arithmetic both are added, and the last quad of band `i < d`,
`f1_<i>_<n-1>`, lists `v<i>_<n>`, `v<i>_<n-1>`, `v<i+1>_<n-1>`, `v<i+1>_<n>`:
it refers to column `n`, not to column `0`. -/
theorem CSphere.seam_duplicate_column (n d : Nat) (hn : 1 ≤ n) (hn24 : n < 2 ^ 24)
    (hd1 : 1 ≤ d) (hd : d + 1 < 2 ^ 31) (Radius Degrees : ℝ) (i : Nat) (hi : i ≤ d) :
    (∃ p : Vector3 ℝ,
      (CSphere.vName i 0, p) ∈ vertices (CSphere.UpdateEntity
        ⟨Real.pi, Real.cos, Real.sin, Real.sinh, Real.cosh, Real.sqrt⟩
        (n : ℝ) Radius (d : ℝ) Degrees 360) ∧
      (CSphere.vName i n, p) ∈ vertices (CSphere.UpdateEntity
        ⟨Real.pi, Real.cos, Real.sin, Real.sinh, Real.cosh, Real.sqrt⟩
        (n : ℝ) Radius (d : ℝ) Degrees 360)) ∧
      CSphere.vName i 0 ≠ CSphere.vName i n ∧
      CSphere.vName i 0 ∈ vertexNames (CSphere.UpdateEntityFloat binary32
        ⟨Real.pi, Real.cos, Real.sin, Real.sinh, Real.cosh, Real.sqrt⟩
        (n : ℝ) Radius (d : ℝ) Degrees 360) ∧
      CSphere.vName i n ∈ vertexNames (CSphere.UpdateEntityFloat binary32
        ⟨Real.pi, Real.cos, Real.sin, Real.sinh, Real.cosh, Real.sqrt⟩
        (n : ℝ) Radius (d : ℝ) Degrees 360) ∧
      (i < d →
        (CSphere.fName i (n - 1),
          [CSphere.vName i n, CSphere.vName i (n - 1), CSphere.vName (i + 1) (n - 1),
            CSphere.vName (i + 1) n]) ∈ faces (CSphere.UpdateEntityFloat binary32
              ⟨Real.pi, Real.cos, Real.sin, Real.sinh, Real.cosh, Real.sqrt⟩
              (n : ℝ) Radius (d : ℝ) Degrees 360)) := by
  obtain ⟨p, h1, h2, h3, -⟩ := CSphere.seam_exact n d hn Radius Degrees i hi
  have hmp := @CSphere.maxPointsFloat_closed ℝ _ _ n hn24.le
  have hnames := CSphere.vertexNames_float
    (⟨Real.pi, Real.cos, Real.sin, Real.sinh, Real.cosh, Real.sqrt⟩ : CMath ℝ) n d Radius Degrees
    360 (by norm_num) (le_refl _)
  rw [hmp, Nat.floor_natCast, min_self] at hnames
  refine ⟨⟨p, h1, h2⟩, h3, ?_, ?_, ?_⟩
  · rw [hnames, List.mem_flatMap]
    exact ⟨i, List.mem_range.2 (by omega),
      List.mem_map.2 ⟨0, List.mem_range.2 (by omega), rfl⟩⟩
  · rw [hnames, List.mem_flatMap]
    exact ⟨i, List.mem_range.2 (by omega),
      List.mem_map.2 ⟨n, List.mem_range.2 (by omega), rfl⟩⟩
  · intro hid
    rw [CSphere.faces_closed_float _ n d hn24.le Radius Degrees, List.mem_flatMap]
    refine ⟨i, List.mem_range.2 hid,
      List.mem_map.2 ⟨n - 1, List.mem_range.2 (by omega), ?_⟩⟩
    have e : n - 1 + 1 = n := by omega
    have hg : (binary32 : FloatArith ℝ).ofInt (((n - 1 : Nat) : Int) + 1) <
        (binary32 : FloatArith ℝ).add (n : ℝ) ((binary32 : FloatArith ℝ).ofInt 1) := by
      have e2 : (((n - 1 : Nat) : Int) + 1) = ((n : Nat) : Int) := by omega
      rw [e2, binary32_ofInt_natCast n hn24.le]
      show (n : ℝ) < round32 ((n : ℝ) + round32 (((1 : Int) : ℝ)))
      rw [Int.cast_one, round32_one]
      have h := @round32_natCast ℝ _ _ (n + 1) (by omega)
      push_cast at h
      rw [h]
      linarith
    rw [decide_eq_true hg]
    simp only [CSphere.upperFace, if_true, e, List.singleton_append, List.cons_append,
      List.nil_append]

end SphereRealClaims

section SphereFloatScenarios

theorem CSphere.closed_face_count_counterexample :
    (faces (CSphere.UpdateEntityFloat binary32
        (⟨Real.pi, Real.cos, Real.sin, Real.sinh, Real.cosh, Real.sqrt⟩ : CMath ℝ)
        ((16777220 : Nat) : ℝ) 2 ((1 : Nat) : ℝ) 360 360)).length = 16777219 ∧
      16777219 ≠ 1 * 16777220 := by
  obtain ⟨g, hg⟩ := CSphere.faces_16777220
    (⟨Real.pi, Real.cos, Real.sin, Real.sinh, Real.cosh, Real.sqrt⟩ : CMath ℝ) 1 2 360
  rw [hg, length_grid, List.length_range, List.length_range]
  exact ⟨by norm_num, by norm_num⟩

theorem CSphere.closed_face_count_witness :
    (6 : Nat) ≤ 2 ^ 24 ∧ (4 : Nat) < 2 ^ 31 ∧
      (faces (CSphere.UpdateEntityFloat binary32 ratMath ((6 : Nat) : ℚ) 2 ((4 : Nat) : ℚ)
        360 360)).length = 4 * 6 :=
  ⟨by norm_num, by norm_num,
    CSphere.closed_face_count ratMath 6 4 (by norm_num) (by norm_num) 2 360⟩

theorem CSphere.vertex_grid_counterexample :
    (vertexNames (CSphere.UpdateEntityFloat binary32
        (⟨Real.pi, Real.cos, Real.sin, Real.sinh, Real.cosh, Real.sqrt⟩ : CMath ℝ)
        ((108 : Nat) : ℝ) 2 ((1 : Nat) : ℝ) 360 210)).length = 126 ∧
      (1 + 1) * (⌊(210 : ℝ) / 360 * 108⌋₊ + 1) = 128 := by
  have hfl : ⌊(210 : ℝ) / 360 * 108⌋₊ = 63 := by
    rw [show (210 : ℝ) / 360 * 108 = ((63 : Nat) : ℝ) by norm_num, Nat.floor_natCast]
  have hm : ⌊CSphere.maxPointsFloat (binary32 : FloatArith ℝ) 210 ((108 : Nat) : Int)⌋₊ = 62 := by
    rw [CSphere.maxPointsFloat_210_108, Nat.floor_eq_iff (by norm_num)]
    constructor <;> norm_num
  have h := CSphere.vertexNames_float
    (⟨Real.pi, Real.cos, Real.sin, Real.sinh, Real.cosh, Real.sqrt⟩ : CMath ℝ) 108 1 2 360 210
    (by norm_num) (by norm_num)
  rw [hm] at h
  rw [h, length_grid, List.length_range, List.length_range, hfl]
  exact ⟨by norm_num, by norm_num⟩

theorem CSphere.vertex_grid_witness :
    (108 : Nat) < 2 ^ 31 ∧ (1 : Nat) + 1 < 2 ^ 31 ∧ (0 : ℝ) < 210 ∧ (210 : ℝ) ≤ 360 ∧
      (vertexNames (CSphere.UpdateEntityFloat binary32
        (⟨Real.pi, Real.cos, Real.sin, Real.sinh, Real.cosh, Real.sqrt⟩ : CMath ℝ)
        ((108 : Nat) : ℝ) 2 ((1 : Nat) : ℝ) 360 210)).length = (1 + 1) * (62 + 1) := by
  have hm : ⌊CSphere.maxPointsFloat (binary32 : FloatArith ℝ) 210 ((108 : Nat) : Int)⌋₊ = 62 := by
    rw [CSphere.maxPointsFloat_210_108, Nat.floor_eq_iff (by norm_num)]
    constructor <;> norm_num
  have h := (CSphere.vertex_grid
    (⟨Real.pi, Real.cos, Real.sin, Real.sinh, Real.cosh, Real.sqrt⟩ : CMath ℝ) 108 1
    (by norm_num) (by norm_num) 2 360 210 (by norm_num) (by norm_num)).2.2.1
  rw [hm] at h
  exact ⟨by norm_num, by norm_num, by norm_num, by norm_num, h⟩

theorem CSphere.open_strip_width_counterexample :
    1 ≤ ⌊(200 : ℝ) / 360 * 6⌋₊ ∧
      (fourVertexFaces (CSphere.UpdateEntityFloat binary32
        (⟨Real.pi, Real.cos, Real.sin, Real.sinh, Real.cosh, Real.sqrt⟩ : CMath ℝ)
        ((6 : Nat) : ℝ) 2 ((4 : Nat) : ℝ) 360 200)).length = 12 ∧
      12 ≠ 4 * (⌊(200 : ℝ) / 360 * 6⌋₊ - 1) := by
  have hfl : ⌊(200 : ℝ) / 360 * 6⌋₊ = 3 := by
    rw [Nat.floor_eq_iff (by norm_num)]
    constructor <;> norm_num
  have hce : ⌈CSphere.maxPointsFloat (binary32 : FloatArith ℝ) 200 ((6 : Nat) : Int)⌉₊ = 4 := by
    rw [CSphere.maxPointsFloat_200_6, Nat.ceil_eq_iff (by norm_num)]
    constructor <;> norm_num
  have hq := CSphere.open_quads_float
    (⟨Real.pi, Real.cos, Real.sin, Real.sinh, Real.cosh, Real.sqrt⟩ : CMath ℝ) 6 4
    (by norm_num) 2 360 200 (by norm_num)
  rw [hce] at hq
  rw [hfl, hq]
  exact ⟨by norm_num, by norm_num, by norm_num⟩

theorem CSphere.open_strip_width_witness :
    (45 : Nat) ≤ 2 ^ 24 ∧ (1 : Nat) < 2 ^ 31 ∧ (24 : ℝ) < 360 ∧
      (24 : ℝ) / 360 * ((45 : Nat) : ℝ) = ((3 : Nat) : ℝ) ∧
      (fourVertexFaces (CSphere.UpdateEntityFloat binary32
        (⟨Real.pi, Real.cos, Real.sin, Real.sinh, Real.cosh, Real.sqrt⟩ : CMath ℝ)
        ((45 : Nat) : ℝ) 2 ((1 : Nat) : ℝ) 360 24)).length = 1 * (4 - 1) ∧
      (fourVertexFaces (CSphere.UpdateEntity
        (⟨Real.pi, Real.cos, Real.sin, Real.sinh, Real.cosh, Real.sqrt⟩ : CMath ℝ)
        ((45 : Nat) : ℝ) 2 ((1 : Nat) : ℝ) 360 24)).length = 1 * (3 - 1) := by
  have hce : ⌈CSphere.maxPointsFloat (binary32 : FloatArith ℝ) 24 ((45 : Nat) : Int)⌉₊ = 4 := by
    rw [CSphere.maxPointsFloat_24_45, Nat.ceil_eq_iff (by norm_num)]
    constructor <;> norm_num
  have h := CSphere.open_strip_width
    (⟨Real.pi, Real.cos, Real.sin, Real.sinh, Real.cosh, Real.sqrt⟩ : CMath ℝ) 45 1
    (by norm_num) (by norm_num) 2 360 24 (by norm_num)
  have h1 := h.1
  rw [hce] at h1
  exact ⟨by norm_num, by norm_num, by norm_num, by norm_num, h1, h.2.2.1 3 (by norm_num)⟩

theorem CSphere.vertex_on_sphere_counterexample :
    (CSphere.vName 0 0, none) ∈ CSphere.UpdateEntityChecked
        (⟨Real.pi, Real.cos, Real.sin, Real.sinh, Real.cosh, Real.sqrt⟩ : CMath ℝ)
        ((0 : Nat) : ℝ) 2 ((4 : Nat) : ℝ) 360 360 ∧
      (CSphere.vName 0 0, none) ∈ CSphere.UpdateEntityChecked
        (⟨Real.pi, Real.cos, Real.sin, Real.sinh, Real.cosh, Real.sqrt⟩ : CMath ℝ)
        ((6 : Nat) : ℝ) 2 ((0 : Nat) : ℝ) 360 360 ∧
      ¬ ∀ q ∈ CSphere.UpdateEntityChecked
          (⟨Real.pi, Real.cos, Real.sin, Real.sinh, Real.cosh, Real.sqrt⟩ : CMath ℝ)
          ((0 : Nat) : ℝ) 2 ((4 : Nat) : ℝ) 360 360,
        ∃ p : Vector3 ℝ, q.2 = some p ∧ p.x ^ 2 + p.y ^ 2 + p.z ^ 2 = (2 : ℝ) ^ 2 := by
  have hmem : (CSphere.vName 0 0, none) ∈ CSphere.UpdateEntityChecked
      (⟨Real.pi, Real.cos, Real.sin, Real.sinh, Real.cosh, Real.sqrt⟩ : CMath ℝ)
      ((0 : Nat) : ℝ) 2 ((4 : Nat) : ℝ) 360 360 := by
    rw [CSphere.UpdateEntityChecked_eq, List.mem_flatMap]
    simp only [castInt_natCast]
    refine ⟨0, List.mem_range.2 (by decide), List.mem_map.2 ⟨0, List.mem_range.2 ?_, ?_⟩⟩
    · have e : ((if (360 : ℝ) > 360 then 360 else 360) / 360 * (((0 : Nat) : Int) : ℝ)) =
          ((0 : Nat) : ℝ) := by norm_num
      rw [e, castInt_natCast]
      decide
    · rw [if_neg (by decide)]
      rfl
  have hmem2 : (CSphere.vName 0 0, none) ∈ CSphere.UpdateEntityChecked
      (⟨Real.pi, Real.cos, Real.sin, Real.sinh, Real.cosh, Real.sqrt⟩ : CMath ℝ)
      ((6 : Nat) : ℝ) 2 ((0 : Nat) : ℝ) 360 360 := by
    rw [CSphere.UpdateEntityChecked_eq, List.mem_flatMap]
    simp only [castInt_natCast]
    refine ⟨0, List.mem_range.2 (by decide), List.mem_map.2 ⟨0, List.mem_range.2 ?_, ?_⟩⟩
    · have e : ((if (360 : ℝ) > 360 then 360 else 360) / 360 * (((6 : Nat) : Int) : ℝ)) =
          ((6 : Nat) : ℝ) := by norm_num
      rw [e, castInt_natCast]
      decide
    · rw [if_pos (by decide)]
  refine ⟨hmem, hmem2, fun hall => ?_⟩
  obtain ⟨p, hp, -⟩ := hall _ hmem
  exact absurd hp (by simp)

theorem CSphere.vertex_on_sphere_witness :
    castInt (((6 : Nat) : ℝ)) ≠ 0 ∧ castInt (((4 : Nat) : ℝ)) ≠ 0 ∧
      ∃ p : Vector3 ℝ,
        (CSphere.vName 0 0, p) ∈ vertices (CSphere.UpdateEntity
          ⟨Real.pi, Real.cos, Real.sin, Real.sinh, Real.cosh, Real.sqrt⟩
          ((6 : Nat) : ℝ) 2 ((4 : Nat) : ℝ) 360 360) ∧
        p.x ^ 2 + p.y ^ 2 + p.z ^ 2 = (2 : ℝ) ^ 2 := by
  have hn : castInt (((6 : Nat) : ℝ)) ≠ 0 := by rw [castInt_natCast]; decide
  have hd : castInt (((4 : Nat) : ℝ)) ≠ 0 := by rw [castInt_natCast]; decide
  have hmem : (CSphere.vName 0 0,
      some (CSphere.circlePoint
        (⟨Real.pi, Real.cos, Real.sin, Real.sinh, Real.cosh, Real.sqrt⟩ : CMath ℝ)
        (castInt (((6 : Nat) : ℝ))) 2
        ((((0 : Nat) : ℝ)) / ((castInt (((4 : Nat) : ℝ)) : Int) : ℝ) *
          ((if (360 : ℝ) > 360 then 360 else 360) / 360) * Real.pi - Real.pi / 2) 0)) ∈
      CSphere.UpdateEntityChecked
        (⟨Real.pi, Real.cos, Real.sin, Real.sinh, Real.cosh, Real.sqrt⟩ : CMath ℝ)
        ((6 : Nat) : ℝ) 2 ((4 : Nat) : ℝ) 360 360 := by
    rw [CSphere.UpdateEntityChecked_eq, List.mem_flatMap]
    refine ⟨0, List.mem_range.2 (by rw [castInt_natCast]; decide),
      List.mem_map.2 ⟨0, List.mem_range.2 ?_, ?_⟩⟩
    · have e : ((if (360 : ℝ) > 360 then 360 else 360) / 360 *
          ((castInt (((6 : Nat) : ℝ)) : Int) : ℝ)) = ((6 : Nat) : ℝ) := by
        rw [castInt_natCast]
        norm_num
      rw [e, castInt_natCast]
      decide
    · rw [if_neg hd, CSphere.circlePointChecked_of_ne _ _ hn]
  obtain ⟨p, -, h2, h3, -⟩ := CSphere.vertex_on_sphere ((6 : Nat) : ℝ) 2 ((4 : Nat) : ℝ)
    360 360 hn hd _ _ hmem
  exact ⟨hn, hd, p, h2, h3⟩

theorem CSphere.seam_duplicate_column_counterexample :
    (1 : Nat) ≤ 16777220 ∧ (0 : Nat) < 1 ∧
      ∀ face : List String,
        (CSphere.fName 0 (16777220 - 1), face) ∉ faces (CSphere.UpdateEntityFloat binary32
          (⟨Real.pi, Real.cos, Real.sin, Real.sinh, Real.cosh, Real.sqrt⟩ : CMath ℝ)
          ((16777220 : Nat) : ℝ) 2 ((1 : Nat) : ℝ) 360 360) := by
  refine ⟨by norm_num, by norm_num, fun face hmem => ?_⟩
  obtain ⟨g, hg⟩ := CSphere.faces_16777220
    (⟨Real.pi, Real.cos, Real.sin, Real.sinh, Real.cosh, Real.sqrt⟩ : CMath ℝ) 1 2 360
  rw [hg, List.mem_flatMap] at hmem
  obtain ⟨i, -, hmem⟩ := hmem
  obtain ⟨j, hj, hEq⟩ := List.mem_map.1 hmem
  rw [List.mem_range] at hj
  have := (CSphere.sphere_fName_inj (Prod.mk.inj hEq).1).2
  omega

theorem CSphere.seam_duplicate_column_witness :
    (1 : Nat) ≤ 6 ∧ (6 : Nat) < 2 ^ 24 ∧ (1 : Nat) ≤ 4 ∧
      (CSphere.fName 0 (6 - 1),
        [CSphere.vName 0 6, CSphere.vName 0 (6 - 1), CSphere.vName (0 + 1) (6 - 1),
          CSphere.vName (0 + 1) 6]) ∈ faces (CSphere.UpdateEntityFloat binary32
            ⟨Real.pi, Real.cos, Real.sin, Real.sinh, Real.cosh, Real.sqrt⟩
            ((6 : Nat) : ℝ) 2 ((4 : Nat) : ℝ) 360 360) :=
  ⟨by norm_num, by norm_num, by norm_num,
    (CSphere.seam_duplicate_column 6 4 (by norm_num) (by norm_num) (by norm_num) (by norm_num)
      2 360 0 (by norm_num)).2.2.2.2 (by norm_num)⟩

end SphereFloatScenarios

/-! ## Hyperboloid: the float loops -/

section HyperboloidFloat

variable {K : Type} [LinearOrderedField K] [FloorRing K]

end HyperboloidFloat

section HyperboloidBridge

variable {K : Type} [LinearOrderedField K] [FloorRing K]

theorem CHyperboloid.vLoop_exactArith (M : CMath K) (vIncrement : K) (uCounter : Nat)
    (suffix : String) (point : K → Vector3 K) (fuel : Nat) :
    ∀ (v : K) (vCounter : Nat),
    CHyperboloid.vLoopFloat exactArith M vIncrement uCounter suffix point fuel v vCounter =
      CHyperboloid.vLoop M vIncrement uCounter suffix point fuel v vCounter := by
  induction fuel with
  | zero => intro v vCounter; rfl
  | succ fuel ih =>
    intro v vCounter
    unfold CHyperboloid.vLoopFloat CHyperboloid.vLoop
    rw [ih]
    rfl

theorem CHyperboloid.uLoop_exactArith (M : CMath K) (vIncrement : K) (suffix : String)
    (guard : K → Bool) (next : K → K) (point : K → K → Vector3 K) (vFuel : Nat) (fuel : Nat) :
    ∀ (u : K) (uCounter vCounter : Nat),
    CHyperboloid.uLoopFloat exactArith M vIncrement suffix guard next point vFuel fuel u
        uCounter vCounter =
      CHyperboloid.uLoop M vIncrement suffix guard next point vFuel fuel u uCounter vCounter := by
  induction fuel with
  | zero => intro u uCounter vCounter; rfl
  | succ fuel ih =>
    intro u uCounter vCounter
    unfold CHyperboloid.uLoopFloat CHyperboloid.uLoop
    rw [CHyperboloid.vLoop_exactArith]
    simp only [ih]

/-- Without rounding, the float build is the build in exact arithmetic. -/
theorem CHyperboloid.UpdateEntity_exactArith (M : CMath K) (fuel : Nat)
    (A C UMax UIncrement VIncrement Sheet : K) :
    CHyperboloid.UpdateEntityFloat exactArith M fuel A C UMax UIncrement VIncrement Sheet =
      CHyperboloid.UpdateEntity M fuel A C UMax UIncrement VIncrement Sheet := by
  unfold CHyperboloid.UpdateEntityFloat CHyperboloid.UpdateEntity
    CHyperboloid.addVerticesFloat CHyperboloid.addVertices
  simp only [CHyperboloid.uLoop_exactArith]
  rfl

end HyperboloidBridge

/-! ## Hyperboloid: every returning build -/

section HyperboloidLoopValues

variable {K : Type} [LinearOrderedField K] [FloorRing K]

theorem loopSamples_zero (guard : K → Bool) (next : K → K) (x : K) :
    loopSamples guard next 0 x = if guard x then none else some [] :=
  rfl

theorem loopSamples_succ (guard : K → Bool) (next : K → K) (fuel : Nat) (x : K) :
    loopSamples guard next (fuel + 1) x =
      if guard x then (loopSamples guard next fuel (next x)).map fun xs => x :: xs
      else some [] :=
  rfl

/-- What a `v` loop returns, from the values its loop variable takes. -/
theorem CHyperboloid.vLoopFloat_samples (F : FloatArith K) (M : CMath K) (vIncrement : K)
    (uCounter : Nat) (suffix : String) (point : K → Vector3 K) (fuel : Nat) :
    ∀ (v : K) (vCounter : Nat),
    CHyperboloid.vLoopFloat F M vIncrement uCounter suffix point fuel v vCounter =
      (loopSamples (fun v => decide (v < F.add (F.mul 2 M.M_PI) (F.div vIncrement 5)))
          (fun v => F.add v vIncrement) fuel v).map
        fun vs => (CHyperboloid.ringOf uCounter suffix point vCounter vs,
          vCounter + vs.length) := by
  induction fuel with
  | zero =>
    intro v vCounter
    unfold CHyperboloid.vLoopFloat
    rw [loopSamples_zero]
    by_cases hg : v < F.add (F.mul 2 M.M_PI) (F.div vIncrement 5)
    · simp [hg]
    · simp [hg, CHyperboloid.ringOf]
  | succ fuel ih =>
    intro v vCounter
    unfold CHyperboloid.vLoopFloat
    rw [loopSamples_succ]
    by_cases hg : v < F.add (F.mul 2 M.M_PI) (F.div vIncrement 5)
    · rw [if_pos hg, if_pos (decide_eq_true hg), ih]
      cases loopSamples (fun v => decide (v < F.add (F.mul 2 M.M_PI) (F.div vIncrement 5)))
          (fun v => F.add v vIncrement) fuel (F.add v vIncrement) with
      | none => rfl
      | some xs =>
        simp only [Option.map_some', CHyperboloid.ringOf, List.length_cons, Option.some.injEq,
          Prod.mk.injEq, true_and]
        omega
    · rw [if_neg hg, if_neg (by simpa using hg)]
      simp [CHyperboloid.ringOf]

/-- What a `u` loop returns, from the values its loop variables take. -/
theorem CHyperboloid.uLoopFloat_samples (F : FloatArith K) (M : CMath K) (vIncrement : K) (suffix : String)
    (guard : K → Bool) (next : K → K) (point : K → K → Vector3 K) (vFuel : Nat) (fuel : Nat) :
    ∀ (u : K) (uCounter vCounter : Nat),
    CHyperboloid.uLoopFloat F M vIncrement suffix guard next point vFuel fuel u uCounter vCounter =
      match loopSamples guard next fuel u with
      | none => none
      | some [] => some ([], uCounter, vCounter)
      | some (u1 :: us) =>
        match loopSamples (fun v => decide (v < F.add (F.mul 2 M.M_PI) (F.div vIncrement 5)))
            (fun v => F.add v vIncrement) vFuel 0 with
        | none => none
        | some vs =>
          some (CHyperboloid.gridOf suffix point vs uCounter (u1 :: us),
            uCounter + (u1 :: us).length, vs.length) := by
  induction fuel with
  | zero =>
    intro u uCounter vCounter
    unfold CHyperboloid.uLoopFloat
    rw [loopSamples_zero]
    by_cases hg : guard u = true
    · simp [hg]
    · simp [hg]
  | succ fuel ih =>
    intro u uCounter vCounter
    unfold CHyperboloid.uLoopFloat
    rw [loopSamples_succ]
    by_cases hg : guard u = true
    · rw [if_pos hg, if_pos hg, CHyperboloid.vLoopFloat_samples]
      cases hus : loopSamples guard next fuel (next u) with
      | none =>
        cases hvs : loopSamples (fun v => decide (v < F.add (F.mul 2 M.M_PI) (F.div vIncrement 5)))
            (fun v => F.add v vIncrement) vFuel 0 with
        | none => rfl
        | some vs =>
          simp only [Option.map_some']
          rw [ih, hus]
          rfl
      | some us =>
        cases hvs : loopSamples (fun v => decide (v < F.add (F.mul 2 M.M_PI) (F.div vIncrement 5)))
            (fun v => F.add v vIncrement) vFuel 0 with
        | none => rfl
        | some vs =>
          simp only [Option.map_some']
          rw [ih, hus]
          cases us with
          | nil =>
            simp [CHyperboloid.gridOf]
          | cons u2 us =>
            simp only [hvs, CHyperboloid.gridOf, List.length_cons, Option.map_some',
              Option.some.injEq, Prod.mk.injEq, true_and, zero_add, and_true]
            omega
    · rw [if_neg hg, if_neg hg]

/-- Two loops whose states correspond under `f` take corresponding values. -/
theorem loopSamples_map (guard guard2 : K → Bool) (next next2 : K → K) (f : K → K)
    (hg : ∀ y, guard2 (f y) = guard y) (hn : ∀ y, next2 (f y) = f (next y)) (fuel : Nat) :
    ∀ x, loopSamples guard2 next2 fuel (f x) =
      (loopSamples guard next fuel x).map (List.map f) := by
  induction fuel with
  | zero =>
    intro x
    rw [loopSamples_zero, loopSamples_zero, hg]
    split_ifs <;> rfl
  | succ fuel ih =>
    intro x
    rw [loopSamples_succ, loopSamples_succ, hg, hn, ih]
    split_ifs
    · cases loopSamples guard next fuel (next x) <;> rfl
    · rfl

theorem CHyperboloid.faces_ringOf (uCounter : Nat) (suffix : String) (point : K → Vector3 K)
    (vs : List K) : ∀ vCounter, faces (CHyperboloid.ringOf uCounter suffix point vCounter vs) = [] := by
  induction vs with
  | nil => intro vCounter; rfl
  | cons v vs ih =>
    intro vCounter
    unfold CHyperboloid.ringOf
    rw [faces_cons_AddVertex, ih]

theorem CHyperboloid.faces_gridOf (suffix : String) (point : K → K → Vector3 K) (vs us : List K) :
    ∀ uCounter, faces (CHyperboloid.gridOf suffix point vs uCounter us) = [] := by
  induction us with
  | nil => intro uCounter; rfl
  | cons u us ih =>
    intro uCounter
    unfold CHyperboloid.gridOf
    rw [faces_append, CHyperboloid.faces_ringOf, ih]
    rfl

/-- The vertices of a ring: the `m`-th value `v` of the `v` loop gives the
vertex named with the counter `vCounter + m` at `point v`. -/
theorem CHyperboloid.mem_vertices_ringOf (uCounter : Nat) (suffix : String)
    (point : K → Vector3 K) (name : String) (pos : Vector3 K) (vs : List K) :
    ∀ vCounter, (name, pos) ∈ vertices (CHyperboloid.ringOf uCounter suffix point vCounter vs) ↔
      ∃ (m : Nat) (v : K), vs[m]? = some v ∧
        name = CHyperboloid.vName uCounter (vCounter + m) suffix ∧ pos = point v := by
  induction vs with
  | nil =>
    intro vCounter
    simp [CHyperboloid.ringOf, vertices]
  | cons v vs ih =>
    intro vCounter
    unfold CHyperboloid.ringOf
    rw [vertices_cons_AddVertex, List.mem_cons, ih]
    constructor
    · rintro (h | ⟨m, w, hw, hn, hp⟩)
      · obtain ⟨h1, h2⟩ := Prod.mk.inj h
        exact ⟨0, v, by simp, h1, h2⟩
      · refine ⟨m + 1, w, by simpa using hw, ?_, hp⟩
        rw [hn]
        congr 1
        omega
    · rintro ⟨m, w, hw, hn, hp⟩
      cases m with
      | zero =>
        simp only [List.getElem?_cons_zero, Option.some.injEq] at hw
        left
        rw [hn, hp, hw]
        rfl
      | succ m =>
        right
        refine ⟨m, w, by simpa using hw, ?_, hp⟩
        rw [hn]
        congr 1
        omega

/-- The vertices of a nest of loops: the `k`-th value `u` of the `u` loop and
the `m`-th value `v` of the `v` loop give the vertex named with the counters
`uCounter + k` and `m` at `point u v`. -/
theorem CHyperboloid.mem_vertices_gridOf (suffix : String) (point : K → K → Vector3 K)
    (name : String) (pos : Vector3 K) (vs us : List K) :
    ∀ uCounter, (name, pos) ∈ vertices (CHyperboloid.gridOf suffix point vs uCounter us) ↔
      ∃ (k m : Nat) (u v : K), us[k]? = some u ∧ vs[m]? = some v ∧
        name = CHyperboloid.vName (uCounter + k) m suffix ∧ pos = point u v := by
  induction us with
  | nil =>
    intro uCounter
    simp [CHyperboloid.gridOf, vertices]
  | cons u us ih =>
    intro uCounter
    unfold CHyperboloid.gridOf
    rw [vertices_append, List.mem_append, ih, CHyperboloid.mem_vertices_ringOf]
    constructor
    · rintro (⟨m, v, hv, hn, hp⟩ | ⟨k, m, w, v, hw, hv, hn, hp⟩)
      · exact ⟨0, m, u, v, by simp, hv, by simpa using hn, hp⟩
      · refine ⟨k + 1, m, w, v, by simpa using hw, hv, ?_, hp⟩
        rw [hn]
        congr 1
        omega
    · rintro ⟨k, m, w, v, hw, hv, hn, hp⟩
      cases k with
      | zero =>
        simp only [List.getElem?_cons_zero, Option.some.injEq] at hw
        left
        exact ⟨m, v, hv, by simpa using hn, by rw [hp, hw]⟩
      | succ k =>
        right
        refine ⟨k, m, w, v, by simpa using hw, hv, ?_, hp⟩
        rw [hn]
        congr 1
        omega

theorem CHyperboloid.vertexNames_ringOf (uCounter : Nat) (suffix : String)
    (point : K → Vector3 K) (vs : List K) :
    ∀ vCounter, vertexNames (CHyperboloid.ringOf uCounter suffix point vCounter vs) =
      (List.range vs.length).map fun m => CHyperboloid.vName uCounter (vCounter + m) suffix := by
  induction vs with
  | nil => intro vCounter; rfl
  | cons v vs ih =>
    intro vCounter
    have h := ih (vCounter + 1)
    unfold vertexNames at h ⊢
    unfold CHyperboloid.ringOf
    rw [vertices_cons_AddVertex, List.map_cons, h, List.length_cons, List.range_succ_eq_map,
      List.map_cons, List.map_map]
    simp only [add_zero, List.cons.injEq, true_and]
    apply List.map_congr_left
    intro m _
    simp only [Function.comp]
    congr 1
    omega

theorem CHyperboloid.vertexNames_gridOf (suffix : String) (point : K → K → Vector3 K)
    (vs us : List K) :
    ∀ uCounter, vertexNames (CHyperboloid.gridOf suffix point vs uCounter us) =
      (List.range us.length).flatMap fun k =>
        (List.range vs.length).map fun m => CHyperboloid.vName (uCounter + k) m suffix := by
  induction us with
  | nil => intro uCounter; rfl
  | cons u us ih =>
    intro uCounter
    unfold CHyperboloid.gridOf
    rw [vertexNames_append, ih, CHyperboloid.vertexNames_ringOf, List.length_cons,
      List.range_succ_eq_map, List.flatMap_cons, List.flatMap_map]
    simp only [add_zero, zero_add]
    congr 1
    apply List.flatMap_congr
    intro k _
    apply List.map_congr_left
    intro m _
    show CHyperboloid.vName (uCounter + 1 + k) m suffix = CHyperboloid.vName (uCounter + (k + 1)) m suffix
    congr 1
    omega

/-- The negative-sheet `u` loop takes the negatives of the values the
positive-sheet `u` loop takes. -/
theorem CHyperboloid.negSamples (F : FloatArith K) (hF : F.Mirrored) (uMax uIncrement : K)
    (fuel : Nat) :
    loopSamples (fun u => decide (u > F.mul (-1) (F.add uMax (F.div uIncrement 5))))
        (fun u => F.sub u uIncrement) fuel 0 =
      (loopSamples (fun u => decide (u < F.add uMax (F.div uIncrement 5)))
        (fun u => F.add u uIncrement) fuel 0).map (List.map fun u => -u) := by
  have h := loopSamples_map (fun u => decide (u < F.add uMax (F.div uIncrement 5)))
    (fun u => decide (u > F.mul (-1) (F.add uMax (F.div uIncrement 5))))
    (fun u => F.add u uIncrement) (fun u => F.sub u uIncrement) (fun u => -u)
    (fun y => decide_eq_decide.2 (by
      rw [hF.2]
      exact ⟨fun h => neg_lt_neg_iff.1 h, fun h => neg_lt_neg_iff.2 h⟩))
    (fun y => hF.1 y uIncrement) fuel 0
  rw [neg_zero] at h
  exact h

/-- Whenever the vertex part returns, its calls are the nests of loops over the
values `us` of the `u` loop and `vs` of the `v` loop, the negative sheet over
the negatives of `us`, and the counters it leaves are their lengths. -/
theorem CHyperboloid.addVerticesFloat_shape (F : FloatArith K) (hF : F.Mirrored)
    (M : CMath K) (fuel : Nat)
    (a c uMax uIncrement vIncrement : K) (sheet : Int) (calls : List (SinkCall K))
    (uCounter vCounter : Nat)
    (h : CHyperboloid.addVerticesFloat F M fuel a c uMax uIncrement vIncrement sheet =
      some (calls, uCounter, vCounter)) :
    ∃ us vs : List K, uCounter = us.length ∧ vCounter = vs.length ∧
      calls =
        if sheet > 0 then
          CHyperboloid.gridOf "_pos" (CHyperboloid.posPoint M a c) vs 0 us ++
            (if sheet = 2 then
              CHyperboloid.gridOf "_neg" (CHyperboloid.negPoint M a c) vs 0
                (us.map fun u => -u)
            else [])
        else CHyperboloid.gridOf "" (CHyperboloid.onePoint M a c) vs 0 us := by
  unfold CHyperboloid.addVerticesFloat at h
  by_cases h1 : sheet > 0
  · rw [if_pos h1, CHyperboloid.uLoopFloat_samples] at h
    simp only [if_pos h1]
    cases hus : loopSamples (fun u => decide (u < F.add uMax (F.div uIncrement 5)))
        (fun u => F.add u uIncrement) fuel 0 with
    | none => rw [hus] at h; simp at h
    | some us =>
      rw [hus] at h
      cases us with
      | nil =>
        simp only [] at h
        by_cases h2 : sheet = 2
        · rw [if_pos h2, CHyperboloid.uLoopFloat_samples, CHyperboloid.negSamples F hF, hus] at h
          simp only [Option.map_some', List.map_nil, List.nil_append, Option.some.injEq,
            Prod.mk.injEq] at h
          obtain ⟨rfl, rfl, rfl⟩ := h
          exact ⟨[], [], rfl, rfl, by simp [CHyperboloid.gridOf]⟩
        · rw [if_neg h2] at h
          simp only [Option.some.injEq, Prod.mk.injEq] at h
          obtain ⟨rfl, rfl, rfl⟩ := h
          exact ⟨[], [], rfl, rfl, by simp [CHyperboloid.gridOf]⟩
      | cons u1 us =>
        simp only [] at h
        cases hvs : loopSamples (fun v => decide (v < F.add (F.mul 2 M.M_PI) (F.div vIncrement 5)))
            (fun v => F.add v vIncrement) fuel 0 with
        | none => rw [hvs] at h; simp at h
        | some vs =>
          rw [hvs] at h
          simp only [] at h
          by_cases h2 : sheet = 2
          · rw [if_pos h2, CHyperboloid.uLoopFloat_samples, CHyperboloid.negSamples F hF, hus] at h
            simp only [Option.map_some', List.map_cons, hvs, Option.some.injEq,
              Prod.mk.injEq] at h
            obtain ⟨rfl, rfl, rfl⟩ := h
            refine ⟨u1 :: us, vs, by simp, rfl, ?_⟩
            rw [if_pos h2]
            rfl
          · rw [if_neg h2] at h
            simp only [Option.some.injEq, Prod.mk.injEq] at h
            obtain ⟨rfl, rfl, rfl⟩ := h
            refine ⟨u1 :: us, vs, by simp, rfl, ?_⟩
            rw [if_neg h2, List.append_nil]
  · rw [if_neg h1, CHyperboloid.uLoopFloat_samples] at h
    simp only [if_neg h1]
    cases hus : loopSamples (fun u => decide (u < F.add uMax (F.div uIncrement 5)))
        (fun u => F.add u uIncrement) fuel (F.mul (-1) (F.add uMax (F.div uIncrement 5))) with
    | none => rw [hus] at h; simp at h
    | some us =>
      rw [hus] at h
      cases us with
      | nil =>
        simp only [Option.some.injEq, Prod.mk.injEq] at h
        obtain ⟨rfl, rfl, rfl⟩ := h
        exact ⟨[], [], rfl, rfl, by simp [CHyperboloid.gridOf]⟩
      | cons u1 us =>
        simp only [] at h
        cases hvs : loopSamples (fun v => decide (v < F.add (F.mul 2 M.M_PI) (F.div vIncrement 5)))
            (fun v => F.add v vIncrement) fuel 0 with
        | none => rw [hvs] at h; simp at h
        | some vs =>
          rw [hvs] at h
          simp only [Option.some.injEq, Prod.mk.injEq] at h
          obtain ⟨rfl, rfl, rfl⟩ := h
          exact ⟨u1 :: us, vs, by simp, rfl, rfl⟩

/-- Whenever a build returns, it is the vertex nests over the values `us`,
`vs` of the loop variables, followed by the face loops bounded by their
lengths. -/
theorem CHyperboloid.UpdateEntityFloat_shape (F : FloatArith K) (hF : F.Mirrored)
    (M : CMath K) (fuel : Nat)
    (A C UMax UIncrement VIncrement Sheet : K) (calls : List (SinkCall K))
    (h : CHyperboloid.UpdateEntityFloat F M fuel A C UMax UIncrement VIncrement Sheet =
      some calls) :
    ∃ us vs : List K,
      calls =
        (if CHyperboloid.validSheet Sheet > 0 then
          CHyperboloid.gridOf "_pos" (CHyperboloid.posPoint M A C) vs 0 us ++
            (if CHyperboloid.validSheet Sheet = 2 then
              CHyperboloid.gridOf "_neg" (CHyperboloid.negPoint M A C) vs 0
                (us.map fun u => -u)
            else [])
        else CHyperboloid.gridOf "" (CHyperboloid.onePoint M A C) vs 0 us) ++
        CHyperboloid.addFaces K (CHyperboloid.validSheet Sheet) us.length vs.length := by
  unfold CHyperboloid.UpdateEntityFloat at h
  simp only [] at h
  cases hv : CHyperboloid.addVerticesFloat F M fuel A C UMax (F.div UMax UIncrement)
      (F.div M.M_PI VIncrement) (CHyperboloid.validSheet Sheet) with
  | none => rw [hv] at h; simp at h
  | some r =>
    obtain ⟨vx, uc, vc⟩ := r
    rw [hv] at h
    simp only [Option.some.injEq] at h
    obtain ⟨us, vs, rfl, rfl, rfl⟩ := CHyperboloid.addVerticesFloat_shape F hF _ _ _ _ _ _ _ _ _ _ _ hv
    exact ⟨us, vs, h.symm⟩

theorem exactArith_mirrored : (exactArith : FloatArith K).Mirrored :=
  ⟨fun x y => by show -x - y = -(x + y); ring, fun x y => by show -1 * (x + y) = -(x + y); ring⟩

theorem binary32_mirrored : (binary32 : FloatArith K).Mirrored :=
  ⟨fun x y => by
      show round32 (-x - y) = -round32 (x + y)
      rw [← round32_neg]
      congr 1
      ring,
    fun x y => by
      show round32 (-1 * round32 (x + y)) = -round32 (x + y)
      rw [neg_one_mul, round32_neg, round32_idem]⟩

theorem CHyperboloid.addVertices_exactArith (M : CMath K) (fuel : Nat)
    (a c uMax uIncrement vIncrement : K) (sheet : Int) :
    CHyperboloid.addVerticesFloat exactArith M fuel a c uMax uIncrement vIncrement sheet =
      CHyperboloid.addVertices M fuel a c uMax uIncrement vIncrement sheet := by
  unfold CHyperboloid.addVerticesFloat CHyperboloid.addVertices
  simp only [CHyperboloid.uLoop_exactArith]
  rfl

/-- The shape of a returning vertex part in exact arithmetic. -/
theorem CHyperboloid.addVertices_shape (M : CMath K) (fuel : Nat)
    (a c uMax uIncrement vIncrement : K) (sheet : Int) (calls : List (SinkCall K))
    (uCounter vCounter : Nat)
    (h : CHyperboloid.addVertices M fuel a c uMax uIncrement vIncrement sheet =
      some (calls, uCounter, vCounter)) :
    ∃ us vs : List K, uCounter = us.length ∧ vCounter = vs.length ∧
      calls =
        if sheet > 0 then
          CHyperboloid.gridOf "_pos" (CHyperboloid.posPoint M a c) vs 0 us ++
            (if sheet = 2 then
              CHyperboloid.gridOf "_neg" (CHyperboloid.negPoint M a c) vs 0
                (us.map fun u => -u)
            else [])
        else CHyperboloid.gridOf "" (CHyperboloid.onePoint M a c) vs 0 us := by
  rw [← CHyperboloid.addVertices_exactArith] at h
  exact CHyperboloid.addVerticesFloat_shape exactArith exactArith_mirrored M fuel a c uMax
    uIncrement vIncrement sheet calls uCounter vCounter h

/-- The shape of a returning build in exact arithmetic. -/
theorem CHyperboloid.UpdateEntity_shape (M : CMath K) (fuel : Nat)
    (A C UMax UIncrement VIncrement Sheet : K) (calls : List (SinkCall K))
    (h : CHyperboloid.UpdateEntity M fuel A C UMax UIncrement VIncrement Sheet = some calls) :
    ∃ us vs : List K,
      calls =
        (if CHyperboloid.validSheet Sheet > 0 then
          CHyperboloid.gridOf "_pos" (CHyperboloid.posPoint M A C) vs 0 us ++
            (if CHyperboloid.validSheet Sheet = 2 then
              CHyperboloid.gridOf "_neg" (CHyperboloid.negPoint M A C) vs 0
                (us.map fun u => -u)
            else [])
        else CHyperboloid.gridOf "" (CHyperboloid.onePoint M A C) vs 0 us) ++
        CHyperboloid.addFaces K (CHyperboloid.validSheet Sheet) us.length vs.length := by
  rw [← CHyperboloid.UpdateEntity_exactArith] at h
  exact CHyperboloid.UpdateEntityFloat_shape exactArith exactArith_mirrored M fuel A C UMax
    UIncrement VIncrement Sheet calls h

/-- The vertex names of the nests of a build: per sheet suffix, `U` rings of
`V` names. -/
theorem CHyperboloid.vertexNames_shape (M : CMath K) (a c : K) (sheet : Int) (us vs : List K) :
    vertexNames
        (if sheet > 0 then
          CHyperboloid.gridOf "_pos" (CHyperboloid.posPoint M a c) vs 0 us ++
            (if sheet = 2 then
              CHyperboloid.gridOf "_neg" (CHyperboloid.negPoint M a c) vs 0
                (us.map fun u => -u)
            else [])
        else CHyperboloid.gridOf "" (CHyperboloid.onePoint M a c) vs 0 us) =
      (CHyperboloid.sheetSuffixes sheet).flatMap fun suffix =>
        (List.range us.length).flatMap fun u =>
          (List.range vs.length).map fun v => CHyperboloid.vName u v suffix := by
  unfold CHyperboloid.sheetSuffixes
  by_cases h1 : sheet > 0
  · rw [if_pos h1, if_pos h1]
    by_cases h2 : sheet = 2
    · rw [if_pos h2, if_pos h2, vertexNames_append, CHyperboloid.vertexNames_gridOf,
        CHyperboloid.vertexNames_gridOf]
      simp
    · rw [if_neg h2, if_neg h2, List.append_nil, CHyperboloid.vertexNames_gridOf]
      simp
  · rw [if_neg h1, if_neg h1, CHyperboloid.vertexNames_gridOf]
    simp

theorem CHyperboloid.faces_shape (M : CMath K) (a c : K) (sheet : Int) (us vs : List K) :
    faces
        (if sheet > 0 then
          CHyperboloid.gridOf "_pos" (CHyperboloid.posPoint M a c) vs 0 us ++
            (if sheet = 2 then
              CHyperboloid.gridOf "_neg" (CHyperboloid.negPoint M a c) vs 0
                (us.map fun u => -u)
            else [])
        else CHyperboloid.gridOf "" (CHyperboloid.onePoint M a c) vs 0 us) = [] := by
  split_ifs <;> simp [faces_append, CHyperboloid.faces_gridOf, faces]

/-- The quads of one sheet's face loops refer only to names of `U` rings of
`V` vertices with the sheet's suffix. -/
theorem CHyperboloid.face_refs_in_rings (suffix : String) (U V faceCounter : Nat)
    (name : String) (face : List String)
    (hmem : (name, face) ∈ CHyperboloid.quads suffix U V faceCounter)
    (x : String) (hx : x ∈ face) :
    x ∈ (List.range U).flatMap fun u =>
      (List.range V).map fun v => CHyperboloid.vName u v suffix := by
  unfold CHyperboloid.quads at hmem
  rw [List.mem_flatMap] at hmem
  obtain ⟨u, hur, hmem⟩ := hmem
  obtain ⟨v, hvr, hEq⟩ := List.mem_map.1 hmem
  rw [List.mem_range] at hur hvr
  have hface := (Prod.mk.inj hEq).2
  rw [← hface] at hx
  rw [List.mem_flatMap]
  have key : ∀ k m, k < U → m < V →
      ∃ a, a ∈ List.range U ∧
        CHyperboloid.vName k m suffix ∈
          (List.range V).map fun m => CHyperboloid.vName a m suffix :=
    fun k m hk hm => ⟨k, List.mem_range.2 hk, List.mem_map.2 ⟨m, List.mem_range.2 hm, rfl⟩⟩
  simp only [List.mem_cons, List.mem_singleton, List.not_mem_nil, or_false] at hx
  rcases hx with h | h | h | h <;> rw [h] <;> apply key <;> omega

/-- Whenever a float build returns, every face refers to vertices added before
it. -/
theorem CHyperboloid.UpdateEntityFloat_refClosed (F : FloatArith K) (hF : F.Mirrored)
    (M : CMath K) (fuel : Nat)
    (A C UMax UIncrement VIncrement Sheet : K) (calls : List (SinkCall K))
    (h : CHyperboloid.UpdateEntityFloat F M fuel A C UMax UIncrement VIncrement Sheet =
      some calls) :
    RefClosed calls := by
  obtain ⟨us, vs, rfl⟩ := CHyperboloid.UpdateEntityFloat_shape F hF M fuel A C UMax
    UIncrement VIncrement Sheet calls h
  apply refClosed_append
  · exact CHyperboloid.faces_shape M A C _ us vs
  · intro name face hmem x hx
    rw [CHyperboloid.vertexNames_shape]
    rw [CHyperboloid.faces_addFaces_eq] at hmem
    unfold CHyperboloid.sheetSuffixes
    by_cases h1 : CHyperboloid.validSheet Sheet > 0
    · rw [if_pos h1] at hmem ⊢
      by_cases h2 : CHyperboloid.validSheet Sheet = 2
      · rw [if_pos h2] at hmem ⊢
        simp only [List.flatMap_cons, List.flatMap_nil, List.append_nil]
        rcases List.mem_append.1 hmem with hm | hm
        · exact List.mem_append_left _
            (CHyperboloid.face_refs_in_rings _ _ _ _ name face hm x hx)
        · exact List.mem_append_right _
            (CHyperboloid.face_refs_in_rings _ _ _ _ name face hm x hx)
      · rw [if_neg h2] at hmem ⊢
        rw [List.append_nil] at hmem
        simp only [List.flatMap_cons, List.flatMap_nil, List.append_nil]
        exact CHyperboloid.face_refs_in_rings _ _ _ _ name face hmem x hx
    · rw [if_neg h1] at hmem ⊢
      simp only [List.flatMap_cons, List.flatMap_nil, List.append_nil]
      exact CHyperboloid.face_refs_in_rings _ _ _ _ name face hmem x hx

/-- Whenever a build in exact arithmetic returns, every face refers to vertices
added before it. -/
theorem CHyperboloid.UpdateEntity_refClosed (M : CMath K) (fuel : Nat)
    (A C UMax UIncrement VIncrement Sheet : K) (calls : List (SinkCall K))
    (h : CHyperboloid.UpdateEntity M fuel A C UMax UIncrement VIncrement Sheet = some calls) :
    RefClosed calls := by
  rw [← CHyperboloid.UpdateEntity_exactArith] at h
  exact CHyperboloid.UpdateEntityFloat_refClosed exactArith exactArith_mirrored M fuel A C UMax
    UIncrement VIncrement Sheet calls h

/-- For `UMax ≥ 0` and positive step counts, whole or not, the build returns
when the fuel covers `⌈2 * UIncrement + 2/5⌉` and `⌈2 * VIncrement + 1/5⌉`. -/
theorem CHyperboloid.UpdateEntity_returns (M : CMath K) (hpi : 0 < M.M_PI)
    (A C UMax UIncrement VIncrement Sheet : K) (hU : 0 ≤ UMax) (hx : 0 < UIncrement)
    (hy : 0 < VIncrement) (fuel : Nat) (hfu : ⌈2 * UIncrement + 2 / 5⌉₊ ≤ fuel)
    (hfv : ⌈2 * VIncrement + 1 / 5⌉₊ ≤ fuel) :
    ∃ calls, CHyperboloid.UpdateEntity M fuel A C UMax UIncrement VIncrement Sheet =
      some calls := by
  obtain ⟨⟨vs, uc, vc⟩, hv⟩ := CHyperboloid.addVertices_returns M hpi A C UMax UIncrement
    VIncrement hU hx hy (CHyperboloid.validSheet Sheet) fuel hfu hfv
  unfold CHyperboloid.UpdateEntity
  simp only []
  rw [hv]
  exact ⟨_, rfl⟩

end HyperboloidLoopValues

/-! ## Hyperboloid: a build in binary32 arithmetic -/

section FloatScenario

variable {K : Type} [LinearOrderedField K] [FloorRing K]

theorem loopSamples_step (guard : K → Bool) (next : K → K) {x y : K} {ys : List K} {fuel : Nat}
    (hg : guard x = true) (hn : next x = y) (hrec : loopSamples guard next fuel y = some ys) :
    loopSamples guard next (fuel + 1) x = some (x :: ys) := by
  rw [loopSamples_succ, if_pos hg, hn, hrec]
  rfl

theorem loopSamples_stop (guard : K → Bool) (next : K → K) {x : K} (hg : guard x = false)
    (fuel : Nat) : loopSamples guard next fuel x = some [] := by
  cases fuel with
  | zero => rw [loopSamples_zero, hg]; rfl
  | succ fuel => rw [loopSamples_succ, hg]; rfl

theorem CHyperboloid.scenario_uIncrement : round32 ((1 : K) / 4) = 1 / 4 := by
  rw [round32_of_near (-25) 8388608
    (ulpExponent_of_pos (-25) (by norm_num) (by norm_num) (by norm_num)) (by norm_num)
    (by norm_num)]
  norm_num

theorem CHyperboloid.scenario_slack_u : round32 ((1 / 4 : K) / 5) = 13421773 / 268435456 := by
  rw [round32_of_near (-28) 13421773
    (ulpExponent_of_pos (-28) (by norm_num) (by norm_num) (by norm_num)) (by norm_num)
    (by norm_num)]
  norm_num

theorem CHyperboloid.scenario_bound_u : round32 ((1 : K) + 13421773 / 268435456) = 4404019 / 4194304 := by
  rw [round32_of_near (-23) 8808038
    (ulpExponent_of_pos (-23) (by norm_num) (by norm_num) (by norm_num)) (by norm_num)
    (by norm_num)]
  norm_num

theorem CHyperboloid.scenario_u1 : round32 ((0 : K) + 1 / 4) = 1 / 4 := by
  rw [round32_of_near (-25) 8388608
    (ulpExponent_of_pos (-25) (by norm_num) (by norm_num) (by norm_num)) (by norm_num)
    (by norm_num)]
  norm_num

theorem CHyperboloid.scenario_u2 : round32 ((1 / 4 : K) + 1 / 4) = 1 / 2 := by
  rw [round32_of_near (-24) 8388608
    (ulpExponent_of_pos (-24) (by norm_num) (by norm_num) (by norm_num)) (by norm_num)
    (by norm_num)]
  norm_num

theorem CHyperboloid.scenario_u3 : round32 ((1 / 2 : K) + 1 / 4) = 3 / 4 := by
  rw [round32_of_near (-24) 12582912
    (ulpExponent_of_pos (-24) (by norm_num) (by norm_num) (by norm_num)) (by norm_num)
    (by norm_num)]
  norm_num

theorem CHyperboloid.scenario_u4 : round32 ((3 / 4 : K) + 1 / 4) = 1 := by
  rw [round32_of_near (-23) 8388608
    (ulpExponent_of_pos (-23) (by norm_num) (by norm_num) (by norm_num)) (by norm_num)
    (by norm_num)]
  norm_num

theorem CHyperboloid.scenario_u5 : round32 ((1 : K) + 1 / 4) = 5 / 4 := by
  rw [round32_of_near (-23) 10485760
    (ulpExponent_of_pos (-23) (by norm_num) (by norm_num) (by norm_num)) (by norm_num)
    (by norm_num)]
  norm_num

theorem CHyperboloid.scenario_vIncrement : round32 ((13176795 / 4194304 : K) / 4) = 13176795 / 16777216 := by
  rw [round32_of_near (-24) 13176795
    (ulpExponent_of_pos (-24) (by norm_num) (by norm_num) (by norm_num)) (by norm_num)
    (by norm_num)]
  norm_num

theorem CHyperboloid.scenario_two_pi : round32 ((2 : K) * (13176795 / 4194304)) = 13176795 / 2097152 := by
  rw [round32_of_near (-21) 13176795
    (ulpExponent_of_pos (-21) (by norm_num) (by norm_num) (by norm_num)) (by norm_num)
    (by norm_num)]
  norm_num

theorem CHyperboloid.scenario_slack_v : round32 ((13176795 / 16777216 : K) / 5) = 2635359 / 16777216 := by
  rw [round32_of_near (-26) 10541436
    (ulpExponent_of_pos (-26) (by norm_num) (by norm_num) (by norm_num)) (by norm_num)
    (by norm_num)]
  norm_num

theorem CHyperboloid.scenario_bound_v : round32 ((13176795 / 2097152 : K) + 2635359 / 16777216) = 13506215 / 2097152 := by
  rw [round32_of_near (-21) 13506215
    (ulpExponent_of_pos (-21) (by norm_num) (by norm_num) (by norm_num)) (by norm_num)
    (by norm_num)]
  norm_num

theorem CHyperboloid.scenario_v1 : round32 ((0 : K) + 13176795 / 16777216) = 13176795 / 16777216 := by
  rw [round32_of_near (-24) 13176795
    (ulpExponent_of_pos (-24) (by norm_num) (by norm_num) (by norm_num)) (by norm_num)
    (by norm_num)]
  norm_num

theorem CHyperboloid.scenario_v2 : round32 ((13176795 / 16777216 : K) + 13176795 / 16777216) = 13176795 / 8388608 := by
  rw [round32_of_near (-23) 13176795
    (ulpExponent_of_pos (-23) (by norm_num) (by norm_num) (by norm_num)) (by norm_num)
    (by norm_num)]
  norm_num

theorem CHyperboloid.scenario_v3 : round32 ((13176795 / 8388608 : K) + 13176795 / 16777216) = 2470649 / 1048576 := by
  rw [round32_of_near (-22) 9882596
    (ulpExponent_of_pos (-22) (by norm_num) (by norm_num) (by norm_num)) (by norm_num)
    (by norm_num)]
  norm_num

theorem CHyperboloid.scenario_v4 : round32 ((2470649 / 1048576 : K) + 13176795 / 16777216) = 13176795 / 4194304 := by
  rw [round32_of_near (-22) 13176795
    (ulpExponent_of_pos (-22) (by norm_num) (by norm_num) (by norm_num)) (by norm_num)
    (by norm_num)]
  norm_num

theorem CHyperboloid.scenario_v5 : round32 ((13176795 / 4194304 : K) + 13176795 / 16777216) = 8235497 / 2097152 := by
  rw [round32_of_near (-22) 16470994
    (ulpExponent_of_pos (-22) (by norm_num) (by norm_num) (by norm_num)) (by norm_num)
    (by norm_num)]
  norm_num

theorem CHyperboloid.scenario_v6 : round32 ((8235497 / 2097152 : K) + 13176795 / 16777216) = 2470649 / 524288 := by
  rw [round32_of_near (-21) 9882596
    (ulpExponent_of_pos (-21) (by norm_num) (by norm_num) (by norm_num)) (by norm_num)
    (by norm_num)]
  norm_num

theorem CHyperboloid.scenario_v7 : round32 ((2470649 / 524288 : K) + 13176795 / 16777216) = 11529695 / 2097152 := by
  rw [round32_of_near (-21) 11529695
    (ulpExponent_of_pos (-21) (by norm_num) (by norm_num) (by norm_num)) (by norm_num)
    (by norm_num)]
  norm_num

theorem CHyperboloid.scenario_v8 : round32 ((11529695 / 2097152 : K) + 13176795 / 16777216) = 6588397 / 1048576 := by
  rw [round32_of_near (-21) 13176794
    (ulpExponent_of_pos (-21) (by norm_num) (by norm_num) (by norm_num)) (by norm_num)
    (by norm_num)]
  norm_num

theorem CHyperboloid.scenario_v9 : round32 ((6588397 / 1048576 : K) + 13176795 / 16777216) = 14823893 / 2097152 := by
  rw [round32_of_near (-21) 14823893
    (ulpExponent_of_pos (-21) (by norm_num) (by norm_num) (by norm_num)) (by norm_num)
    (by norm_num)]
  norm_num

theorem CHyperboloid.scenario_uValues :
    loopSamples (fun x : K => decide (x < 4404019 / 4194304))
        (fun x : K => (binary32 : FloatArith K).add x (1 / 4)) 9 0 =
      some [0, 1 / 4, 1 / 2, 3 / 4, 1] := by
  exact loopSamples_step _ _ (decide_eq_true (by norm_num)) CHyperboloid.scenario_u1
    (loopSamples_step _ _ (decide_eq_true (by norm_num)) CHyperboloid.scenario_u2
    (loopSamples_step _ _ (decide_eq_true (by norm_num)) CHyperboloid.scenario_u3
    (loopSamples_step _ _ (decide_eq_true (by norm_num)) CHyperboloid.scenario_u4
    (loopSamples_step _ _ (decide_eq_true (by norm_num)) CHyperboloid.scenario_u5
    (loopSamples_stop _ _ (by norm_num) 4)))))

theorem CHyperboloid.scenario_vValues :
    loopSamples (fun x : K => decide (x < 13506215 / 2097152))
        (fun x : K => (binary32 : FloatArith K).add x (13176795 / 16777216)) 9 0 =
      some [0, 13176795 / 16777216, 13176795 / 8388608, 2470649 / 1048576, 13176795 / 4194304, 8235497 / 2097152, 2470649 / 524288, 11529695 / 2097152, 6588397 / 1048576] := by
  exact loopSamples_step _ _ (decide_eq_true (by norm_num)) CHyperboloid.scenario_v1
    (loopSamples_step _ _ (decide_eq_true (by norm_num)) CHyperboloid.scenario_v2
    (loopSamples_step _ _ (decide_eq_true (by norm_num)) CHyperboloid.scenario_v3
    (loopSamples_step _ _ (decide_eq_true (by norm_num)) CHyperboloid.scenario_v4
    (loopSamples_step _ _ (decide_eq_true (by norm_num)) CHyperboloid.scenario_v5
    (loopSamples_step _ _ (decide_eq_true (by norm_num)) CHyperboloid.scenario_v6
    (loopSamples_step _ _ (decide_eq_true (by norm_num)) CHyperboloid.scenario_v7
    (loopSamples_step _ _ (decide_eq_true (by norm_num)) CHyperboloid.scenario_v8
    (loopSamples_step _ _ (decide_eq_true (by norm_num)) CHyperboloid.scenario_v9
    (loopSamples_stop _ _ (by norm_num) 0)))))))))

theorem CHyperboloid.scenario_uBound :
    CHyperboloid.uBound binary32 (1 : K) ((binary32 : FloatArith K).div 1 4) =
      4404019 / 4194304 := by
  have hu : (binary32 : FloatArith K).div 1 4 = 1 / 4 := CHyperboloid.scenario_uIncrement
  rw [hu]
  show round32 (1 + round32 ((1 / 4 : K) / 5)) = _
  rw [CHyperboloid.scenario_slack_u]
  exact CHyperboloid.scenario_bound_u

theorem CHyperboloid.scenario_vBound (M : CMath K) (hM : M.M_PI = 13176795 / 4194304) :
    CHyperboloid.vBound binary32 M ((binary32 : FloatArith K).div M.M_PI 4) =
      13506215 / 2097152 := by
  have hv : (binary32 : FloatArith K).div M.M_PI 4 = 13176795 / 16777216 := by
    rw [hM]
    exact CHyperboloid.scenario_vIncrement
  rw [hv]
  unfold CHyperboloid.vBound
  rw [hM]
  show round32 (round32 (2 * (13176795 / 4194304 : K)) +
    round32 ((13176795 / 16777216 : K) / 5)) = _
  rw [CHyperboloid.scenario_two_pi, CHyperboloid.scenario_slack_v]
  exact CHyperboloid.scenario_bound_v

/-- The vertex part of the binary32 build of the two-sheet hyperboloid with
`UMax = 1` and step counts `4`, `4`, at `(float)M_PI = 13176795 / 4194304`:
the `u` loop takes the values `0, 1/4, 1/2, 3/4, 1` and the `v` loop nine
values, from `0` to `6588397 / 1048576`. -/
theorem CHyperboloid.addVerticesFloat_scenario (M : CMath K)
    (hM : M.M_PI = 13176795 / 4194304) (A C : K) :
    CHyperboloid.addVerticesFloat binary32 M 9 A C 1
      ((binary32 : FloatArith K).div 1 4) ((binary32 : FloatArith K).div M.M_PI 4) 2 =
        some (CHyperboloid.gridOf "_pos" (CHyperboloid.posPoint M A C)
            [0, 13176795 / 16777216, 13176795 / 8388608, 2470649 / 1048576, 13176795 / 4194304, 8235497 / 2097152, 2470649 / 524288, 11529695 / 2097152, 6588397 / 1048576]
            0 [0, 1 / 4, 1 / 2, 3 / 4, 1] ++
          CHyperboloid.gridOf "_neg" (CHyperboloid.negPoint M A C)
            [0, 13176795 / 16777216, 13176795 / 8388608, 2470649 / 1048576, 13176795 / 4194304, 8235497 / 2097152, 2470649 / 524288, 11529695 / 2097152, 6588397 / 1048576]
            0 ([0, 1 / 4, 1 / 2, 3 / 4, 1].map fun u => -u), 5, 9) := by
  have hu : (binary32 : FloatArith K).div 1 4 = 1 / 4 := CHyperboloid.scenario_uIncrement
  have hv : (binary32 : FloatArith K).div M.M_PI 4 = 13176795 / 16777216 := by
    rw [hM]
    exact CHyperboloid.scenario_vIncrement
  have hBu := @CHyperboloid.scenario_uBound K _ _
  have hBv := CHyperboloid.scenario_vBound M hM
  rw [hu] at hBu
  rw [hv] at hBv
  unfold CHyperboloid.uBound at hBu
  unfold CHyperboloid.vBound at hBv
  rw [hu, hv]
  have hus : loopSamples
      (fun u : K => decide (u < (binary32 : FloatArith K).add 1
        ((binary32 : FloatArith K).div (1 / 4) 5)))
      (fun u : K => (binary32 : FloatArith K).add u (1 / 4)) 9 0 =
        some [0, 1 / 4, 1 / 2, 3 / 4, 1] := by
    rw [hBu]
    exact CHyperboloid.scenario_uValues
  unfold CHyperboloid.addVerticesFloat
  rw [if_pos (by decide), CHyperboloid.uLoopFloat_samples, hus, hBv, CHyperboloid.scenario_vValues]
  simp only []
  rw [if_pos trivial, CHyperboloid.uLoopFloat_samples,
    CHyperboloid.negSamples binary32 binary32_mirrored, hus, hBv,
    CHyperboloid.scenario_vValues]
  rfl

/-- The binary32 build of that hyperboloid returns: two sheets of `5` rings of
`9` vertices, then the face loops bounded by `5` and `9`. -/
theorem CHyperboloid.UpdateEntityFloat_scenario (M : CMath K)
    (hM : M.M_PI = 13176795 / 4194304) (A C : K) :
    CHyperboloid.UpdateEntityFloat binary32 M 9 A C 1 4 4 2 =
      some ((CHyperboloid.gridOf "_pos" (CHyperboloid.posPoint M A C)
            [0, 13176795 / 16777216, 13176795 / 8388608, 2470649 / 1048576, 13176795 / 4194304, 8235497 / 2097152, 2470649 / 524288, 11529695 / 2097152, 6588397 / 1048576]
            0 [0, 1 / 4, 1 / 2, 3 / 4, 1] ++
          CHyperboloid.gridOf "_neg" (CHyperboloid.negPoint M A C)
            [0, 13176795 / 16777216, 13176795 / 8388608, 2470649 / 1048576, 13176795 / 4194304, 8235497 / 2097152, 2470649 / 524288, 11529695 / 2097152, 6588397 / 1048576]
            0 ([0, 1 / 4, 1 / 2, 3 / 4, 1].map fun u => -u)) ++
        CHyperboloid.addFaces K 2 5 9) := by
  unfold CHyperboloid.UpdateEntityFloat
  simp only []
  rw [CHyperboloid.validSheet_two, CHyperboloid.addVerticesFloat_scenario M hM A C]

end FloatScenario

/-! ## Hyperboloid: termination of the float loops -/

section FloatTermination

variable {K : Type} [LinearOrderedField K] [FloorRing K]

/-- A binary32 loop `for (x = ...; x < B; x += inc)` ends when `inc` is at
least one unit in the last place of a positive bound `B`: from a binary32
value `x` with `|x| ≤ B`, after at most `(B - x) / 2^-149` iterations. -/
theorem loopSamples_binary32 (B inc : K) (hB : B ≤ 0 ∨ (2 : K) ^ ulpExponent B ≤ inc) :
    ∀ (fuel : Nat) (x : K), round32 x = x → (|x| ≤ B ∨ B ≤ x) →
      B - x ≤ (fuel : K) * (2 : K) ^ (-149 : Int) →
      ∃ xs, loopSamples (fun u => decide (u < B))
        (fun u => (binary32 : FloatArith K).add u inc) fuel x = some xs := by
  intro fuel
  induction fuel with
  | zero =>
    intro x _ _ h
    have hlt : ¬ x < B := by
      rw [Nat.cast_zero, zero_mul] at h
      linarith
    refine ⟨[], ?_⟩
    simp only [loopSamples_zero, decide_eq_false hlt]
    rfl
  | succ fuel ih =>
    intro x hx hr h
    by_cases hlt : x < B
    · have habs : |x| ≤ B := by
        rcases hr with h1 | h1
        · exact h1
        · linarith
      have hBpos : 0 < B := by
        rcases lt_or_eq_of_le (le_trans (abs_nonneg x) habs) with h1 | h1
        · exact h1
        · rw [← h1] at habs hlt
          have := abs_nonpos_iff.1 habs
          rw [this] at hlt
          exact absurd hlt (lt_irrefl 0)
      have hinc := hB.resolve_left (not_le.2 hBpos)
      have hp : x + (2 : K) ^ (-149 : Int) ≤ (binary32 : FloatArith K).add x inc :=
        round32_add_progress hx habs hinc
      have hpos : (0 : K) < (2 : K) ^ (-149 : Int) := zpow_pos (by norm_num) _
      obtain ⟨xs, hxs⟩ := ih ((binary32 : FloatArith K).add x inc) (round32_idem _)
        (by
          rcases le_or_lt B ((binary32 : FloatArith K).add x inc) with h1 | h1
          · exact Or.inr h1
          · refine Or.inl (abs_le.2 ⟨?_, h1.le⟩)
            have := (abs_le.1 habs).1
            linarith)
        (by
          push_cast at h
          linarith)
      refine ⟨x :: xs, ?_⟩
      simp only [loopSamples_succ, decide_eq_true hlt, if_true]
      rw [hxs]
      rfl
    · refine ⟨[], ?_⟩
      simp only [loopSamples_succ, decide_eq_false hlt]
      rfl

/-- A float `u` loop returns when its own loop and the `v` loop end. -/
theorem CHyperboloid.uLoopFloat_returns (F : FloatArith K) (M : CMath K) (vIncrement : K)
    (suffix : String) (guard : K → Bool) (next : K → K) (point : K → K → Vector3 K)
    (vFuel fuel : Nat) (u : K) (uCounter vCounter : Nat)
    (hu : ∃ us, loopSamples guard next fuel u = some us)
    (hv : ∃ vs, loopSamples (fun v => decide (v < F.add (F.mul 2 M.M_PI) (F.div vIncrement 5)))
      (fun v => F.add v vIncrement) vFuel 0 = some vs) :
    ∃ r, CHyperboloid.uLoopFloat F M vIncrement suffix guard next point vFuel fuel u uCounter
      vCounter = some r := by
  obtain ⟨us, hus⟩ := hu
  obtain ⟨vs, hvs⟩ := hv
  rw [CHyperboloid.uLoopFloat_samples, hus]
  cases us with
  | nil => exact ⟨_, rfl⟩
  | cons u1 us =>
    simp only []
    rw [hvs]
    exact ⟨_, rfl⟩

/-- The vertex part in binary32 arithmetic returns when each increment is at
least one unit in the last place of its loop bound (or the bound is not
positive) and the fuel covers the bounds in steps of `2^-149`. -/
theorem CHyperboloid.addVerticesFloat_returns (M : CMath K) (a c uMax uIncrement vIncrement : K)
    (sheet : Int) (fuel : Nat)
    (hu : CHyperboloid.uBound binary32 uMax uIncrement ≤ 0 ∨
      (2 : K) ^ ulpExponent (CHyperboloid.uBound binary32 uMax uIncrement) ≤ uIncrement)
    (hv : CHyperboloid.vBound binary32 M vIncrement ≤ 0 ∨
      (2 : K) ^ ulpExponent (CHyperboloid.vBound binary32 M vIncrement) ≤ vIncrement)
    (hfu : 2 * |CHyperboloid.uBound binary32 uMax uIncrement| ≤
      (fuel : K) * (2 : K) ^ (-149 : Int))
    (hfv : |CHyperboloid.vBound binary32 M vIncrement| ≤ (fuel : K) * (2 : K) ^ (-149 : Int)) :
    ∃ r, CHyperboloid.addVerticesFloat binary32 M fuel a c uMax uIncrement vIncrement sheet =
      some r := by
  have hBu : round32 (CHyperboloid.uBound binary32 uMax uIncrement) =
      CHyperboloid.uBound binary32 uMax uIncrement := round32_idem _
  have hvs : ∃ vs, loopSamples
      (fun v => decide (v < (binary32 : FloatArith K).add
        ((binary32 : FloatArith K).mul 2 M.M_PI) ((binary32 : FloatArith K).div vIncrement 5)))
      (fun v => (binary32 : FloatArith K).add v vIncrement) fuel 0 = some vs :=
    loopSamples_binary32 (CHyperboloid.vBound binary32 M vIncrement) vIncrement hv fuel 0
      round32_zero
      (by
        rcases le_total 0 (CHyperboloid.vBound binary32 M vIncrement) with h | h
        · exact Or.inl (by rwa [abs_zero])
        · exact Or.inr h)
      (by
        rw [sub_zero]
        exact le_trans (le_abs_self _) hfv)
  have hus : ∃ us, loopSamples
      (fun u => decide (u < (binary32 : FloatArith K).add uMax
        ((binary32 : FloatArith K).div uIncrement 5)))
      (fun u => (binary32 : FloatArith K).add u uIncrement) fuel 0 = some us :=
    loopSamples_binary32 (CHyperboloid.uBound binary32 uMax uIncrement) uIncrement hu fuel 0
      round32_zero
      (by
        rcases le_total 0 (CHyperboloid.uBound binary32 uMax uIncrement) with h | h
        · exact Or.inl (by rwa [abs_zero])
        · exact Or.inr h)
      (by
        rw [sub_zero]
        have := abs_nonneg (CHyperboloid.uBound binary32 uMax uIncrement)
        have := le_abs_self (CHyperboloid.uBound binary32 uMax uIncrement)
        linarith)
  unfold CHyperboloid.addVerticesFloat
  by_cases h1 : sheet > 0
  · rw [if_pos h1]
    obtain ⟨⟨pos, uc, vc⟩, hpos⟩ := CHyperboloid.uLoopFloat_returns binary32 M vIncrement "_pos"
      _ _ (CHyperboloid.posPoint M a c) fuel fuel 0 0 0 hus hvs
    rw [hpos]
    simp only []
    by_cases h2 : sheet = 2
    · rw [if_pos h2]
      obtain ⟨us, hus2⟩ := hus
      obtain ⟨⟨neg, uc2, vc2⟩, hneg⟩ := CHyperboloid.uLoopFloat_returns binary32 M vIncrement
        "_neg" _ _ (CHyperboloid.negPoint M a c) fuel fuel 0 0 vc
        ⟨_, by rw [CHyperboloid.negSamples binary32 binary32_mirrored, hus2]; rfl⟩ hvs
      rw [hneg]
      exact ⟨_, rfl⟩
    · rw [if_neg h2]
      exact ⟨_, rfl⟩
  · rw [if_neg h1]
    have hstart : (binary32 : FloatArith K).mul (-1)
        ((binary32 : FloatArith K).add uMax ((binary32 : FloatArith K).div uIncrement 5)) =
        -CHyperboloid.uBound binary32 uMax uIncrement := binary32_mirrored.2 _ _
    rw [hstart]
    exact CHyperboloid.uLoopFloat_returns binary32 M vIncrement "" _ _
      (CHyperboloid.onePoint M a c) fuel fuel _ 0 0
      (loopSamples_binary32 (CHyperboloid.uBound binary32 uMax uIncrement) uIncrement hu fuel _
        (by rw [round32_neg, hBu])
        (by
          rcases le_total 0 (CHyperboloid.uBound binary32 uMax uIncrement) with h | h
          · exact Or.inl (by rw [abs_neg, abs_of_nonneg h])
          · exact Or.inr (by linarith))
        (by
          have := le_abs_self (CHyperboloid.uBound binary32 uMax uIncrement)
          linarith))
      hvs

/-- The build in binary32 arithmetic returns under the same conditions. -/
theorem CHyperboloid.UpdateEntityFloat_returns (M : CMath K)
    (A C UMax UIncrement VIncrement Sheet : K) (fuel : Nat)
    (hu : CHyperboloid.uBound binary32 UMax ((binary32 : FloatArith K).div UMax UIncrement) ≤ 0 ∨
      (2 : K) ^ ulpExponent
          (CHyperboloid.uBound binary32 UMax ((binary32 : FloatArith K).div UMax UIncrement)) ≤
        (binary32 : FloatArith K).div UMax UIncrement)
    (hv : CHyperboloid.vBound binary32 M ((binary32 : FloatArith K).div M.M_PI VIncrement) ≤ 0 ∨
      (2 : K) ^ ulpExponent
          (CHyperboloid.vBound binary32 M ((binary32 : FloatArith K).div M.M_PI VIncrement)) ≤
        (binary32 : FloatArith K).div M.M_PI VIncrement)
    (hfu : 2 * |CHyperboloid.uBound binary32 UMax
        ((binary32 : FloatArith K).div UMax UIncrement)| ≤ (fuel : K) * (2 : K) ^ (-149 : Int))
    (hfv : |CHyperboloid.vBound binary32 M ((binary32 : FloatArith K).div M.M_PI VIncrement)| ≤
      (fuel : K) * (2 : K) ^ (-149 : Int)) :
    ∃ calls, CHyperboloid.UpdateEntityFloat binary32 M fuel A C UMax UIncrement VIncrement
      Sheet = some calls := by
  obtain ⟨⟨vs, uc, vc⟩, h⟩ := CHyperboloid.addVerticesFloat_returns M A C UMax
    ((binary32 : FloatArith K).div UMax UIncrement)
    ((binary32 : FloatArith K).div M.M_PI VIncrement) (CHyperboloid.validSheet Sheet) fuel
    hu hv hfu hfv
  unfold CHyperboloid.UpdateEntityFloat
  simp only []
  rw [h]
  exact ⟨_, rfl⟩

end FloatTermination

/-! ## Hyperboloid: claims on every returning build -/

section HyperboloidEveryBuildClaims

variable {K : Type} [LinearOrderedField K] [FloorRing K]

/-- C2. Hyperboloid producer, referential closure: for every input (every
`Sheet`, `UMax`, and step counts `UIncrement`, `VIncrement`, whole or not) and
every amount of fuel, whenever the build returns, at every `AddFace` call each
vertex name of the face was passed to `AddVertex` by an earlier call; for
`Sheet = 2` this covers the `_pos` and the `_neg` faces, both bounded by the
counters the negative-sheet vertex loop leaves.  This holds for the build in
binary32 arithmetic and for the build in exact arithmetic.  The build does
return, referentially closed: in binary32 arithmetic whenever each float
increment is at least one unit in the last place of the bound of its loop (or
that bound is not positive), within `2 * bound / 2^-149` iterations; in exact
arithmetic (`M_PI > 0`) for `UMax ≥ 0` and positive step counts, whole or
not, as soon as every float loop may run `⌈2 * UIncrement + 2/5⌉` and
`⌈2 * VIncrement + 1/5⌉` iterations. -/
theorem CHyperboloid.hyperboloid_refClosed :
    (∀ (M : CMath K) (fuel : Nat) (A C UMax UIncrement VIncrement Sheet : K)
      (calls : List (SinkCall K)),
      CHyperboloid.UpdateEntityFloat binary32 M fuel A C UMax UIncrement VIncrement Sheet =
        some calls → RefClosed calls) ∧
    (∀ (M : CMath K) (fuel : Nat) (A C UMax UIncrement VIncrement Sheet : K)
      (calls : List (SinkCall K)),
      CHyperboloid.UpdateEntity M fuel A C UMax UIncrement VIncrement Sheet = some calls →
        RefClosed calls) ∧
    (∀ (M : CMath K) (A C UMax UIncrement VIncrement Sheet : K) (fuel : Nat),
      (CHyperboloid.uBound binary32 UMax ((binary32 : FloatArith K).div UMax UIncrement) ≤ 0 ∨
        (2 : K) ^ ulpExponent (CHyperboloid.uBound binary32 UMax
            ((binary32 : FloatArith K).div UMax UIncrement)) ≤
          (binary32 : FloatArith K).div UMax UIncrement) →
      (CHyperboloid.vBound binary32 M ((binary32 : FloatArith K).div M.M_PI VIncrement) ≤ 0 ∨
        (2 : K) ^ ulpExponent (CHyperboloid.vBound binary32 M
            ((binary32 : FloatArith K).div M.M_PI VIncrement)) ≤
          (binary32 : FloatArith K).div M.M_PI VIncrement) →
      2 * |CHyperboloid.uBound binary32 UMax
          ((binary32 : FloatArith K).div UMax UIncrement)| ≤
        (fuel : K) * (2 : K) ^ (-149 : Int) →
      |CHyperboloid.vBound binary32 M ((binary32 : FloatArith K).div M.M_PI VIncrement)| ≤
        (fuel : K) * (2 : K) ^ (-149 : Int) →
      ∃ calls, CHyperboloid.UpdateEntityFloat binary32 M fuel A C UMax UIncrement VIncrement
        Sheet = some calls ∧ RefClosed calls) ∧
    (∀ (M : CMath K) (A C UMax UIncrement VIncrement Sheet : K) (fuel : Nat),
      0 < M.M_PI → 0 ≤ UMax → 0 < UIncrement → 0 < VIncrement →
      ⌈2 * UIncrement + 2 / 5⌉₊ ≤ fuel → ⌈2 * VIncrement + 1 / 5⌉₊ ≤ fuel →
      ∃ calls, CHyperboloid.UpdateEntity M fuel A C UMax UIncrement VIncrement Sheet =
        some calls ∧ RefClosed calls) := by
  refine ⟨fun M fuel A C UMax UIncrement VIncrement Sheet calls h =>
      CHyperboloid.UpdateEntityFloat_refClosed binary32 binary32_mirrored M fuel A C UMax
        UIncrement VIncrement Sheet calls h,
    fun M fuel A C UMax UIncrement VIncrement Sheet calls h =>
      CHyperboloid.UpdateEntity_refClosed M fuel A C UMax UIncrement VIncrement Sheet calls h,
    fun M A C UMax UIncrement VIncrement Sheet fuel hu hv hfu hfv => ?_,
    fun M A C UMax UIncrement VIncrement Sheet fuel hpi hU hx hy hfu hfv => ?_⟩
  · obtain ⟨calls, h⟩ := CHyperboloid.UpdateEntityFloat_returns M A C UMax UIncrement VIncrement
      Sheet fuel hu hv hfu hfv
    exact ⟨calls, h,
      CHyperboloid.UpdateEntityFloat_refClosed binary32 binary32_mirrored M fuel A C UMax
        UIncrement VIncrement Sheet calls h⟩
  obtain ⟨calls, h⟩ := CHyperboloid.UpdateEntity_returns M hpi A C UMax UIncrement VIncrement
    Sheet hU hx hy fuel hfu hfv
  exact ⟨calls, h,
    CHyperboloid.UpdateEntity_refClosed M fuel A C UMax UIncrement VIncrement Sheet calls h⟩

/-- The face set of a returning float build, in terms of the counters the
vertex loops leave. -/
theorem CHyperboloid.UpdateEntityFloat_faces (F : FloatArith K) (hF : F.Mirrored)
    (M : CMath K) (fuel : Nat) (A C UMax UIncrement VIncrement Sheet : K)
    (calls : List (SinkCall K))
    (h : CHyperboloid.UpdateEntityFloat F M fuel A C UMax UIncrement VIncrement Sheet =
      some calls) :
    ∃ (vs : List (SinkCall K)) (U V : Nat),
      CHyperboloid.addVerticesFloat F M fuel A C UMax (F.div UMax UIncrement)
        (F.div M.M_PI VIncrement) (CHyperboloid.validSheet Sheet) = some (vs, U, V) ∧
      vertexNames calls =
        ((CHyperboloid.sheetSuffixes (CHyperboloid.validSheet Sheet)).flatMap fun suffix =>
          (List.range U).flatMap fun u =>
            (List.range V).map fun v => CHyperboloid.vName u v suffix) ∧
      faces calls =
        (if CHyperboloid.validSheet Sheet > 0 then
          CHyperboloid.quads "_pos" U V 0 ++
            (if CHyperboloid.validSheet Sheet = 2 then
              CHyperboloid.quads "_neg" U V ((U - 1) * (V - 1))
            else [])
        else CHyperboloid.quads "" U V 0) ∧
      (faces calls).length =
        (CHyperboloid.sheetSuffixes (CHyperboloid.validSheet Sheet)).length *
          ((U - 1) * (V - 1)) := by
  unfold CHyperboloid.UpdateEntityFloat at h
  simp only [] at h
  cases hv : CHyperboloid.addVerticesFloat F M fuel A C UMax (F.div UMax UIncrement)
      (F.div M.M_PI VIncrement) (CHyperboloid.validSheet Sheet) with
  | none => rw [hv] at h; simp at h
  | some r =>
    obtain ⟨vx, uc, vc⟩ := r
    rw [hv] at h
    simp only [Option.some.injEq] at h
    obtain ⟨us, vs, rfl, rfl, rfl⟩ :=
      CHyperboloid.addVerticesFloat_shape F hF _ _ _ _ _ _ _ _ _ _ _ hv
    subst h
    have hno : vertexNames (CHyperboloid.addFaces K (CHyperboloid.validSheet Sheet)
        us.length vs.length) = [] := by
      simp [vertexNames, CHyperboloid.hyperboloid_vertices_addFaces]
    have hfaces : faces
        ((if CHyperboloid.validSheet Sheet > 0 then
          CHyperboloid.gridOf "_pos" (CHyperboloid.posPoint M A C) vs 0 us ++
            (if CHyperboloid.validSheet Sheet = 2 then
              CHyperboloid.gridOf "_neg" (CHyperboloid.negPoint M A C) vs 0
                (us.map fun u => -u)
            else [])
        else CHyperboloid.gridOf "" (CHyperboloid.onePoint M A C) vs 0 us) ++
        CHyperboloid.addFaces K (CHyperboloid.validSheet Sheet) us.length vs.length) =
        (if CHyperboloid.validSheet Sheet > 0 then
            CHyperboloid.quads "_pos" us.length vs.length 0 ++
              (if CHyperboloid.validSheet Sheet = 2 then
                CHyperboloid.quads "_neg" us.length vs.length
                  ((us.length - 1) * (vs.length - 1))
              else [])
          else CHyperboloid.quads "" us.length vs.length 0) := by
      rw [faces_append, CHyperboloid.faces_shape, List.nil_append,
        CHyperboloid.faces_addFaces_eq]
    refine ⟨_, _, _, rfl, ?_, hfaces, ?_⟩
    · rw [vertexNames_append, hno, List.append_nil, CHyperboloid.vertexNames_shape]
    · rw [hfaces]
      unfold CHyperboloid.sheetSuffixes
      by_cases h1 : CHyperboloid.validSheet Sheet > 0
      · by_cases h2 : CHyperboloid.validSheet Sheet = 2
        · simp [h1, h2, CHyperboloid.length_quads]
          ring
        · simp [h1, h2, CHyperboloid.length_quads]
      · simp [h1, CHyperboloid.length_quads]

/-- C13. Hyperboloid face set and winding: for every input (every `Sheet`,
step counts whole or not) and every amount of fuel, whenever the build
returns, the vertex loops have left counters `U` and `V`, the vertices are,
per sheet, `U` rings of `V` vertices, and the build adds per sheet exactly the
faces `CHyperboloid.quads`: one for each `(u, v)` with `u < U - 1`,
`v < V - 1`, that is `(U - 1) * (V - 1)` faces per sheet, each listing the
names of `(u, v)`, `(u + 1, v)`, `(u + 1, v + 1)`, `(u, v + 1)` in that order
with the sheet's suffix.  This holds for the build in every float arithmetic
that is symmetric under negation: binary32 is, and so is exact arithmetic,
whose build is `CHyperboloid.UpdateEntity`.  The build does return: in
binary32 arithmetic whenever each float increment is at least one unit in the
last place of the bound of its loop (or that bound is not positive); in exact
arithmetic (`M_PI > 0`) for `UMax ≥ 0` and positive step counts, whole or not.
The order of a quad is the sphere's closed quad `(i, j + 1)`, `(i, j)`,
`(i + 1, j)`, `(i + 1, j + 1)` rotated by one place. -/
theorem CHyperboloid.face_set_and_winding :
    (∀ (F : FloatArith K), F.Mirrored →
      ∀ (M : CMath K) (fuel : Nat) (A C UMax UIncrement VIncrement Sheet : K)
        (calls : List (SinkCall K)),
      CHyperboloid.UpdateEntityFloat F M fuel A C UMax UIncrement VIncrement Sheet =
        some calls →
      ∃ (vs : List (SinkCall K)) (U V : Nat),
        CHyperboloid.addVerticesFloat F M fuel A C UMax (F.div UMax UIncrement)
          (F.div M.M_PI VIncrement) (CHyperboloid.validSheet Sheet) = some (vs, U, V) ∧
        vertexNames calls =
          ((CHyperboloid.sheetSuffixes (CHyperboloid.validSheet Sheet)).flatMap fun suffix =>
            (List.range U).flatMap fun u =>
              (List.range V).map fun v => CHyperboloid.vName u v suffix) ∧
        faces calls =
          (if CHyperboloid.validSheet Sheet > 0 then
            CHyperboloid.quads "_pos" U V 0 ++
              (if CHyperboloid.validSheet Sheet = 2 then
                CHyperboloid.quads "_neg" U V ((U - 1) * (V - 1))
              else [])
          else CHyperboloid.quads "" U V 0) ∧
        (faces calls).length =
          (CHyperboloid.sheetSuffixes (CHyperboloid.validSheet Sheet)).length *
            ((U - 1) * (V - 1))) ∧
    (binary32 : FloatArith K).Mirrored ∧
    (exactArith : FloatArith K).Mirrored ∧
    (∀ (M : CMath K) (fuel : Nat) (A C UMax UIncrement VIncrement Sheet : K),
      CHyperboloid.UpdateEntityFloat exactArith M fuel A C UMax UIncrement VIncrement Sheet =
        CHyperboloid.UpdateEntity M fuel A C UMax UIncrement VIncrement Sheet) ∧
    (∀ (M : CMath K) (A C UMax UIncrement VIncrement Sheet : K) (fuel : Nat),
      (CHyperboloid.uBound binary32 UMax ((binary32 : FloatArith K).div UMax UIncrement) ≤ 0 ∨
        (2 : K) ^ ulpExponent (CHyperboloid.uBound binary32 UMax
            ((binary32 : FloatArith K).div UMax UIncrement)) ≤
          (binary32 : FloatArith K).div UMax UIncrement) →
      (CHyperboloid.vBound binary32 M ((binary32 : FloatArith K).div M.M_PI VIncrement) ≤ 0 ∨
        (2 : K) ^ ulpExponent (CHyperboloid.vBound binary32 M
            ((binary32 : FloatArith K).div M.M_PI VIncrement)) ≤
          (binary32 : FloatArith K).div M.M_PI VIncrement) →
      2 * |CHyperboloid.uBound binary32 UMax
          ((binary32 : FloatArith K).div UMax UIncrement)| ≤
        (fuel : K) * (2 : K) ^ (-149 : Int) →
      |CHyperboloid.vBound binary32 M ((binary32 : FloatArith K).div M.M_PI VIncrement)| ≤
        (fuel : K) * (2 : K) ^ (-149 : Int) →
      ∃ calls, CHyperboloid.UpdateEntityFloat binary32 M fuel A C UMax UIncrement VIncrement
        Sheet = some calls) ∧
    (∀ (M : CMath K) (A C UMax UIncrement VIncrement Sheet : K) (fuel : Nat),
      0 < M.M_PI → 0 ≤ UMax → 0 < UIncrement → 0 < VIncrement →
      ⌈2 * UIncrement + 2 / 5⌉₊ ≤ fuel → ⌈2 * VIncrement + 1 / 5⌉₊ ≤ fuel →
      ∃ calls, CHyperboloid.UpdateEntity M fuel A C UMax UIncrement VIncrement Sheet =
        some calls) ∧
    (∀ (suffix : String) (U V faceCounter : Nat),
      (CHyperboloid.quads suffix U V faceCounter).length = (U - 1) * (V - 1)) ∧
    (∀ u v : Nat,
      ([(u, v), (u + 1, v), (u + 1, v + 1), (u, v + 1)] : List (Nat × Nat)) =
        [(u, v + 1), (u, v), (u + 1, v), (u + 1, v + 1)].rotate 1) ∧
    (∀ i j : Nat, CSphere.upperFace true i j =
      [(i, j + 1), (i, j), (i + 1, j), (i + 1, j + 1)].map fun p =>
        CSphere.vName p.1 p.2) :=
  ⟨fun F hF M fuel A C UMax UIncrement VIncrement Sheet calls h =>
      CHyperboloid.UpdateEntityFloat_faces F hF M fuel A C UMax UIncrement VIncrement Sheet
        calls h,
    binary32_mirrored, exactArith_mirrored,
    fun M fuel A C UMax UIncrement VIncrement Sheet =>
      CHyperboloid.UpdateEntity_exactArith M fuel A C UMax UIncrement VIncrement Sheet,
    fun M A C UMax UIncrement VIncrement Sheet fuel hu hv hfu hfv =>
      CHyperboloid.UpdateEntityFloat_returns M A C UMax UIncrement VIncrement Sheet fuel hu hv
        hfu hfv,
    fun M A C UMax UIncrement VIncrement Sheet fuel hpi hU hx hy hfu hfv =>
      CHyperboloid.UpdateEntity_returns M hpi A C UMax UIncrement VIncrement Sheet hU hx hy
        fuel hfu hfv,
    fun suffix U V faceCounter => CHyperboloid.length_quads _ _ _ _,
    fun u v => rfl, fun i j => rfl⟩

end HyperboloidEveryBuildClaims

section HyperboloidMirror

/-- C18. Same-index mirror in the two-sheet hyperboloid: with the positions in
exact real arithmetic, for every input whose sheet mode is `2` (step counts
whole or not) and every amount of fuel, whenever the build returns and the
vertex `v_<k>_<m>_pos` is at `(x, y, z)`, the vertex `v_<k>_<m>_neg` is at
`(x, y, -z)`: index by index the `_neg` sheet is the mirror image of the
`_pos` sheet in the plane `z = 0`.  This holds with the loop control in every
float arithmetic that is symmetric under negation, at every value of
`(float)M_PI`: in binary32, and in exact arithmetic, whose build is
`CHyperboloid.UpdateEntity`.  The build does return: in binary32 arithmetic
whenever each float increment is at least one unit in the last place of the
bound of its loop (or that bound is not positive), in exact arithmetic for
`UMax ≥ 0` and positive step counts.  It is not the index-by-index point
reflection: for `A ≠ 0`, `UMax > 0` and whole step counts there is a `_pos`
vertex at `(x, y, z)` whose same-index `_neg` vertex is not at
`(-x, -y, -z)`. -/
theorem CHyperboloid.same_index_mirror :
    (∀ (F : FloatArith ℝ), F.Mirrored →
      ∀ (floatPi : ℝ) (fuel : Nat) (A C UMax UIncrement VIncrement Sheet : ℝ)
        (calls : List (SinkCall ℝ)),
      CHyperboloid.validSheet Sheet = 2 →
      CHyperboloid.UpdateEntityFloat F
        ⟨floatPi, Real.cos, Real.sin, Real.sinh, Real.cosh, Real.sqrt⟩
        fuel A C UMax UIncrement VIncrement Sheet = some calls →
      ∀ (k m : Nat) (pos : Vector3 ℝ),
        (CHyperboloid.vName k m "_pos", pos) ∈ vertices calls →
          (CHyperboloid.vName k m "_neg", (⟨pos.x, pos.y, -pos.z⟩ : Vector3 ℝ)) ∈
            vertices calls) ∧
    (binary32 : FloatArith ℝ).Mirrored ∧
    (∀ (floatPi A C UMax UIncrement VIncrement : ℝ) (fuel : Nat),
      (CHyperboloid.uBound binary32 UMax ((binary32 : FloatArith ℝ).div UMax UIncrement) ≤ 0 ∨
        (2 : ℝ) ^ ulpExponent (CHyperboloid.uBound binary32 UMax
            ((binary32 : FloatArith ℝ).div UMax UIncrement)) ≤
          (binary32 : FloatArith ℝ).div UMax UIncrement) →
      (CHyperboloid.vBound binary32
          ⟨floatPi, Real.cos, Real.sin, Real.sinh, Real.cosh, Real.sqrt⟩ ((binary32 : FloatArith ℝ).div floatPi VIncrement) ≤ 0 ∨
        (2 : ℝ) ^ ulpExponent (CHyperboloid.vBound binary32
          ⟨floatPi, Real.cos, Real.sin, Real.sinh, Real.cosh, Real.sqrt⟩
            ((binary32 : FloatArith ℝ).div floatPi VIncrement)) ≤
          (binary32 : FloatArith ℝ).div floatPi VIncrement) →
      2 * |CHyperboloid.uBound binary32 UMax
          ((binary32 : FloatArith ℝ).div UMax UIncrement)| ≤
        (fuel : ℝ) * (2 : ℝ) ^ (-149 : Int) →
      |CHyperboloid.vBound binary32
          ⟨floatPi, Real.cos, Real.sin, Real.sinh, Real.cosh, Real.sqrt⟩ ((binary32 : FloatArith ℝ).div floatPi VIncrement)| ≤
        (fuel : ℝ) * (2 : ℝ) ^ (-149 : Int) →
      ∃ calls, CHyperboloid.UpdateEntityFloat binary32
        ⟨floatPi, Real.cos, Real.sin, Real.sinh, Real.cosh, Real.sqrt⟩
        fuel A C UMax UIncrement VIncrement 2 = some calls) ∧
    (∀ (fuel : Nat) (A C UMax UIncrement VIncrement Sheet : ℝ) (calls : List (SinkCall ℝ)),
      CHyperboloid.validSheet Sheet = 2 →
      CHyperboloid.UpdateEntity ⟨Real.pi, Real.cos, Real.sin, Real.sinh, Real.cosh, Real.sqrt⟩
        fuel A C UMax UIncrement VIncrement Sheet = some calls →
      ∀ (k m : Nat) (pos : Vector3 ℝ),
        (CHyperboloid.vName k m "_pos", pos) ∈ vertices calls →
          (CHyperboloid.vName k m "_neg", (⟨pos.x, pos.y, -pos.z⟩ : Vector3 ℝ)) ∈
            vertices calls) ∧
    (∀ (A C UMax UIncrement VIncrement : ℝ) (fuel : Nat),
      0 ≤ UMax → 0 < UIncrement → 0 < VIncrement →
      ⌈2 * UIncrement + 2 / 5⌉₊ ≤ fuel → ⌈2 * VIncrement + 1 / 5⌉₊ ≤ fuel →
      ∃ calls, CHyperboloid.UpdateEntity
        ⟨Real.pi, Real.cos, Real.sin, Real.sinh, Real.cosh, Real.sqrt⟩
        fuel A C UMax UIncrement VIncrement 2 = some calls) ∧
    (∀ (A C UMax : ℝ) (s t fuel : Nat), A ≠ 0 → 0 < UMax → 0 < s → 0 < t →
      2 * s + 1 ≤ fuel → 2 * t + 1 ≤ fuel →
      ∃ calls, CHyperboloid.UpdateEntity
          ⟨Real.pi, Real.cos, Real.sin, Real.sinh, Real.cosh, Real.sqrt⟩
          fuel A C UMax (s : ℝ) (t : ℝ) 2 = some calls ∧
        ∃ (k m : Nat) (pos : Vector3 ℝ),
          (CHyperboloid.vName k m "_pos", pos) ∈ vertices calls ∧
            (CHyperboloid.vName k m "_neg", (⟨-pos.x, -pos.y, -pos.z⟩ : Vector3 ℝ)) ∉
              vertices calls) := by
  have key : ∀ (F : FloatArith ℝ), F.Mirrored →
      ∀ (floatPi : ℝ) (fuel : Nat) (A C UMax UIncrement VIncrement Sheet : ℝ)
        (calls : List (SinkCall ℝ)),
      CHyperboloid.validSheet Sheet = 2 →
      CHyperboloid.UpdateEntityFloat F
        ⟨floatPi, Real.cos, Real.sin, Real.sinh, Real.cosh, Real.sqrt⟩
        fuel A C UMax UIncrement VIncrement Sheet = some calls →
      ∀ (k m : Nat) (pos : Vector3 ℝ),
        (CHyperboloid.vName k m "_pos", pos) ∈ vertices calls →
          (CHyperboloid.vName k m "_neg", (⟨pos.x, pos.y, -pos.z⟩ : Vector3 ℝ)) ∈
            vertices calls := by
    intro F hF floatPi fuel A C UMax UIncrement VIncrement Sheet calls hS h k m pos hmem
    obtain ⟨us, vs, rfl⟩ := CHyperboloid.UpdateEntityFloat_shape F hF _ fuel A C UMax UIncrement
      VIncrement Sheet calls h
    rw [hS, if_pos (by decide), if_pos rfl, vertices_append,
      CHyperboloid.hyperboloid_vertices_addFaces, List.append_nil, vertices_append,
      List.mem_append] at hmem ⊢
    rcases hmem with hp | hp
    · rw [CHyperboloid.mem_vertices_gridOf] at hp
      obtain ⟨k2, m2, u, v, hu, hv, hn, hpos⟩ := hp
      right
      rw [CHyperboloid.mem_vertices_gridOf]
      obtain ⟨e1, e2⟩ := CHyperboloid.hyperboloid_vName_inj_same hn
      refine ⟨k2, m2, -u, v, ?_, hv, by rw [e1, e2], ?_⟩
      · rw [List.getElem?_map, hu]
        rfl
      · rw [hpos]
        simp only [CHyperboloid.negPoint, CHyperboloid.posPoint, Real.sinh_neg, Real.cosh_neg,
          Vector3.mk.injEq]
        refine ⟨by ring, by ring, trivial⟩
    · rw [CHyperboloid.mem_vertices_gridOf] at hp
      obtain ⟨k2, m2, u, v, -, -, hn, -⟩ := hp
      exact absurd (CHyperboloid.hyperboloid_vName_inj ⟨_, rfl⟩ ⟨_, rfl⟩ hn).2.2 (by decide)
  refine ⟨key, binary32_mirrored,
    fun floatPi A C UMax UIncrement VIncrement fuel hu hv hfu hfv =>
      CHyperboloid.UpdateEntityFloat_returns _ A C UMax UIncrement VIncrement 2 fuel hu hv
        hfu hfv, ?_,
    fun A C UMax UIncrement VIncrement fuel hU hx hy hfu hfv =>
      CHyperboloid.UpdateEntity_returns _ Real.pi_pos A C UMax UIncrement VIncrement 2 hU hx hy
        fuel hfu hfv, ?_⟩
  · intro fuel A C UMax UIncrement VIncrement Sheet calls hS h
    rw [← CHyperboloid.UpdateEntity_exactArith] at h
    exact key exactArith exactArith_mirrored Real.pi fuel A C UMax UIncrement VIncrement Sheet
      calls hS h
  · intro A C UMax s t fuel hA hUpos hs ht hfu hfv
    obtain ⟨calls, hrun, hv⟩ := CHyperboloid.vertices_of_build
      (⟨Real.pi, Real.cos, Real.sin, Real.sinh, Real.cosh, Real.sqrt⟩ : CMath ℝ)
      Real.pi_pos A C UMax 2 hUpos.le hs ht fuel hfu hfv
    rw [CHyperboloid.validSheet_two, if_pos (by decide), if_pos rfl,
      CHyperboloid.vertices_grid, CHyperboloid.vertices_grid] at hv
    have hnegmem : ∀ (name : String) (pos : Vector3 ℝ) (k m : Nat),
        name = CHyperboloid.vName k m "_neg" → (name, pos) ∈ vertices calls →
          pos = CHyperboloid.negPoint
            ⟨Real.pi, Real.cos, Real.sin, Real.sinh, Real.cosh, Real.sqrt⟩ A C
            (-((k : ℝ) * (UMax / (s : ℝ)))) ((m : ℝ) * (Real.pi / (t : ℝ))) := by
      intro name pos k m hname hmem
      rw [hv] at hmem
      rcases List.mem_append.1 hmem with h | h
      · rw [List.mem_flatMap] at h
        obtain ⟨k2, -, h⟩ := h
        obtain ⟨m2, -, hEq⟩ := List.mem_map.1 h
        have e1 := (Prod.mk.inj hEq).1
        rw [hname] at e1
        exact absurd (CHyperboloid.hyperboloid_vName_inj ⟨_, rfl⟩ ⟨_, rfl⟩ e1).2.2 (by decide)
      · rw [List.mem_flatMap] at h
        obtain ⟨k2, hk2, h⟩ := h
        obtain ⟨m2, hm2, hEq⟩ := List.mem_map.1 h
        obtain ⟨e1, e2⟩ := Prod.mk.inj hEq
        rw [hname] at e1
        obtain ⟨rfl, rfl⟩ := CHyperboloid.hyperboloid_vName_inj_same e1
        exact e2.symm
    have hs' : (0 : ℝ) < (s : ℝ) := by exact_mod_cast hs
    have hx : A * Real.sinh ((1 : Nat) * (UMax / (s : ℝ))) ≠ 0 := by
      apply mul_ne_zero hA
      apply ne_of_gt
      rw [Real.sinh_pos_iff]
      simpa using div_pos hUpos hs'
    refine ⟨calls, hrun, 1, 0, CHyperboloid.posPoint
      ⟨Real.pi, Real.cos, Real.sin, Real.sinh, Real.cosh, Real.sqrt⟩ A C
      (((1 : Nat) : ℝ) * (UMax / (s : ℝ))) (((0 : Nat) : ℝ) * (Real.pi / (t : ℝ))), ?_, ?_⟩
    · rw [hv]
      refine List.mem_append_left _ ?_
      rw [List.mem_flatMap]
      refine ⟨1, List.mem_range.2 ?_, List.mem_map.2 ⟨0, List.mem_range.2 (by omega), rfl⟩⟩
      rw [CHyperboloid.ringCount_pos hUpos]
      omega
    · intro hmem
      have h := hnegmem _ _ 1 0 rfl hmem
      have hxx := congrArg Vector3.x h
      simp only [CHyperboloid.negPoint, CHyperboloid.posPoint, Real.sinh_neg, Nat.cast_zero,
        zero_mul, Real.cos_zero, mul_one] at hxx
      apply hx
      linarith
end HyperboloidMirror

section HyperboloidTermination

variable {K : Type} [LinearOrderedField K] [FloorRing K]

end HyperboloidTermination

section HyperboloidFloatScenarios

end HyperboloidFloatScenarios

section HyperboloidFloatBuildScenarios

theorem CHyperboloid.hyperboloid_refClosed_witness :
    (∃ calls, CHyperboloid.UpdateEntityFloat binary32
        (⟨13176795 / 4194304, Real.cos, Real.sin, Real.sinh, Real.cosh, Real.sqrt⟩ : CMath ℝ)
        9 1 1 1 4 4 2 = some calls ∧ RefClosed calls) ∧
      ∃ calls, CHyperboloid.UpdateEntity ratMath 6 1 1 1 (5 / 2) (3 / 2) 2 = some calls ∧
        RefClosed calls :=
  ⟨⟨_, CHyperboloid.UpdateEntityFloat_scenario _ rfl 1 1,
      (@CHyperboloid.hyperboloid_refClosed ℝ _ _).1 _ 9 1 1 1 4 4 2 _
        (CHyperboloid.UpdateEntityFloat_scenario _ rfl 1 1)⟩,
    (@CHyperboloid.hyperboloid_refClosed ℚ _ _).2.2.2 ratMath 1 1 1 (5 / 2) (3 / 2) 2 6
      ratMath_pi_pos (by norm_num) (by norm_num) (by norm_num)
      (by
        have h : ⌈(2 : ℚ) * (5 / 2) + 2 / 5⌉₊ = 6 := by
          rw [Nat.ceil_eq_iff (by norm_num)]
          constructor <;> norm_num
        rw [h])
      (by
        have h : ⌈(2 : ℚ) * (3 / 2) + 1 / 5⌉₊ = 4 := by
          rw [Nat.ceil_eq_iff (by norm_num)]
          constructor <;> norm_num
        rw [h]
        norm_num)⟩

theorem CHyperboloid.face_set_and_winding_witness :
    ∃ calls, CHyperboloid.UpdateEntityFloat binary32
        (⟨13176795 / 4194304, Real.cos, Real.sin, Real.sinh, Real.cosh, Real.sqrt⟩ : CMath ℝ)
        9 1 1 1 4 4 2 = some calls ∧
      (vertexNames calls).length = 2 * (5 * 9) ∧ (faces calls).length = 2 * (4 * 8) := by
  have hrun := CHyperboloid.UpdateEntityFloat_scenario
    (⟨13176795 / 4194304, Real.cos, Real.sin, Real.sinh, Real.cosh, Real.sqrt⟩ : CMath ℝ) rfl 1 1
  obtain ⟨vs, U, V, hav, hnames, -, hlen⟩ :=
    (@CHyperboloid.face_set_and_winding ℝ _ _).1 binary32 binary32_mirrored _ 9 1 1 1 4 4 2 _
      hrun
  rw [CHyperboloid.validSheet_two] at hav hnames hlen
  rw [CHyperboloid.addVerticesFloat_scenario _ rfl 1 1] at hav
  simp only [Option.some.injEq, Prod.mk.injEq] at hav
  obtain ⟨-, rfl, rfl⟩ := hav
  refine ⟨_, hrun, ?_, ?_⟩
  · rw [hnames]
    simp [CHyperboloid.sheetSuffixes, Function.comp_def]
  · rw [hlen]
    simp [CHyperboloid.sheetSuffixes]

theorem CHyperboloid.same_index_mirror_witness :
    ∃ calls, CHyperboloid.UpdateEntityFloat binary32
        (⟨13176795 / 4194304, Real.cos, Real.sin, Real.sinh, Real.cosh, Real.sqrt⟩ : CMath ℝ)
        9 1 1 1 4 4 2 = some calls ∧
      (CHyperboloid.vName 0 0 "_pos",
        CHyperboloid.posPoint
          (⟨13176795 / 4194304, Real.cos, Real.sin, Real.sinh, Real.cosh, Real.sqrt⟩ : CMath ℝ)
          1 1 0 0) ∈ vertices calls ∧
      (CHyperboloid.vName 0 0 "_neg",
        (⟨(CHyperboloid.posPoint
            (⟨13176795 / 4194304, Real.cos, Real.sin, Real.sinh, Real.cosh, Real.sqrt⟩ : CMath ℝ)
            1 1 0 0).x,
          (CHyperboloid.posPoint
            (⟨13176795 / 4194304, Real.cos, Real.sin, Real.sinh, Real.cosh, Real.sqrt⟩ : CMath ℝ)
            1 1 0 0).y,
          -(CHyperboloid.posPoint
            (⟨13176795 / 4194304, Real.cos, Real.sin, Real.sinh, Real.cosh, Real.sqrt⟩ : CMath ℝ)
            1 1 0 0).z⟩ : Vector3 ℝ)) ∈ vertices calls := by
  have hrun := CHyperboloid.UpdateEntityFloat_scenario
    (⟨13176795 / 4194304, Real.cos, Real.sin, Real.sinh, Real.cosh, Real.sqrt⟩ : CMath ℝ) rfl 1 1
  have hmem : (CHyperboloid.vName 0 0 "_pos",
      CHyperboloid.posPoint
        (⟨13176795 / 4194304, Real.cos, Real.sin, Real.sinh, Real.cosh, Real.sqrt⟩ : CMath ℝ)
        1 1 0 0) ∈ vertices
      ((CHyperboloid.gridOf "_pos" (CHyperboloid.posPoint
            (⟨13176795 / 4194304, Real.cos, Real.sin, Real.sinh, Real.cosh, Real.sqrt⟩ : CMath ℝ) 1 1)
          [0, 13176795 / 16777216, 13176795 / 8388608, 2470649 / 1048576, 13176795 / 4194304, 8235497 / 2097152, 2470649 / 524288, 11529695 / 2097152, 6588397 / 1048576]
          0 [0, 1 / 4, 1 / 2, 3 / 4, 1] ++
        CHyperboloid.gridOf "_neg" (CHyperboloid.negPoint
            (⟨13176795 / 4194304, Real.cos, Real.sin, Real.sinh, Real.cosh, Real.sqrt⟩ : CMath ℝ) 1 1)
          [0, 13176795 / 16777216, 13176795 / 8388608, 2470649 / 1048576, 13176795 / 4194304, 8235497 / 2097152, 2470649 / 524288, 11529695 / 2097152, 6588397 / 1048576]
          0 ([0, 1 / 4, 1 / 2, 3 / 4, 1].map fun u => -u)) ++
        CHyperboloid.addFaces ℝ 2 5 9) := by
    rw [vertices_append, vertices_append, List.mem_append, List.mem_append]
    left
    left
    rw [CHyperboloid.mem_vertices_gridOf]
    exact ⟨0, 0, 0, 0, rfl, rfl, rfl, rfl⟩
  exact ⟨_, hrun, hmem,
    CHyperboloid.same_index_mirror.1 binary32 binary32_mirrored _ 9 1 1 1 4 4 2 _
      CHyperboloid.validSheet_two hrun 0 0 _ hmem⟩

end HyperboloidFloatBuildScenarios

end Nome.Scene
